import Mathlib

/-!
# Replication manager and task queue of the object-storage gateway

A shallow embedding of `internal/types`, `internal/storage`, `internal/queue`,
`internal/metadata` and the service of `internal/handler/s3`, followed by the
theorems about them.

Conventions of the embedding.

* A Go `error` is its message: `Option String`, with `none` for `nil`.
* A Go pointer result `*FileObject` is an `Option FileObject` (`none` for `nil`);
  objects are passed by value.
* Interface values (`types.StorageNode`, `storage.ThirdPartyService`) are records
  of functions over an arbitrary world state `W`: a method receives the world
  and returns its results with the new world.
* Every call of an interface method made by the manager is appended, with what
  it returned, to a list of `Call`s; the node of a call is its index in
  `sm.nodes`.
* `fmt.Printf` and `fmt.Println` only write to standard output; they change no
  value that the program reads again and are left out.
-/

/-- A Go `byte`. -/
abbrev Byte := Fin 256

/-- Rendering of an `error` value under the verb `%v`. -/
def fmtV : Option String → String
  | none => "<nil>"
  | some e => e

namespace types

/-- FileObject of `types.go`; `CreatedAt` is a time stamp. -/
structure FileObject where
  ID : String
  Key : String
  Size : Int
  ContentType : String
  MD5Hash : String
  Data : List Byte
  CreatedAt : Nat
deriving DecidableEq, Repr

/-- Results `error` of a node method, with the world it leaves. -/
structure ErrorResult (W : Type) where
  err : Option String
  world : W

/-- Results `(*FileObject, error)` of a method, with the world it leaves. -/
structure ObjectResult (W : Type) where
  obj : Option FileObject
  err : Option String
  world : W

/-- StorageNode interface of `types.go`. -/
structure StorageNode (W : Type) where
  Write : FileObject → W → ErrorResult W
  Read : String → W → ObjectResult W
  Delete : String → W → ErrorResult W
  GetNodeID : String

end types

open types

/-- One call of an interface method, with the values it returned. -/
inductive Call where
  | Write (node : Nat) (obj : FileObject) (err : Option String)
  | Read (node : Nat) (key : String) (obj : Option FileObject) (err : Option String)
  | Delete (node : Nat) (key : String) (err : Option String)
  | GetObject (key : String) (obj : Option FileObject) (err : Option String)
deriving DecidableEq, Repr

/-- The error a call returned. -/
def Call.err : Call → Option String
  | .Write _ _ e => e
  | .Read _ _ _ e => e
  | .Delete _ _ e => e
  | .GetObject _ _ e => e

/-- What a manager method returns, the world it leaves and the calls it made. -/
structure Outcome (α W : Type) where
  ret : α
  world : W
  calls : List Call

namespace storage

/-- ThirdPartyService interface of `manager.go`. -/
structure ThirdPartyService (W : Type) where
  GetObject : String → W → ObjectResult W

/-- Manager of `manager.go`; a `nil` third-party service is `none`. -/
structure Manager (W : Type) where
  nodes : List (StorageNode W)
  thirdPartyService : Option (ThirdPartyService W)

/-- NewManager of `manager.go`. -/
def NewManager (W : Type) : Manager W :=
  ⟨[], none⟩

/-- AddNode of `manager.go`. -/
def Manager.AddNode {W : Type} (sm : Manager W) (node : StorageNode W) : Manager W :=
  ⟨sm.nodes ++ [node], sm.thirdPartyService⟩

/-- SetThirdPartyService of `manager.go`. -/
def Manager.SetThirdPartyService {W : Type} (sm : Manager W)
    (service : ThirdPartyService W) : Manager W :=
  ⟨sm.nodes, some service⟩

/-- The local variables of `WriteToAllNodes` during its loop. -/
structure WriteLoopState (W : Type) where
  lastErr : Option String
  successCount : Nat
  world : W
  calls : List Call

/-- The `for i, node := range sm.nodes` loop of `WriteToAllNodes`, from index `i` on. -/
def writeLoop {W : Type} (obj : FileObject) :
    List (StorageNode W) → Nat → WriteLoopState W → WriteLoopState W
  | [], _, s => s
  | node :: rest, i, s =>
    let r := node.Write obj s.world
    match r.err with
    | some e =>
      writeLoop obj rest (i + 1)
        ⟨some e, s.successCount, r.world, s.calls ++ [Call.Write i obj (some e)]⟩
    | none =>
      writeLoop obj rest (i + 1)
        ⟨s.lastErr, s.successCount + 1, r.world, s.calls ++ [Call.Write i obj none]⟩

/-- The state of the local variables of `WriteToAllNodes` when its loop ends. -/
def Manager.writeLoopEnd {W : Type} (sm : Manager W) (obj : FileObject) (w : W) :
    WriteLoopState W :=
  writeLoop obj sm.nodes 0 ⟨none, 0, w, []⟩

/-- WriteToAllNodes of `manager.go`: its only result is an `error`. -/
def Manager.WriteToAllNodes {W : Type} (sm : Manager W) (obj : FileObject) (w : W) :
    Outcome (Option String) W :=
  let s := sm.writeLoopEnd obj w
  if s.successCount = 0 then
    ⟨some ("failed to write to any storage node, last error: " ++ fmtV s.lastErr),
      s.world, s.calls⟩
  else
    ⟨none, s.world, s.calls⟩

/-- The part of `ReadFromStg1OrThirdParty` after the attempt on stg1
(lines 80 to 92), entered in world `w` after the calls `calls`. -/
def Manager.readThirdParty {W : Type} (sm : Manager W) (key : String) (w : W)
    (calls : List Call) : Outcome (Option FileObject × Option String) W :=
  match sm.thirdPartyService with
  | some service =>
    let r := service.GetObject key w
    match r.err with
    | some e =>
      ⟨(none, some ("failed to get object from third party service: " ++ e)),
        r.world, calls ++ [Call.GetObject key r.obj (some e)]⟩
    | none => ⟨(r.obj, none), r.world, calls ++ [Call.GetObject key r.obj none]⟩
  | none =>
    ⟨(none, some ("failed to read file " ++ key ++
        " from stg1 and no third party service configured")), w, calls⟩

/-- ReadFromStg1OrThirdParty of `manager.go`. -/
def Manager.ReadFromStg1OrThirdParty {W : Type} (sm : Manager W) (key : String) (w : W) :
    Outcome (Option FileObject × Option String) W :=
  match sm.nodes with
  | stg1Node :: _ =>
    if stg1Node.GetNodeID = "stg1" then
      let r := stg1Node.Read key w
      match r.err with
      | none => ⟨(r.obj, none), r.world, [Call.Read 0 key r.obj none]⟩
      | some e => sm.readThirdParty key r.world [Call.Read 0 key r.obj (some e)]
    else
      sm.readThirdParty key w []
  | [] => sm.readThirdParty key w []

/-- The `for _, node := range sm.nodes` loop of `ReadFromAnyNode`, from index `i` on,
followed by the final `return`. -/
def readLoop {W : Type} (key : String) :
    List (StorageNode W) → Nat → W → List Call →
      Outcome (Option FileObject × Option String) W
  | [], _, w, calls =>
    ⟨(none, some ("failed to read file " ++ key ++ " from any storage node")), w, calls⟩
  | node :: rest, i, w, calls =>
    let r := node.Read key w
    match r.err with
    | none => ⟨(r.obj, none), r.world, calls ++ [Call.Read i key r.obj none]⟩
    | some e => readLoop key rest (i + 1) r.world (calls ++ [Call.Read i key r.obj (some e)])

/-- ReadFromAnyNode of `manager.go`. -/
def Manager.ReadFromAnyNode {W : Type} (sm : Manager W) (key : String) (w : W) :
    Outcome (Option FileObject × Option String) W :=
  readLoop key sm.nodes 0 w []

/-- GetNodes of `manager.go`. -/
def Manager.GetNodes {W : Type} (sm : Manager W) : List (StorageNode W) :=
  sm.nodes

/-- GetNodeIDs of `manager.go`. -/
def Manager.GetNodeIDs {W : Type} (sm : Manager W) : List String :=
  sm.nodes.map (fun node => node.GetNodeID)

/-- The calls `Write` on the nodes numbered from `i` on, returning `errs` in turn. -/
def writeCalls (obj : FileObject) (i : Nat) (errs : List (Option String)) : List Call :=
  List.zipWith (fun k e => Call.Write k obj e) (List.range' i errs.length) errs

/-- The world in which `ReadFromStg1OrThirdParty` leaves its attempt on stg1:
the world after the `Read` of the first node when that node is named stg1, the
world it started in otherwise. -/
def Manager.worldAfterStg1 {W : Type} (sm : Manager W) (key : String) (w : W) : W :=
  match sm.nodes with
  | stg1Node :: _ => if stg1Node.GetNodeID = "stg1" then (stg1Node.Read key w).world else w
  | [] => w

end storage

/-! ## The file system under the file storage node

A model of the calls of Go's `os`, `path/filepath` and `encoding/hex` packages
that `storage.go` makes, on a POSIX file system without symbolic links and
without permission or device failures.  A path is looked up under its cleaned
form; a path made of `..` elements only (the working directory, the root and
their parents) always is a directory. -/

namespace filepath

/-- The elements of a path between its separators. -/
def splitSep : List Char → List (List Char)
  | [] => [[]]
  | c :: cs =>
    match splitSep cs with
    | [] => [[c]]
    | x :: xs => if c = '/' then [] :: x :: xs else (c :: x) :: xs

/-- A cleaned path: whether it starts at the root, and its elements, none of
which is empty or `.`, and `..` only in front of a path that is not rooted. -/
structure CPath where
  rooted : Bool
  elems : List String
deriving DecidableEq, Repr

/-- One element pushed on the elements cleaned so far, kept in reverse. -/
def cleanStep (rooted : Bool) (acc : List String) (e : String) : List String :=
  if e = "" ∨ e = "." then acc
  else if e = ".." then
    match acc with
    | [] => if rooted then [] else [".."]
    | top :: below => if top = ".." then ".." :: top :: below else below
  else e :: acc

/-- The cleaned form of a path name, as `filepath.Clean` computes it. -/
def cleanPath (name : String) : CPath :=
  let rooted := name.data.head? = some '/'
  ⟨rooted, ((splitSep name.data).map String.mk |>.foldl (cleanStep rooted) []).reverse⟩

/-- The name of a cleaned path. -/
def CPath.name (p : CPath) : String :=
  if p.rooted then "/" ++ "/".intercalate p.elems
  else if p.elems = [] then "." else "/".intercalate p.elems

/-- Clean of `path/filepath`. -/
def Clean (name : String) : String :=
  (cleanPath name).name

/-- Join of `path/filepath`, for the two elements `storage.go` passes. -/
def Join (a b : String) : String :=
  if a ≠ "" then Clean (a ++ "/" ++ b)
  else if b ≠ "" then Clean b
  else ""

/-- Dir of `path/filepath`: the name up to its last separator, cleaned. -/
def Dir (name : String) : String :=
  Clean (String.mk (name.data.reverse.dropWhile (fun c => c ≠ '/')).reverse)

end filepath

namespace os

open filepath

/-- The error numbers the modelled calls return. -/
inductive Errno where
  | ENOENT
  | ENOTDIR
  | EISDIR
  | ENOTEMPTY
  | EINVAL
deriving DecidableEq, Repr

/-- Text of an error number. -/
def Errno.Error : Errno → String
  | .ENOENT => "no such file or directory"
  | .ENOTDIR => "not a directory"
  | .EISDIR => "is a directory"
  | .ENOTEMPTY => "directory not empty"
  | .EINVAL => "invalid argument"

/-- PathError of package `os`. -/
structure PathError where
  Op : String
  Path : String
  Err : Errno
deriving DecidableEq, Repr

/-- Text of a `PathError`. -/
def PathError.Error (e : PathError) : String :=
  e.Op ++ " " ++ e.Path ++ ": " ++ e.Err.Error

/-- IsNotExist of package `os`. -/
def IsNotExist (err : Option PathError) : Bool :=
  match err with
  | some e => e.Err = Errno.ENOENT
  | none => false

/-- What a path holds: a file with its bytes and modification time, or a directory. -/
inductive Entry where
  | file (data : List Byte) (modTime : Nat)
  | dir
deriving DecidableEq, Repr

/-- The state of the operating system: the entries of the file system under
their cleaned paths, each path at most once, and the clock. -/
structure OS where
  files : List (CPath × Entry)
  now : Nat
deriving DecidableEq, Repr

/-- The entry at a cleaned path. -/
def OS.lookup (w : OS) (p : CPath) : Option Entry :=
  if p.elems.all (fun e => e = "..") then some Entry.dir
  else w.files.lookup p

/-- The state with the entry at a path replaced. -/
def OS.set (w : OS) (p : CPath) (e : Entry) : OS :=
  ⟨(p, e) :: w.files.filter (fun x => x.1 ≠ p), w.now⟩

/-- The state with the entry at a path removed. -/
def OS.unset (w : OS) (p : CPath) : OS :=
  ⟨w.files.filter (fun x => x.1 ≠ p), w.now⟩

/-- Path resolution: the directories `done`, `done/e1`, ... above the last
element are looked up in turn, then the path itself. -/
def OS.walk (w : OS) (rooted : Bool) : List String → List String → Except Errno Entry
  | done, [] =>
    match w.lookup ⟨rooted, done⟩ with
    | some e => .ok e
    | none => .error Errno.ENOENT
  | done, e :: rest =>
    match w.lookup ⟨rooted, done⟩ with
    | some Entry.dir => OS.walk w rooted (done ++ [e]) rest
    | some (Entry.file _ _) => .error Errno.ENOTDIR
    | none => .error Errno.ENOENT

/-- The entry a cleaned path resolves to. -/
def OS.resolvePath (w : OS) (p : CPath) : Except Errno Entry :=
  w.walk p.rooted [] p.elems

/-- The entry a path name resolves to; the empty name resolves to nothing. -/
def OS.resolve (w : OS) (name : String) : Except Errno Entry :=
  if name = "" then .error Errno.ENOENT
  else w.resolvePath (cleanPath name)

/-- FileInfo of package `os`; size and time of a directory are not modelled. -/
structure FileInfo where
  size : Int
  modTime : Nat
  isDir : Bool
deriving DecidableEq, Repr

/-- The file information of an entry. -/
def Entry.info : Entry → FileInfo
  | .file data modTime => ⟨data.length, modTime, false⟩
  | .dir => ⟨0, 0, true⟩

/-- Stat of package `os`. -/
def Stat (name : String) (w : OS) : Except PathError FileInfo :=
  match w.resolve name with
  | .ok e => .ok e.info
  | .error errno => .error ⟨"stat", name, errno⟩

/-- ReadFile of package `os`. -/
def ReadFile (name : String) (w : OS) : Except PathError (List Byte) :=
  match w.resolve name with
  | .ok (Entry.file data _) => .ok data
  | .ok Entry.dir => .error ⟨"read", name, Errno.EISDIR⟩
  | .error errno => .error ⟨"open", name, errno⟩

/-- The `error` among the results of a call. -/
def errorOf {α : Type} : Except PathError α → Option PathError
  | .ok _ => none
  | .error err => some err

/-- The directories of `MkdirAll`, made from the top down: `done` is a
directory, `done/e1`, `done/e1/e2`, ... are made unless they exist. -/
def mkdirFrom (rooted : Bool) : List String → List String → OS → Option PathError × OS
  | _, [], w => (none, w)
  | done, e :: rest, w =>
    match w.lookup ⟨rooted, done ++ [e]⟩ with
    | some Entry.dir => mkdirFrom rooted (done ++ [e]) rest w
    | some (Entry.file _ _) =>
      (some ⟨"mkdir", (CPath.mk rooted (done ++ [e])).name, Errno.ENOTDIR⟩, w)
    | none => mkdirFrom rooted (done ++ [e]) rest (w.set ⟨rooted, done ++ [e]⟩ Entry.dir)

/-- MkdirAll of package `os`. -/
def MkdirAll (name : String) (w : OS) : Option PathError × OS :=
  if name = "" then (some ⟨"mkdir", name, Errno.ENOENT⟩, w)
  else mkdirFrom (cleanPath name).rooted [] (cleanPath name).elems w

/-- WriteFile of package `os`: the file is created in its directory, or
truncated, and written. -/
def WriteFile (name : String) (data : List Byte) (w : OS) : Option PathError × OS :=
  match w.resolve name with
  | .ok Entry.dir => (some ⟨"open", name, Errno.EISDIR⟩, w)
  | .ok (Entry.file _ _) => (none, w.set (cleanPath name) (Entry.file data w.now))
  | .error Errno.ENOENT =>
    if name = "" then (some ⟨"open", name, Errno.ENOENT⟩, w)
    else
      match w.resolvePath ⟨(cleanPath name).rooted, (cleanPath name).elems.dropLast⟩ with
      | .ok Entry.dir => (none, w.set (cleanPath name) (Entry.file data w.now))
      | .ok (Entry.file _ _) => (some ⟨"open", name, Errno.ENOTDIR⟩, w)
      | .error errno => (some ⟨"open", name, errno⟩, w)
  | .error errno => (some ⟨"open", name, errno⟩, w)

/-- Whether some entry lies directly in the directory at a path. -/
def OS.hasChild (w : OS) (p : CPath) : Bool :=
  w.files.any (fun x => x.1.rooted = p.rooted ∧ x.1.elems ≠ [] ∧ x.1.elems.dropLast = p.elems)

/-- Remove of package `os`: a file or an empty directory is removed. -/
def Remove (name : String) (w : OS) : Option PathError × OS :=
  match w.resolve name with
  | .ok (Entry.file _ _) => (none, w.unset (cleanPath name))
  | .ok Entry.dir =>
    if (cleanPath name).elems.all (fun e => e = "..") then
      (some ⟨"remove", name, Errno.EINVAL⟩, w)
    else if w.hasChild (cleanPath name) then
      (some ⟨"remove", name, Errno.ENOTEMPTY⟩, w)
    else (none, w.unset (cleanPath name))
  | .error errno => (some ⟨"remove", name, errno⟩, w)

end os

namespace hex

/-- The digit of a value below sixteen. -/
def digit (n : Nat) : Char :=
  "0123456789abcdef".data.getD n '0'

/-- EncodeToString of `encoding/hex`. -/
def EncodeToString (src : List Byte) : String :=
  String.mk (src.flatMap (fun b => [digit (b.val / 16), digit (b.val % 16)]))

end hex

namespace storage

open os

/-- calculateMD5 of `storage.go`; `md5Sum` stands for `md5.Sum` of `crypto/md5`,
which returns the sixteen bytes of the digest. -/
def calculateMD5 (md5Sum : List Byte → List Byte) (data : List Byte) : String :=
  hex.EncodeToString (md5Sum data)

/-- FileStorageNode of `storage.go`. -/
structure FileStorageNode where
  nodeID : String
  basePath : String
deriving DecidableEq, Repr

/-- NewFileStorageNode of `storage.go`. -/
def NewFileStorageNode (nodeID basePath : String) (w : OS) :
    (Option FileStorageNode × Option String) × OS :=
  match MkdirAll basePath w with
  | (some err, w1) =>
    ((none, some ("failed to create storage directory " ++ basePath ++ ": " ++ err.Error)), w1)
  | (none, w1) => ((some ⟨nodeID, basePath⟩, none), w1)

/-- GetNodeID of `storage.go`. -/
def FileStorageNode.GetNodeID (fs : FileStorageNode) : String :=
  fs.nodeID

/-- getFilePath of `storage.go`. -/
def FileStorageNode.getFilePath (fs : FileStorageNode) (key : String) : String :=
  filepath.Join fs.basePath key

/-- Write of `storage.go`. -/
def FileStorageNode.Write (md5Sum : List Byte → List Byte) (fs : FileStorageNode)
    (obj : FileObject) (w : OS) : ErrorResult OS :=
  let filePath := fs.getFilePath obj.Key
  let dir := filepath.Dir filePath
  match MkdirAll dir w with
  | (some err, w1) =>
    ⟨some ("failed to create directory " ++ dir ++ ": " ++ err.Error), w1⟩
  | (none, w1) =>
    match WriteFile filePath obj.Data w1 with
    | (some err, w2) =>
      ⟨some ("failed to write file " ++ filePath ++ ": " ++ err.Error), w2⟩
    | (none, w2) =>
      if obj.MD5Hash ≠ "" then
        let calculatedHash := calculateMD5 md5Sum obj.Data
        if calculatedHash ≠ obj.MD5Hash then
          ⟨some ("MD5 hash mismatch: expected " ++ obj.MD5Hash ++ ", got " ++ calculatedHash),
            (Remove filePath w2).2⟩
        else ⟨none, w2⟩
      else ⟨none, w2⟩

/-- Read of `storage.go`. -/
def FileStorageNode.Read (md5Sum : List Byte → List Byte) (fs : FileStorageNode)
    (key : String) (w : OS) : ObjectResult OS :=
  let filePath := fs.getFilePath key
  if IsNotExist (errorOf (Stat filePath w)) then
    ⟨none, some ("file not found: " ++ key), w⟩
  else
    match ReadFile filePath w with
    | .error err =>
      ⟨none, some ("failed to read file " ++ filePath ++ ": " ++ err.Error), w⟩
    | .ok data =>
      match Stat filePath w with
      | .error err =>
        ⟨none, some ("failed to get file info " ++ filePath ++ ": " ++ err.Error), w⟩
      | .ok fileInfo =>
        ⟨some ⟨"", key, fileInfo.size, "", calculateMD5 md5Sum data, data, fileInfo.modTime⟩,
          none, w⟩

/-- Delete of `storage.go`. -/
def FileStorageNode.Delete (fs : FileStorageNode) (key : String) (w : OS) : ErrorResult OS :=
  let filePath := fs.getFilePath key
  match Remove filePath w with
  | (some err, w1) =>
    if !IsNotExist (some err) then
      ⟨some ("failed to delete file " ++ filePath ++ ": " ++ err.Error), w1⟩
    else ⟨none, w1⟩
  | (none, w1) => ⟨none, w1⟩

/-- A file storage node seen through the `StorageNode` interface. -/
def FileStorageNode.asStorageNode (md5Sum : List Byte → List Byte) (fs : FileStorageNode) :
    StorageNode OS :=
  ⟨fs.Write md5Sum, fs.Read md5Sum, fs.Delete, fs.GetNodeID⟩

end storage

/-! ## Tasks, workers and the queue manager

A buffered Go channel is its buffer, its capacity, whether it is closed and the
goroutines parked on a receive, in the order in which they parked.  Each
`go qm.runWorker(worker)` adds a goroutine, which advances by steps of
`runWorkerStep`; the manager methods run under `qm.mutex` and are steps of their
own.  `time.Sleep` is left out. -/

/-- How a call ends: it returns a value, or it panics. -/
inductive Ret (α : Type) where
  | ret (v : α)
  | panic (msg : String)
deriving DecidableEq, Repr

namespace types

/-- The values of type `any` stored in the data of a task. -/
inductive Any where
  | nil
  | string (s : String)
  | int (n : Int)
  | bool (b : Bool)
deriving DecidableEq, Repr

/-- TaskMessage of `types.go`; `Data` lists the entries of the map, the first
entry of a key being its value. -/
structure TaskMessage where
  Type' : String
  ObjectID : String
  Data : List (String × Any)
  CreatedAt : Nat
deriving DecidableEq, Repr

/-- TaskProcessor interface of `types.go`. -/
structure TaskProcessor (W : Type) where
  Process : TaskMessage → W → ErrorResult W

end types

namespace queue

/-- StorageManager interface of `worker.go`. -/
structure StorageManager (W : Type) where
  GetNodes : List (StorageNode W)

/-- Worker of `worker.go`; `tasksProcessed` is an `int64`. -/
structure Worker (W : Type) where
  ID : String
  running : Bool
  tasksProcessed : Int
  processor : Option (TaskProcessor W)
  storageManager : Option (StorageManager W)

/-- NewWorker of `worker.go`. -/
def NewWorker {W : Type} (id : String) (processor : Option (TaskProcessor W)) : Worker W :=
  ⟨id, false, 0, processor, none⟩

/-- SetStorageManager of `worker.go`. -/
def Worker.SetStorageManager {W : Type} (w : Worker W) (sm : StorageManager W) : Worker W :=
  ⟨w.ID, w.running, w.tasksProcessed, w.processor, some sm⟩

/-- Start of `worker.go`. -/
def Worker.Start {W : Type} (w : Worker W) : Worker W :=
  ⟨w.ID, true, w.tasksProcessed, w.processor, w.storageManager⟩

/-- Stop of `worker.go`. -/
def Worker.Stop {W : Type} (w : Worker W) : Worker W :=
  ⟨w.ID, false, w.tasksProcessed, w.processor, w.storageManager⟩

/-- IsRunning of `worker.go`. -/
def Worker.IsRunning {W : Type} (w : Worker W) : Bool :=
  w.running

/-- GetTasksProcessed of `worker.go`. -/
def Worker.GetTasksProcessed {W : Type} (w : Worker W) : Int :=
  w.tasksProcessed

/-- The increment of an `int64`, which wraps around. -/
def incInt64 (n : Int) : Int :=
  if n + 1 = 2 ^ 63 then -(2 ^ 63) else n + 1

/-- processUploadCompleted of `worker.go`. -/
def Worker.processUploadCompleted {W : Type} (_w : Worker W) (_task : TaskMessage) :
    Option String :=
  none

/-- processCleanup of `worker.go`. -/
def Worker.processCleanup {W : Type} (_w : Worker W) (_task : TaskMessage) : Option String :=
  none

/-- processReplicationCheck of `worker.go`. -/
def Worker.processReplicationCheck {W : Type} (_w : Worker W) (_task : TaskMessage) :
    Option String :=
  none

/-- The local variables of `processDeleteFromStorage` during its loop. -/
structure DeleteLoopState (W : Type) where
  lastError : Option String
  deletedCount : Nat
  world : W
  calls : List Call

/-- The `for _, node := range w.storageManager.GetNodes()` loop of
`processDeleteFromStorage`, from index `i` on. -/
def deleteLoop {W : Type} (key : String) :
    List (StorageNode W) → Nat → DeleteLoopState W → DeleteLoopState W
  | [], _, s => s
  | node :: rest, i, s =>
    let r := node.Delete key s.world
    match r.err with
    | some e =>
      deleteLoop key rest (i + 1)
        ⟨some e, s.deletedCount, r.world, s.calls ++ [Call.Delete i key (some e)]⟩
    | none =>
      deleteLoop key rest (i + 1)
        ⟨s.lastError, s.deletedCount + 1, r.world, s.calls ++ [Call.Delete i key none]⟩

/-- processDeleteFromStorage of `worker.go`. -/
def Worker.processDeleteFromStorage {W : Type} (w : Worker W) (task : TaskMessage) (v : W) :
    Outcome (Option String) W :=
  match task.Data.lookup "key" with
  | some (Any.string key) =>
    match w.storageManager with
    | none => ⟨some "storage manager not available", v, []⟩
    | some sm =>
      let s := deleteLoop key sm.GetNodes 0 ⟨none, 0, v, []⟩
      if s.deletedCount > 0 then ⟨none, s.world, s.calls⟩
      else
        match s.lastError with
        | some e => ⟨some ("failed to delete from all storage nodes: " ++ e), s.world, s.calls⟩
        | none => ⟨none, s.world, s.calls⟩
  | _ => ⟨some "invalid key in delete task data", v, []⟩

/-- defaultProcess of `worker.go`. -/
def Worker.defaultProcess {W : Type} (w : Worker W) (task : TaskMessage) (v : W) :
    Outcome (Option String) W :=
  if task.Type' = "upload_completed" then ⟨w.processUploadCompleted task, v, []⟩
  else if task.Type' = "cleanup" then ⟨w.processCleanup task, v, []⟩
  else if task.Type' = "replication_check" then ⟨w.processReplicationCheck task, v, []⟩
  else if task.Type' = "delete_from_storage" then w.processDeleteFromStorage task v
  else ⟨none, v, []⟩

/-- ProcessTask of `worker.go`: the worker with its counter raised, and what
the handler returned. -/
def Worker.ProcessTask {W : Type} (w : Worker W) (task : TaskMessage) (v : W) :
    Worker W × Outcome (Option String) W :=
  let w1 : Worker W := ⟨w.ID, w.running, incInt64 w.tasksProcessed, w.processor, w.storageManager⟩
  match w.processor with
  | some p =>
    let r := p.Process task v
    (w1, ⟨r.err, r.world, []⟩)
  | none => (w1, w1.defaultProcess task v)

/-- A channel of tasks. -/
structure Chan where
  buf : List TaskMessage
  cap : Nat
  closed : Bool
  recvq : List Nat
deriving DecidableEq, Repr

/-- Where a goroutine running `runWorker` stands: about to receive from the
queue, parked on that receive, holding the task it received, or returned. -/
inductive Stage where
  | receiving
  | parked
  | received (task : TaskMessage)
  | returned
deriving DecidableEq, Repr

/-- A goroutine started by `go qm.runWorker(worker)`, for the worker with the
given index in `qm.workers`. -/
structure Goroutine where
  worker : Nat
  stage : Stage
deriving DecidableEq, Repr

/-- Manager of `manager.go`, with the goroutines it started; the goroutines
that have not returned are the count of `waitGroup`. -/
structure Manager (W : Type) where
  queue : Chan
  workers : List (Worker W)
  maxSize : Int
  running : Bool
  goroutines : List Goroutine

/-- NewManager of `manager.go`; `make` panics on a negative size. -/
def NewManager (W : Type) (maxSize : Int) : Ret (Manager W) :=
  if maxSize < 0 then Ret.panic "makechan: size out of range"
  else Ret.ret ⟨⟨[], maxSize.toNat, false, []⟩, [], maxSize, false, []⟩

/-- Start of `manager.go`: one goroutine is started for every worker. -/
def Manager.Start {W : Type} (qm : Manager W) : Option String × Manager W :=
  if qm.running then (some "queue manager is already running", qm)
  else
    (none, ⟨qm.queue, qm.workers, qm.maxSize, true,
      qm.goroutines ++ (List.range qm.workers.length).map (fun i => ⟨i, Stage.receiving⟩)⟩)

/-- The stage of goroutine `g` replaced. -/
def setStage (gs : List Goroutine) (g : Nat) (stage : Stage) : List Goroutine :=
  gs.modify (fun x => ⟨x.worker, stage⟩) g

/-- The send of `select { case qm.queue <- task: ... default: ... }`: it panics
on a closed channel, hands the task to the first parked receiver, else puts it
in the buffer if there is room, else does not send (`none`). -/
def trySend (c : Chan) (gs : List Goroutine) (task : TaskMessage) :
    Ret (Option (Chan × List Goroutine)) :=
  if c.closed then Ret.panic "send on closed channel"
  else
    match c.recvq with
    | g :: rest => Ret.ret (some (⟨c.buf, c.cap, c.closed, rest⟩, setStage gs g (Stage.received task)))
    | [] =>
      if c.buf.length < c.cap then Ret.ret (some (⟨c.buf ++ [task], c.cap, c.closed, []⟩, gs))
      else Ret.ret none

/-- Enqueue of `manager.go`. -/
def Manager.Enqueue {W : Type} (qm : Manager W) (task : TaskMessage) :
    Ret (Option String) × Manager W :=
  if !qm.running then (Ret.ret (some "queue manager is not running"), qm)
  else
    match trySend qm.queue qm.goroutines task with
    | Ret.panic msg => (Ret.panic msg, qm)
    | Ret.ret (some (c, gs)) => (Ret.ret none, ⟨c, qm.workers, qm.maxSize, qm.running, gs⟩)
    | Ret.ret none => (Ret.ret (some "queue is full"), qm)

/-- AddWorker of `manager.go`. -/
def Manager.AddWorker {W : Type} (qm : Manager W) (worker : Worker W) : Manager W :=
  ⟨qm.queue, qm.workers ++ [worker], qm.maxSize, qm.running,
    if qm.running then qm.goroutines ++ [⟨qm.workers.length, Stage.receiving⟩]
    else qm.goroutines⟩

/-- One step of goroutine `g` in `runWorker`: the receive `task, ok := <-qm.queue`
(which takes the head of the buffer, returns on a closed and empty channel, or
parks), or the handling of the task it received; a parked or returned
goroutine does not move. -/
def Manager.runWorkerStep {W : Type} (qm : Manager W) (g : Nat) (v : W) :
    Manager W × Outcome (Option (Option String)) W :=
  match qm.goroutines[g]? with
  | none => (qm, ⟨none, v, []⟩)
  | some gr =>
    match gr.stage with
    | Stage.receiving =>
      match qm.queue.buf with
      | task :: rest =>
        (⟨⟨rest, qm.queue.cap, qm.queue.closed, qm.queue.recvq⟩, qm.workers, qm.maxSize,
          qm.running, setStage qm.goroutines g (Stage.received task)⟩, ⟨none, v, []⟩)
      | [] =>
        if qm.queue.closed then
          (⟨qm.queue, qm.workers, qm.maxSize, qm.running,
            setStage qm.goroutines g Stage.returned⟩, ⟨none, v, []⟩)
        else
          (⟨⟨[], qm.queue.cap, qm.queue.closed, qm.queue.recvq ++ [g]⟩, qm.workers, qm.maxSize,
            qm.running, setStage qm.goroutines g Stage.parked⟩, ⟨none, v, []⟩)
    | Stage.received task =>
      match qm.workers[gr.worker]? with
      | none => (qm, ⟨none, v, []⟩)
      | some worker =>
        if !worker.IsRunning then
          (⟨qm.queue, qm.workers, qm.maxSize, qm.running,
            setStage qm.goroutines g Stage.returned⟩, ⟨none, v, []⟩)
        else
          let r := worker.ProcessTask task v
          (⟨qm.queue, qm.workers.set gr.worker r.1, qm.maxSize, qm.running,
            setStage qm.goroutines g Stage.receiving⟩, ⟨some r.2.ret, r.2.world, r.2.calls⟩)
    | Stage.parked => (qm, ⟨none, v, []⟩)
    | Stage.returned => (qm, ⟨none, v, []⟩)

/-- The `close(qm.queue)` of `Stop`: the parked receivers are released with
`ok == false` and return. -/
def closeQueue (c : Chan) (gs : List Goroutine) : Ret (Chan × List Goroutine) :=
  if c.closed then Ret.panic "close of closed channel"
  else
    Ret.ret (⟨c.buf, c.cap, true, []⟩,
      gs.map (fun x => if x.stage = Stage.parked then ⟨x.worker, Stage.returned⟩ else x))

/-- The `qm.waitGroup.Wait()` of `Stop`: the goroutines `g`, `g + 1`, ... run in
turn, each for the two steps after which it has returned, the channel being
closed and its worker stopped. -/
def waitFrom {W : Type} : Nat → Nat → Manager W → W → Manager W × W
  | 0, _, qm, v => (qm, v)
  | n + 1, g, qm, v =>
    let s1 := qm.runWorkerStep g v
    let s2 := s1.1.runWorkerStep g s1.2.world
    waitFrom n (g + 1) s2.1 s2.2.world

/-- Stop of `manager.go`, run as one step: the goroutines take their last steps
in `waitFrom`, after the workers are stopped and the queue is closed. -/
def Manager.Stop {W : Type} (qm : Manager W) (v : W) : Ret (Option String) × Manager W × W :=
  if !qm.running then (Ret.ret (some "queue manager is not running"), qm, v)
  else
    let workers := qm.workers.map Worker.Stop
    match closeQueue qm.queue qm.goroutines with
    | Ret.panic msg => (Ret.panic msg, ⟨qm.queue, workers, qm.maxSize, false, qm.goroutines⟩, v)
    | Ret.ret (c, gs) =>
      (Ret.ret none, waitFrom gs.length 0 ⟨c, workers, qm.maxSize, false, gs⟩ v)

/-- The statistics of one worker in `GetStats`. -/
structure WorkerStats where
  id : String
  running : Bool
  tasks_processed : Int
deriving DecidableEq, Repr

/-- The map returned by `GetStats`, without `capacity_used`, a floating-point
number. -/
structure Stats where
  running : Bool
  queue_size : Nat
  max_size : Int
  worker_count : Nat
  workers : List WorkerStats
deriving DecidableEq, Repr

/-- GetStats of `manager.go`. -/
def Manager.GetStats {W : Type} (qm : Manager W) : Stats :=
  ⟨qm.running, qm.queue.buf.length, qm.maxSize, qm.workers.length,
    qm.workers.map (fun worker => ⟨worker.ID, worker.IsRunning, worker.GetTasksProcessed⟩)⟩

/-- The states of a queue manager made by `NewManager(maxSize)` that calls of
its methods, steps of its goroutines and calls of `Start`, `Stop` and
`SetStorageManager` on its workers lead to. -/
inductive Reachable {W : Type} (maxSize : Int) : Manager W → Prop where
  | init (qm : Manager W) : NewManager W maxSize = Ret.ret qm → Reachable maxSize qm
  | start (qm : Manager W) : Reachable maxSize qm → Reachable maxSize qm.Start.2
  | stop (qm : Manager W) (v : W) : Reachable maxSize qm → Reachable maxSize (qm.Stop v).2.1
  | enqueue (qm : Manager W) (task : TaskMessage) :
    Reachable maxSize qm → Reachable maxSize (qm.Enqueue task).2
  | addWorker (qm : Manager W) (worker : Worker W) :
    Reachable maxSize qm → Reachable maxSize (qm.AddWorker worker)
  | step (qm : Manager W) (g : Nat) (v : W) :
    Reachable maxSize qm → Reachable maxSize (qm.runWorkerStep g v).1
  | workerStart (qm : Manager W) (i : Nat) :
    Reachable maxSize qm →
      Reachable maxSize ⟨qm.queue, qm.workers.modify Worker.Start i, qm.maxSize, qm.running,
        qm.goroutines⟩
  | workerStop (qm : Manager W) (i : Nat) :
    Reachable maxSize qm →
      Reachable maxSize ⟨qm.queue, qm.workers.modify Worker.Stop i, qm.maxSize, qm.running,
        qm.goroutines⟩
  | workerSetStorageManager (qm : Manager W) (i : Nat) (sm : StorageManager W) :
    Reachable maxSize qm →
      Reachable maxSize ⟨qm.queue, qm.workers.modify (fun worker => worker.SetStorageManager sm) i,
        qm.maxSize, qm.running, qm.goroutines⟩

end queue

/-! ## Fixtures of the concrete scenarios -/

namespace fixture

open storage os

/-- A fault-injected node: every call fails and leaves the world as it is. -/
def failingNode (W : Type) (id msg : String) : StorageNode W :=
  ⟨fun _ w => ⟨some msg, w⟩, fun _ w => ⟨none, some msg, w⟩, fun _ w => ⟨some msg, w⟩, id⟩

/-- A node that accepts every write and delete and holds no object. -/
def acceptingNode (W : Type) (id : String) : StorageNode W :=
  ⟨fun _ w => ⟨none, w⟩, fun key w => ⟨none, some ("file not found: " ++ key), w⟩,
    fun _ w => ⟨none, w⟩, id⟩

/-- A node that returns the same object for every key. -/
def holdingNode (W : Type) (id : String) (obj : FileObject) : StorageNode W :=
  ⟨fun _ w => ⟨none, w⟩, fun _ w => ⟨some obj, none, w⟩, fun _ w => ⟨none, w⟩, id⟩

/-- A third-party source that returns the same object for every key. -/
def holdingSource (W : Type) (obj : FileObject) : ThirdPartyService W :=
  ⟨fun _ w => ⟨some obj, none, w⟩⟩

/-- A third-party source that fails for every key. -/
def failingSource (W : Type) (msg : String) : ThirdPartyService W :=
  ⟨fun _ w => ⟨none, some msg, w⟩⟩

/-- The object `{key: "b/obj1", data: "hello"}`. -/
def hello : FileObject :=
  ⟨"", "b/obj1", 0, "", "", [104, 101, 108, 108, 111], 0⟩

/-- A stand-in for `md5.Sum` that returns the digest of the bytes of `hello`,
whatever it is given. -/
def md5Hello : List Byte → List Byte :=
  fun _ => [93, 65, 64, 42, 188, 75, 42, 118, 185, 113, 157, 145, 16, 23, 197, 146]

/-- The object `hello` with its digest as declared hash. -/
def helloHashed : FileObject :=
  ⟨"id-1", "b/obj1", 5, "text/plain", "5d41402abc4b2a76b9719d911017c592",
    [104, 101, 108, 108, 111], 0⟩

/-- The object `hello` with a declared hash that is not its digest. -/
def helloWrongHash : FileObject :=
  ⟨"id-1", "b/obj1", 5, "text/plain", "00000000000000000000000000000000",
    [104, 101, 108, 108, 111], 0⟩

/-- An empty file system. -/
def emptyOS (now : Nat) : OS :=
  ⟨[], now⟩

/-- The file node stg1 of the default configuration. -/
def stg1 : FileStorageNode :=
  ⟨"stg1", "./data/stg1"⟩

/-- The file node stg3 of the default configuration. -/
def stg3 : FileStorageNode :=
  ⟨"stg3", "./data/stg3"⟩

/-- The file system after `NewFileStorageNode` made stg1 and stg3 on an empty one. -/
def startedOS (now : Nat) : OS :=
  (NewFileStorageNode "stg3" "./data/stg3"
    (NewFileStorageNode "stg1" "./data/stg1" (emptyOS now)).2).2

/-- Three nodes, the second of which always fails. -/
def threeNodes (md5Sum : List Byte → List Byte) : Manager OS :=
  ⟨[stg1.asStorageNode md5Sum, failingNode OS "stg2" "node down", stg3.asStorageNode md5Sum],
    none⟩

/-- The manager that `NewManager(maxSize)` returns for a size that is not negative. -/
def newQueue (maxSize : Nat) : queue.Manager Unit :=
  ⟨⟨[], maxSize, false, []⟩, [], maxSize, false, []⟩

/-- A started worker with the default handlers. -/
def worker1 : queue.Worker Unit :=
  (queue.NewWorker "worker-1" none).Start

/-- A task of the given kind for the given object. -/
def task (kind id : String) : TaskMessage :=
  ⟨kind, id, [("key", Any.string id)], 0⟩

end fixture


/-! ## Runs of a queue manager -/

namespace queue

/-- The task a goroutine holds at a stage. -/
def Stage.task : Stage → Option TaskMessage
  | .received task => some task
  | _ => none

/-- The tasks that goroutines hold after a step and did not hold before it, in
the order of the goroutines: the tasks the step took out of the queue. -/
def dequeuedBetween (before after : List Goroutine) : List TaskMessage :=
  (List.zip before after).filterMap
    (fun p => if p.1.stage = p.2.stage then none else p.2.stage.task)

/-- The operations on a queue manager between its `Start` and its `Stop`: a
call of `Enqueue` or `AddWorker`, a step of a goroutine, a call of `Start` or
`Stop` on a worker. -/
inductive Op (W : Type) where
  | enqueue (task : TaskMessage)
  | step (g : Nat)
  | addWorker (worker : Worker W)
  | workerStart (i : Nat)
  | workerStop (i : Nat)

/-- The manager and the world after an operation. -/
def Op.exec {W : Type} (op : Op W) (qm : Manager W) (v : W) : Manager W × W :=
  match op with
  | .enqueue task => ((qm.Enqueue task).2, v)
  | .step g => ((qm.runWorkerStep g v).1, (qm.runWorkerStep g v).2.world)
  | .addWorker worker => (qm.AddWorker worker, v)
  | .workerStart i =>
    (⟨qm.queue, qm.workers.modify Worker.Start i, qm.maxSize, qm.running, qm.goroutines⟩, v)
  | .workerStop i =>
    (⟨qm.queue, qm.workers.modify Worker.Stop i, qm.maxSize, qm.running, qm.goroutines⟩, v)

/-- The task of an operation when the operation is an `Enqueue` that returned `nil`. -/
def Op.accepted {W : Type} (op : Op W) (qm : Manager W) : List TaskMessage :=
  match op with
  | .enqueue task => if (qm.Enqueue task).1 = Ret.ret none then [task] else []
  | _ => []

/-- The tasks accepted and the tasks dequeued during a run, in order. -/
structure History where
  accepted : List TaskMessage
  dequeued : List TaskMessage
deriving DecidableEq, Repr

/-- A run: the operations are executed in turn; the manager and the world at the
end, the tasks whose `Enqueue` returned `nil` and the tasks taken out of the
queue by the goroutines, both in the order of the operations. -/
def runOps {W : Type} : List (Op W) → Manager W → W → Manager W × W × History
  | [], qm, v => (qm, v, ⟨[], []⟩)
  | op :: ops, qm, v =>
    let r := op.exec qm v
    let rest := runOps ops r.1 r.2
    (rest.1, rest.2.1,
      ⟨op.accepted qm ++ rest.2.2.accepted,
        dequeuedBetween qm.goroutines r.1.goroutines ++ rest.2.2.dequeued⟩)

/-- The receive queue of the channel lists goroutines that are parked, each once. -/
def ParkedInv {W : Type} (qm : Manager W) : Prop :=
  qm.queue.recvq.Nodup ∧
    ∀ g ∈ qm.queue.recvq, ∃ gr, qm.goroutines[g]? = some gr ∧ gr.stage = Stage.parked

end queue

/-! ## The fan-out delete -/

namespace storage

/-- A storage manager seen through the `StorageManager` interface of `worker.go`. -/
def Manager.asStorageManager {W : Type} (sm : Manager W) : queue.StorageManager W :=
  ⟨sm.GetNodes⟩

end storage

namespace s3

/-- Service of `service.go`; `M` is the type of the metadata service. -/
structure Service (W M : Type) where
  storageManager : storage.Manager W
  metadataService : M
  queueManager : queue.Manager W

/-- The `for _, node := range s.storageManager.GetNodes()` loop of
`DeleteFromAllStorageNodes`, from index `i` on. -/
def deleteAllLoop {W : Type} (objectKey : String) :
    List (StorageNode W) → Nat → W → List Call → Outcome Unit W
  | [], _, v, calls => ⟨(), v, calls⟩
  | node :: rest, i, v, calls =>
    let r := node.Delete objectKey v
    match r.err with
    | some e => deleteAllLoop objectKey rest (i + 1) r.world
        (calls ++ [Call.Delete i objectKey (some e)])
    | none => deleteAllLoop objectKey rest (i + 1) r.world
        (calls ++ [Call.Delete i objectKey none])

/-- DeleteFromAllStorageNodes of `service.go`. -/
def Service.DeleteFromAllStorageNodes {W M : Type} (s : Service W M) (objectKey : String)
    (v : W) : Outcome Unit W :=
  deleteAllLoop objectKey s.storageManager.GetNodes 0 v []

end s3

/-- The errors returned when `Delete(key)` is called once on every node of the
list, in list order, each call in the world left by the call before it. -/
def sequentialDeleteErrors {W : Type} (key : String) :
    List (StorageNode W) → W → List (Option String)
  | [], _ => []
  | node :: rest, w =>
    (node.Delete key w).err :: sequentialDeleteErrors key rest (node.Delete key w).world

/-- The calls `Delete` on the nodes numbered from `i` on, returning `errs` in turn. -/
def deleteCalls (key : String) (i : Nat) (errs : List (Option String)) : List Call :=
  List.zipWith (fun k e => Call.Delete k key e) (List.range' i errs.length) errs

namespace os

open filepath

/-- The directories above a path are in place: `done`, `done/e1`, ... up to the
directory that holds the last element all are directories. -/
def OS.dirsAbove (w : OS) (rooted : Bool) : List String → List String → Prop
  | _, [] => True
  | done, e :: rest =>
    w.lookup ⟨rooted, done⟩ = some Entry.dir ∧ OS.dirsAbove w rooted (done ++ [e]) rest

end os

/-! ## The mock third-party service -/

namespace storage

open os

/-- The bytes of a character in UTF-8. -/
def utf8Bytes (c : Char) : List Byte :=
  if c.toNat < 128 then [Fin.ofNat c.toNat]
  else if c.toNat < 2048 then
    [Fin.ofNat (192 + c.toNat / 64), Fin.ofNat (128 + c.toNat % 64)]
  else if c.toNat < 65536 then
    [Fin.ofNat (224 + c.toNat / 4096), Fin.ofNat (128 + c.toNat / 64 % 64),
      Fin.ofNat (128 + c.toNat % 64)]
  else
    [Fin.ofNat (240 + c.toNat / 262144), Fin.ofNat (128 + c.toNat / 4096 % 64),
      Fin.ofNat (128 + c.toNat / 64 % 64), Fin.ofNat (128 + c.toNat % 64)]

/-- The conversion `[]byte(s)` of a string. -/
def bytesOf (s : String) : List Byte :=
  s.data.flatMap utf8Bytes

/-- MockThirdPartyService of `third_party_service.go`. -/
structure MockThirdPartyService where
  name : String
  endpoint : String
deriving DecidableEq, Repr

/-- NewMockThirdPartyService of `third_party_service.go`. -/
def NewMockThirdPartyService (name endpoint : String) : MockThirdPartyService :=
  ⟨name, endpoint⟩

/-- GetObject of `third_party_service.go`; `uuid` stands for the value of
`uuid.New().String()` in the call, and `time.Now()` is the clock of the state. -/
def MockThirdPartyService.GetObject (md5Sum : List Byte → List Byte) (uuid : String)
    (_mts : MockThirdPartyService) (key : String) (w : OS) : ObjectResult OS :=
  let mockData := bytesOf ("Mock data from third party service for key: " ++ key)
  ⟨some ⟨uuid, key, mockData.length, "application/octet-stream",
    calculateMD5 md5Sum mockData, mockData, w.now⟩, none, w⟩

/-- GetName of `third_party_service.go`. -/
def MockThirdPartyService.GetName (mts : MockThirdPartyService) : String :=
  mts.name

/-- A mock service seen through the `ThirdPartyService` interface. -/
def MockThirdPartyService.asThirdPartyService (md5Sum : List Byte → List Byte) (uuid : String)
    (mts : MockThirdPartyService) : ThirdPartyService OS :=
  ⟨mts.GetObject md5Sum uuid⟩

end storage

namespace fixture

open storage os

/-- The third-party service of the default set-up. -/
def mockSource : MockThirdPartyService :=
  NewMockThirdPartyService "mock-third-party" "http://mock-third-party.example.com/api"

/-- The file nodes stg1 and stg3 with the mock third-party source. -/
def twoFileNodes : Manager OS :=
  ⟨[stg1.asStorageNode md5Hello, stg3.asStorageNode md5Hello],
    some (mockSource.asThirdPartyService md5Hello "uuid-1")⟩

end fixture

/-! ## The state of a manager that is being stopped -/

namespace queue

/-- The state in which the goroutines run out during `Stop`: the channel is
closed, every worker is stopped, and every goroutine belongs to a worker of the
manager and is not parked. -/
def Draining {W : Type} (qm : Manager W) : Prop :=
  qm.queue.closed = true ∧
  (∀ worker ∈ qm.workers, worker.running = false) ∧
  (∀ gr ∈ qm.goroutines, gr.worker < qm.workers.length ∧ gr.stage ≠ Stage.parked)

end queue

namespace fixture

/-- A started manager of capacity 2 with one started worker and two tasks in
its queue, which the worker's goroutine has not yet begun to receive. -/
def twoQueued : queue.Manager Unit :=
  ((((newQueue 2).AddWorker worker1).Start.2.Enqueue (task "upload" "a")).2.Enqueue
    (task "upload" "b")).2

end fixture

/-! ## The tasks handed to the workers -/

namespace queue

/-- The task that a goroutine holds, with the worker the goroutine runs. -/
def Goroutine.held (gr : Goroutine) : List (Nat × TaskMessage) :=
  match gr.stage with
  | .received task => [(gr.worker, task)]
  | _ => []

/-- The tasks that the goroutines hold, each with the worker of its goroutine. -/
def heldTasks (gs : List Goroutine) : List (Nat × TaskMessage) :=
  gs.flatMap Goroutine.held

/-- The tasks handed to goroutines in a step, each with the worker of the
goroutine, in the order of the goroutines: a goroutine whose stage changed
holds its task since the step. -/
def handedBetween (before after : List Goroutine) : List (Nat × TaskMessage) :=
  (List.zip before after).flatMap (fun p => if p.1.stage = p.2.stage then [] else p.2.held)

/-- The tasks dropped in a step: a goroutine that held a task before the step
and has returned after it left `runWorker` without a call of `ProcessTask`. -/
def droppedBetween (before after : List Goroutine) : List (Nat × TaskMessage) :=
  (List.zip before after).flatMap (fun p => if p.2.stage = Stage.returned then p.1.held else [])

/-- The call `worker.ProcessTask(task)` that a step of goroutine `g` makes, as
the worker and the task of the call: the goroutine holds a task and its worker
is running (the last branch of `runWorkerStep`). -/
def Manager.processCall {W : Type} (qm : Manager W) (g : Nat) : List (Nat × TaskMessage) :=
  match qm.goroutines[g]? with
  | none => []
  | some gr =>
    match gr.stage with
    | Stage.received task =>
      match qm.workers[gr.worker]? with
      | none => []
      | some worker => if !worker.IsRunning then [] else [(gr.worker, task)]
    | _ => []

/-- The call of `ProcessTask` that an operation makes. -/
def Op.processed {W : Type} (op : Op W) (qm : Manager W) : List (Nat × TaskMessage) :=
  match op with
  | .step g => qm.processCall g
  | _ => []

/-- What became of the tasks during a run: the tasks handed to goroutines, the
calls of `ProcessTask`, and the tasks dropped, each with the worker, in the
order of the operations. -/
structure Handling where
  handed : List (Nat × TaskMessage)
  processed : List (Nat × TaskMessage)
  dropped : List (Nat × TaskMessage)
deriving DecidableEq, Repr

/-- The handling of the tasks in the run of `runOps`. -/
def runHandling {W : Type} : List (Op W) → Manager W → W → Handling
  | [], _, _ => ⟨[], [], []⟩
  | op :: ops, qm, v =>
    let r := op.exec qm v
    let rest := runHandling ops r.1 r.2
    ⟨handedBetween qm.goroutines r.1.goroutines ++ rest.handed,
      op.processed qm ++ rest.processed,
      droppedBetween qm.goroutines r.1.goroutines ++ rest.dropped⟩

end queue

/-! ## Runs of a worker -/

namespace queue

/-- The calls on a worker. -/
inductive WorkerOp (W : Type) where
  | start
  | stop
  | isRunning
  | getTasksProcessed
  | setStorageManager (sm : StorageManager W)
  | processTask (task : TaskMessage)

/-- The worker and the world after a call; `IsRunning` and `GetTasksProcessed`
only read. -/
def WorkerOp.exec {W : Type} (op : WorkerOp W) (w : Worker W) (v : W) : Worker W × W :=
  match op with
  | .start => (w.Start, v)
  | .stop => (w.Stop, v)
  | .isRunning => (w, v)
  | .getTasksProcessed => (w, v)
  | .setStorageManager sm => (w.SetStorageManager sm, v)
  | .processTask task => ((w.ProcessTask task v).1, (w.ProcessTask task v).2.world)

/-- Whether a call is a call of `ProcessTask`. -/
def WorkerOp.isProcessTask {W : Type} : WorkerOp W → Bool
  | .processTask _ => true
  | _ => false

/-- The worker and the world after the calls, made in turn. -/
def runWorkerOps {W : Type} : List (WorkerOp W) → Worker W → W → Worker W × W
  | [], w, v => (w, v)
  | op :: ops, w, v => runWorkerOps ops (op.exec w v).1 (op.exec w v).2

end queue

namespace fixture

/-- A second started worker with the default handlers. -/
def worker2 : queue.Worker Unit :=
  (queue.NewWorker "worker-2" none).Start

/-- A started manager of capacity 2 with two started workers. -/
def twoWorkers : queue.Manager Unit :=
  (((newQueue 2).AddWorker worker1).AddWorker worker2).Start.2

/-- Two producers and two workers interleaved: `a` and `b` are enqueued, the
first goroutine takes `a` and the second `b`, the second handles `b` before the
first handles `a`, the first goroutine parks on the empty queue and is handed
`c` by the next `Enqueue`. -/
def interleaved : List (queue.Op Unit) :=
  [.enqueue (task "cleanup" "a"), .enqueue (task "cleanup" "b"), .step 0, .step 1, .step 1,
    .step 0, .step 0, .enqueue (task "cleanup" "c")]

end fixture

/-! ## The metadata service -/

namespace types

/-- MetadataEntry of `types.go`; the times are time stamps. -/
structure MetadataEntry where
  ID : String
  Key : String
  Size : Int
  ContentType : String
  MD5Hash : String
  StorageNodes : List String
  CreatedAt : Nat
  UpdatedAt : Nat
deriving DecidableEq, Repr

end types

namespace sql

/-- A row of the table `metadata` that `initTables` of `database.go` creates;
`storage_nodes` is a JSON text. -/
structure Row where
  id : String
  key : String
  size : Int
  content_type : String
  md5_hash : String
  storage_nodes : String
  created_at : Nat
  updated_at : Nat
deriving DecidableEq, Repr

/-- The database behind a `*sql.DB`: whether `Close` was called on it, and the
rows of its table `metadata`, oldest first. -/
structure DB where
  closed : Bool
  metadata : List Row
deriving DecidableEq, Repr

/-- Exec of package `sql` on the statement `INSERT OR REPLACE INTO metadata
(...) VALUES (...)`: a closed database returns an error; else the rows that
have the `id` (the primary key) or the `key` (declared unique) of the new row
are deleted and the new row is added. -/
def DB.insertOrReplace (db : DB) (row : Row) : Option String × DB :=
  if db.closed then (some "sql: database is closed", db)
  else
    (none, ⟨db.closed, db.metadata.filter (fun r => r.id ≠ row.id ∧ r.key ≠ row.key) ++ [row]⟩)

end sql

namespace metadata

/-- DatabaseManager of `database.go`. -/
structure DatabaseManager where
  db : sql.DB
deriving DecidableEq, Repr

/-- SaveMetadata of `database.go`; `jsonMarshal` is `json.Marshal` on a list of
strings, followed by the conversion of its bytes to a string. -/
def DatabaseManager.SaveMetadata (jsonMarshal : List String → Except String String)
    (dm : DatabaseManager) (entry : MetadataEntry) : Option String × DatabaseManager :=
  match jsonMarshal entry.StorageNodes with
  | .error err => (some ("failed to marshal storage nodes: " ++ err), dm)
  | .ok storageNodesJSON =>
    match dm.db.insertOrReplace ⟨entry.ID, entry.Key, entry.Size, entry.ContentType,
      entry.MD5Hash, storageNodesJSON, entry.CreatedAt, entry.UpdatedAt⟩ with
    | (some err, db) => (some ("failed to insert metadata: " ++ err), ⟨db⟩)
    | (none, db) => (none, ⟨db⟩)

/-- MetaService of `metaservice.go`. -/
structure MetaService where
  db : DatabaseManager
deriving DecidableEq, Repr

/-- SaveMetadata of `metaservice.go`; `now` is what `time.Now()` returned. -/
def MetaService.SaveMetadata (jsonMarshal : List String → Except String String) (now : Nat)
    (ms : MetaService) (obj : FileObject) (storageNodes : List String) :
    Option String × MetaService :=
  let entry : MetadataEntry :=
    ⟨obj.ID, obj.Key, obj.Size, obj.ContentType, obj.MD5Hash, storageNodes, obj.CreatedAt, now⟩
  match ms.db.SaveMetadata jsonMarshal entry with
  | (some err, dm) => (some ("failed to save metadata: " ++ err), ⟨dm⟩)
  | (none, dm) => (none, ⟨dm⟩)

end metadata

/-! ## The upload flow -/

namespace s3

open metadata

/-- A call of `SaveMetadata` on the metadata service: its arguments and the
error it returned. -/
structure SaveCall where
  obj : FileObject
  storageNodes : List String
  err : Option String
deriving DecidableEq, Repr

/-- What `ExecuteUploadFlow` leaves: its result, the service with its metadata
service, the world of the storage nodes, the calls on the nodes and the calls of
`SaveMetadata`. -/
structure UploadOutcome (W : Type) where
  err : Option String
  service : Service W MetaService
  world : W
  calls : List Call
  saves : List SaveCall

/-- ExecuteUploadFlow of `service.go`. -/
def Service.ExecuteUploadFlow {W : Type} (jsonMarshal : List String → Except String String)
    (now : Nat) (s : Service W MetaService) (fileObj : FileObject) (v : W) : UploadOutcome W :=
  let r := s.storageManager.WriteToAllNodes fileObj v
  match r.ret with
  | some err => ⟨some ("failed to write to storage nodes: " ++ err), s, r.world, r.calls, []⟩
  | none =>
    let storageNodeIDs := s.storageManager.GetNodeIDs
    let m := s.metadataService.SaveMetadata jsonMarshal now fileObj storageNodeIDs
    match m.1 with
    | some err =>
      ⟨some ("failed to save metadata: " ++ err), ⟨s.storageManager, m.2, s.queueManager⟩,
        r.world, r.calls, [⟨fileObj, storageNodeIDs, some err⟩]⟩
    | none =>
      ⟨none, ⟨s.storageManager, m.2, s.queueManager⟩, r.world, r.calls,
        [⟨fileObj, storageNodeIDs, none⟩]⟩

/-- EnqueueDeleteTask of `service.go`; `now` is what `time.Now()` returned. -/
def Service.EnqueueDeleteTask {W M : Type} (s : Service W M) (now : Nat) (objectKey : String) :
    Ret (Option String) × Service W M :=
  let task : TaskMessage :=
    ⟨"delete_from_storage", objectKey, [("key", Any.string objectKey)], now⟩
  ((s.queueManager.Enqueue task).1,
    ⟨s.storageManager, s.metadataService, (s.queueManager.Enqueue task).2⟩)

end s3

namespace fixture

/-- The text of `json.Marshal` for a list of strings that need no escaping. -/
def jsonIDs (ids : List String) : Except String String :=
  .ok ("[" ++ ",".intercalate (ids.map (fun id =>
    String.singleton (Char.ofNat 34) ++ id ++ String.singleton (Char.ofNat 34))) ++ "]")

/-- An open database with no row. -/
def emptyMeta : metadata.MetaService :=
  ⟨⟨⟨false, []⟩⟩⟩

/-- A service whose first node fails and whose second node accepts. -/
def oneDown (ms : metadata.MetaService) : s3.Service Unit metadata.MetaService :=
  ⟨⟨[failingNode Unit "stg1" "node down", acceptingNode Unit "stg2"], none⟩, ms, newQueue 2⟩

/-- A service both of whose nodes fail. -/
def allDown (ms : metadata.MetaService) : s3.Service Unit metadata.MetaService :=
  ⟨⟨[failingNode Unit "stg1" "node down", failingNode Unit "stg2" "node down"], none⟩, ms,
    newQueue 2⟩

end fixture

/-! ## Stop and the goroutines, statement by statement

`Manager.Stop` above runs the statements of `Stop` as one step, which is the
schedule in which no goroutine runs between them. `Stop` holds the lock of the
manager from its first statement to its return, so `Enqueue`, `AddWorker`,
`Start`, `GetStats` and another `Stop` wait until it has returned; `runWorker`
takes no lock of the manager, so its statements run between those of `Stop`.
The repository calls `Start` on a worker only while it sets the service up, so
no worker is started again while `Stop` runs. Here each statement of `Stop` and
of `runWorker` is a step of its own. -/

namespace queue

/-- Where a goroutine stands in `runWorker`: about to receive from the queue,
parked on that receive, holding the task it received and about to check
`worker.IsRunning()`, past that check and in the call `worker.ProcessTask(task)`,
or returned. -/
inductive Point where
  | receiving
  | parked
  | received (task : TaskMessage)
  | processing (task : TaskMessage)
  | returned
deriving DecidableEq, Repr

/-- A goroutine started by `go qm.runWorker(worker)`, with the index of its
worker and the point it stands at. -/
structure Runner where
  worker : Nat
  point : Point
deriving DecidableEq, Repr

/-- The point of a goroutine at a stage; a goroutine that holds a task at a
stage has not yet checked `worker.IsRunning()`. -/
def Stage.point : Stage → Point
  | .receiving => .receiving
  | .parked => .parked
  | .received task => .received task
  | .returned => .returned

/-- Where `Stop` stands after its check of `qm.running` and `qm.running = false`:
in the loop over the workers, before the call `worker.Stop()` of worker `i`;
before `close(qm.queue)`; in `qm.waitGroup.Wait()`; returned with `nil`; or
stopped by a panic. -/
inductive StopPoint where
  | stopping (i : Nat)
  | closing
  | waiting
  | returned
  | panicked (msg : String)
deriving DecidableEq, Repr

/-- The manager while `Stop` runs. -/
structure Shutdown (W : Type) where
  queue : Chan
  workers : List (Worker W)
  maxSize : Int
  running : Bool
  runners : List Runner
  stop : StopPoint

/-- The first statements of `Stop` of `manager.go`: the check of `qm.running`
and `qm.running = false`. -/
def Manager.beginStop {W : Type} (qm : Manager W) : Except String (Shutdown W) :=
  if !qm.running then .error "queue manager is not running"
  else
    .ok ⟨qm.queue, qm.workers, qm.maxSize, false,
      qm.goroutines.map (fun gr => ⟨gr.worker, gr.stage.point⟩), StopPoint.stopping 0⟩

/-- The point of goroutine `g` replaced. -/
def setPoint (rs : List Runner) (g : Nat) (point : Point) : List Runner :=
  rs.modify (fun x => ⟨x.worker, point⟩) g

/-- The next statement of `Stop`: the call `worker.Stop()` of the next worker,
or the end of the loop; `close(qm.queue)`, which releases the parked receivers
with `ok == false`, so that they return; the return from `Wait` once every
goroutine has returned. -/
def Shutdown.stopStep {W : Type} (s : Shutdown W) : Shutdown W :=
  match s.stop with
  | .stopping i =>
    if i < s.workers.length then
      ⟨s.queue, s.workers.modify Worker.Stop i, s.maxSize, s.running, s.runners,
        StopPoint.stopping (i + 1)⟩
    else ⟨s.queue, s.workers, s.maxSize, s.running, s.runners, StopPoint.closing⟩
  | .closing =>
    if s.queue.closed then
      ⟨s.queue, s.workers, s.maxSize, s.running, s.runners,
        StopPoint.panicked "close of closed channel"⟩
    else
      ⟨⟨s.queue.buf, s.queue.cap, true, []⟩, s.workers, s.maxSize, s.running,
        s.runners.map (fun x => if x.point = Point.parked then ⟨x.worker, Point.returned⟩ else x),
        StopPoint.waiting⟩
  | .waiting =>
    if ∀ x ∈ s.runners, x.point = Point.returned then
      ⟨s.queue, s.workers, s.maxSize, s.running, s.runners, StopPoint.returned⟩
    else s
  | .returned => s
  | .panicked _ => s

/-- The next statement of goroutine `g` in `runWorker`: the receive
`task, ok := <-qm.queue`; the check `!worker.IsRunning()`, after which the
goroutine returns or goes on to the call; the call `worker.ProcessTask(task)`. -/
def Shutdown.runStep {W : Type} (s : Shutdown W) (g : Nat) (v : W) : Shutdown W × W :=
  match s.runners[g]? with
  | none => (s, v)
  | some r =>
    match r.point with
    | .receiving =>
      match s.queue.buf with
      | task :: rest =>
        (⟨⟨rest, s.queue.cap, s.queue.closed, s.queue.recvq⟩, s.workers, s.maxSize, s.running,
          setPoint s.runners g (Point.received task), s.stop⟩, v)
      | [] =>
        if s.queue.closed then
          (⟨s.queue, s.workers, s.maxSize, s.running, setPoint s.runners g Point.returned,
            s.stop⟩, v)
        else
          (⟨⟨[], s.queue.cap, s.queue.closed, s.queue.recvq ++ [g]⟩, s.workers, s.maxSize,
            s.running, setPoint s.runners g Point.parked, s.stop⟩, v)
    | .received task =>
      match s.workers[r.worker]? with
      | none => (s, v)
      | some worker =>
        if !worker.IsRunning then
          (⟨s.queue, s.workers, s.maxSize, s.running, setPoint s.runners g Point.returned,
            s.stop⟩, v)
        else
          (⟨s.queue, s.workers, s.maxSize, s.running,
            setPoint s.runners g (Point.processing task), s.stop⟩, v)
    | .processing task =>
      match s.workers[r.worker]? with
      | none => (s, v)
      | some worker =>
        (⟨s.queue, s.workers.set r.worker (worker.ProcessTask task v).1, s.maxSize, s.running,
          setPoint s.runners g Point.receiving, s.stop⟩, (worker.ProcessTask task v).2.world)
    | .parked => (s, v)
    | .returned => (s, v)

/-- The steps while `Stop` runs: the next statement of `Stop`, or the next
statement of a goroutine. -/
inductive StopOp where
  | stop
  | run (g : Nat)
deriving DecidableEq, Repr

/-- The manager and the world after a step. -/
def StopOp.exec {W : Type} (op : StopOp) (s : Shutdown W) (v : W) : Shutdown W × W :=
  match op with
  | .stop => (s.stopStep, v)
  | .run g => s.runStep g v

/-- The manager and the world after the steps, made in turn. -/
def runStop {W : Type} : List StopOp → Shutdown W → W → Shutdown W × W
  | [], s, v => (s, v)
  | op :: ops, s, v => runStop ops (op.exec s v).1 (op.exec s v).2

/-- The task of a goroutine that is in the call of `ProcessTask`, with its worker. -/
def Runner.inFlight (r : Runner) : List (Nat × TaskMessage) :=
  match r.point with
  | .processing task => [(r.worker, task)]
  | _ => []

/-- The tasks in the call of `ProcessTask`, each with its worker. -/
def inFlight (rs : List Runner) : List (Nat × TaskMessage) :=
  rs.flatMap Runner.inFlight

/-- Whether a goroutine will receive from the queue before it can return: it is
about to receive, or in a call of `ProcessTask`, after which it receives. -/
def Runner.taking (r : Runner) : Nat :=
  match r.point with
  | .receiving => 1
  | .processing _ => 1
  | _ => 0

/-- The number of goroutines that will receive from the queue. -/
def takers (rs : List Runner) : Nat :=
  (rs.map Runner.taking).sum

/-- The call `worker.ProcessTask(task)` that the next statement of goroutine
`g` makes, as the worker and the task (the `processing` branch of `runStep`). -/
def Shutdown.processCall {W : Type} (s : Shutdown W) (g : Nat) : List (Nat × TaskMessage) :=
  match s.runners[g]? with
  | none => []
  | some r =>
    match r.point with
    | .processing task =>
      match s.workers[r.worker]? with
      | none => []
      | some _ => [(r.worker, task)]
    | _ => []

/-- The calls of `ProcessTask` made by the steps, in order. -/
def processedIn {W : Type} : List StopOp → Shutdown W → W → List (Nat × TaskMessage)
  | [], _, _ => []
  | .stop :: ops, s, v => processedIn ops s.stopStep v
  | .run g :: ops, s, v => s.processCall g ++ processedIn ops (s.runStep g v).1 (s.runStep g v).2

/-- What holds at every step while `Stop` runs: `qm.running` is `false`; the
workers before the one the loop has reached are stopped, and all of them once
the loop is left; the queue is closed once `Stop` waits; and every goroutine
has returned once `Stop` has. -/
def Shutdown.Inv {W : Type} (s : Shutdown W) : Prop :=
  s.running = false ∧
  (∀ i, s.stop = StopPoint.stopping i →
    ∀ (j : Nat) (w : Worker W), j < i → s.workers[j]? = some w → w.running = false) ∧
  ((∀ i, s.stop ≠ StopPoint.stopping i) → ∀ w ∈ s.workers, w.running = false) ∧
  (s.stop = StopPoint.waiting ∨ s.stop = StopPoint.returned → s.queue.closed = true) ∧
  (s.stop = StopPoint.returned → ∀ x ∈ s.runners, x.point = Point.returned)

end queue

namespace fixture

/-- The manager `twoQueued` after the first statements of `Stop`. -/
def stoppingTwoQueued : queue.Shutdown Unit :=
  ⟨twoQueued.queue, twoQueued.workers, twoQueued.maxSize, false,
    [⟨0, queue.Point.receiving⟩], queue.StopPoint.stopping 0⟩

/-- A manager after the first statements of `Stop`, with `b` queued, whose one
goroutine was in the call of `ProcessTask` on `a` when `Stop` was called. -/
def stoppingInFlight : queue.Shutdown Unit :=
  ⟨⟨[task "upload" "b"], 2, false, []⟩, [worker1], 2, false,
    [⟨0, queue.Point.processing (task "upload" "a")⟩], queue.StopPoint.stopping 0⟩

/-- Steps of `Stop` on `twoQueued` up to the end of its loop, in which the
goroutine passes the check of `IsRunning` before `Stop` reaches its worker: the
goroutine takes `a` and passes the check, `Stop` stops the worker and leaves
the loop. -/
def raceBefore : List queue.StopOp :=
  [.run 0, .run 0, .stop, .stop]

/-- The steps after `raceBefore`: `Stop` closes the queue, the goroutine handles
`a`, takes `b`, finds its worker stopped and returns, and `Stop` returns. -/
def raceAfter : List queue.StopOp :=
  [.stop, .run 0, .run 0, .run 0, .stop]

/-- Steps of `Stop` on `twoQueued` up to the end of its loop, in which the
goroutine does not run. -/
def aloneBefore : List queue.StopOp :=
  [.stop, .stop]

/-- The steps after `aloneBefore`: `Stop` closes the queue, the goroutine takes
`a`, finds its worker stopped and returns, and `Stop` returns with `b` left in
the queue. -/
def aloneAfter : List queue.StopOp :=
  [.stop, .run 0, .run 0, .stop]

end fixture
/-! ## Theorems: WriteToAllNodes -/

namespace storage

open fixture os

theorem writeCalls_cons (obj : FileObject) (i : Nat) (e : Option String)
    (errs : List (Option String)) :
    writeCalls obj i (e :: errs) = Call.Write i obj e :: writeCalls obj (i + 1) errs := by
  simp [writeCalls, List.range'_succ]

theorem length_writeCalls (obj : FileObject) (i : Nat) (errs : List (Option String)) :
    (writeCalls obj i errs).length = errs.length := by
  simp [writeCalls]

theorem getElem?_writeCalls (obj : FileObject) (i : Nat) (errs : List (Option String))
    (k : Nat) : (writeCalls obj i errs)[k]? = (errs[k]?).map (fun e => Call.Write (i + k) obj e) := by
  induction errs generalizing i k with
  | nil => simp [writeCalls]
  | cons e errs ih =>
    rw [writeCalls_cons]
    cases k with
    | zero => simp
    | succ k => simp [ih, Nat.add_assoc, Nat.add_comm 1 k]

/-- The loop of `WriteToAllNodes` calls `Write` once on each remaining node, in
order, counts the calls that returned `nil` and keeps the last error. -/
theorem writeLoop_run {W : Type} (obj : FileObject) (ns : List (StorageNode W)) (i : Nat)
    (s : WriteLoopState W) :
    ∃ errs : List (Option String), errs.length = ns.length ∧
      (writeLoop obj ns i s).calls = s.calls ++ writeCalls obj i errs ∧
      (writeLoop obj ns i s).successCount = s.successCount + errs.count none ∧
      (none ∉ errs → (writeLoop obj ns i s).lastErr = errs.getLast?.getD s.lastErr) ∧
      (∀ (k : Nat) (node : StorageNode W), ns[k]? = some node → errs[k]? = some (node.Write obj
        ((ns.take k).foldl (fun v n => (n.Write obj v).world) s.world)).err) := by
  induction ns generalizing i s with
  | nil =>
    exact ⟨[], rfl, by simp [writeLoop, writeCalls], by simp [writeLoop], by simp [writeLoop],
      by simp⟩
  | cons node rest ih =>
    cases h : (node.Write obj s.world).err with
    | some e =>
      obtain ⟨errs, h1, h2, h3, h4, h5⟩ := ih (i + 1)
        ⟨some e, s.successCount, (node.Write obj s.world).world,
          s.calls ++ [Call.Write i obj (some e)]⟩
      refine ⟨some e :: errs, by simp [h1], ?_, ?_, ?_, ?_⟩
      · simp only [writeLoop, h]
        rw [h2, writeCalls_cons]
        simp
      · simp only [writeLoop, h]
        rw [h3]
        simp
      · intro hn
        simp only [writeLoop, h]
        rw [h4 (fun hm => hn (List.mem_cons_of_mem _ hm)), List.getLast?_cons]
        simp
      · intro k n hk
        cases k with
        | zero =>
          simp only [List.getElem?_cons_zero, Option.some.injEq] at hk
          subst hk
          simp [h]
        | succ k =>
          simp only [List.getElem?_cons_succ] at hk
          simpa using h5 k n hk
    | none =>
      obtain ⟨errs, h1, h2, h3, _, h5⟩ := ih (i + 1)
        ⟨s.lastErr, s.successCount + 1, (node.Write obj s.world).world,
          s.calls ++ [Call.Write i obj none]⟩
      refine ⟨none :: errs, by simp [h1], ?_, ?_, ?_, ?_⟩
      · simp only [writeLoop, h]
        rw [h2, writeCalls_cons]
        simp
      · simp only [writeLoop, h]
        rw [h3]
        simp
        omega
      · intro hn
        exact absurd (List.mem_cons_self _ _) hn
      · intro k n hk
        cases k with
        | zero =>
          simp only [List.getElem?_cons_zero, Option.some.injEq] at hk
          subst hk
          simp [h]
        | succ k =>
          simp only [List.getElem?_cons_succ] at hk
          simpa using h5 k n hk

/-- The run of `WriteToAllNodes` in terms of the errors its `Write` calls returned. -/
theorem WriteToAllNodes_run {W : Type} (sm : Manager W) (obj : FileObject) (w : W) :
    ∃ errs : List (Option String), errs.length = sm.nodes.length ∧
      (sm.WriteToAllNodes obj w).calls = writeCalls obj 0 errs ∧
      (sm.writeLoopEnd obj w).successCount = errs.count none ∧
      ((sm.WriteToAllNodes obj w).ret = none ↔ none ∈ errs) ∧
      (none ∉ errs → (sm.WriteToAllNodes obj w).ret =
        some ("failed to write to any storage node, last error: " ++
          fmtV (errs.getLast?.getD none))) ∧
      (∀ (k : Nat) (node : StorageNode W), sm.nodes[k]? = some node → errs[k]? = some (node.Write obj
        ((sm.nodes.take k).foldl (fun v n => (n.Write obj v).world) w)).err) := by
  obtain ⟨errs, h1, h2, h3, h4, h6⟩ := writeLoop_run obj sm.nodes 0 ⟨none, 0, w, []⟩
  simp only [List.nil_append, Nat.zero_add] at h2 h3 h4
  have hc : (sm.WriteToAllNodes obj w).calls = (sm.writeLoopEnd obj w).calls := by
    unfold Manager.WriteToAllNodes
    simp only
    split <;> rfl
  refine ⟨errs, h1, by rw [hc]; exact h2, h3, ?_, ?_, h6⟩
  · unfold Manager.WriteToAllNodes
    simp only
    rw [show (sm.writeLoopEnd obj w).successCount = errs.count none from h3]
    by_cases hm : none ∈ errs
    · have : List.count none errs ≠ 0 := fun h0 => (List.count_eq_zero.1 h0) hm
      simp [this, hm]
    · have : List.count none errs = 0 := List.count_eq_zero.2 hm
      simp [this, hm]
  · intro hn
    have : List.count none errs = 0 := List.count_eq_zero.2 hn
    unfold Manager.WriteToAllNodes
    simp only
    rw [show (sm.writeLoopEnd obj w).successCount = errs.count none from h3, this]
    simp only [if_true]
    rw [show (sm.writeLoopEnd obj w).lastErr = errs.getLast?.getD none from h4 hn]


theorem mem_writeCalls (obj : FileObject) (i : Nat) (errs : List (Option String)) (c : Call) :
    c ∈ writeCalls obj i errs ↔ ∃ k e, errs[k]? = some e ∧ c = Call.Write (i + k) obj e := by
  rw [List.mem_iff_getElem?]
  constructor
  · rintro ⟨k, hk⟩
    rw [getElem?_writeCalls] at hk
    cases he : errs[k]? with
    | none => simp [he] at hk
    | some e =>
      simp [he] at hk
      exact ⟨k, e, he, hk.symm⟩
  · rintro ⟨k, e, he, hc⟩
    exact ⟨k, by rw [getElem?_writeCalls, he, hc]; rfl⟩

theorem writeLoop_world {W : Type} (obj : FileObject) (ns : List (StorageNode W)) (i : Nat)
    (s : WriteLoopState W) :
    (writeLoop obj ns i s).world = ns.foldl (fun v node => (node.Write obj v).world) s.world := by
  induction ns generalizing i s with
  | nil => rfl
  | cons node rest ih =>
    cases h : (node.Write obj s.world).err with
    | some e => simp only [writeLoop, h, List.foldl_cons]; rw [ih]
    | none => simp only [writeLoop, h, List.foldl_cons]; rw [ih]

theorem WriteToAllNodes_world {W : Type} (sm : Manager W) (obj : FileObject) (w : W) :
    (sm.WriteToAllNodes obj w).world =
      sm.nodes.foldl (fun v node => (node.Write obj v).world) w := by
  have h := writeLoop_world obj sm.nodes 0 ⟨none, 0, w, []⟩
  unfold Manager.WriteToAllNodes
  simp only
  split <;> exact h

/-- C1: `WriteToAllNodes` returns `nil` if and only if at least one node's `Write`
returned `nil`, each node being written in the world left by the writes on the
nodes before it; this is the case exactly when the calls it made hold a `Write`
that returned `nil`.  With no node it returns an error, and it returns `nil`
when one node succeeded although another failed. -/
theorem WriteToAllNodes_nil_iff_some_write_ok {W : Type} (sm : Manager W) (obj : FileObject)
    (w : W) :
    ((sm.WriteToAllNodes obj w).ret = none ↔
      ∃ (k : Nat) (node : StorageNode W), sm.nodes[k]? = some node ∧ (node.Write obj
        ((sm.nodes.take k).foldl (fun v n => (n.Write obj v).world) w)).err = none) ∧
    ((sm.WriteToAllNodes obj w).ret = none ↔
      ∃ i, i < sm.nodes.length ∧ Call.Write i obj none ∈ (sm.WriteToAllNodes obj w).calls) ∧
    ((Manager.mk [] sm.thirdPartyService).WriteToAllNodes obj w).ret =
      some "failed to write to any storage node, last error: <nil>" ∧
    (∀ i j e, Call.Write i obj none ∈ (sm.WriteToAllNodes obj w).calls →
      Call.Write j obj (some e) ∈ (sm.WriteToAllNodes obj w).calls →
      (sm.WriteToAllNodes obj w).ret = none) := by
  obtain ⟨errs, h1, h2, _, h4, _, h6⟩ := WriteToAllNodes_run sm obj w
  have key : ∀ i, Call.Write i obj none ∈ (sm.WriteToAllNodes obj w).calls →
      i < sm.nodes.length ∧ none ∈ errs := by
    intro i hi
    rw [h2, mem_writeCalls] at hi
    obtain ⟨k, e, he, hc⟩ := hi
    injection hc with hc1 _ hc3
    have hk : k < errs.length := (List.getElem?_eq_some_iff.1 he).1
    refine ⟨by omega, ?_⟩
    rw [hc3]
    exact List.mem_iff_getElem?.2 ⟨k, he⟩
  refine ⟨?_, ?_, rfl, ?_⟩
  · rw [h4]
    constructor
    · intro hn
      obtain ⟨k, hk⟩ := List.mem_iff_getElem?.1 hn
      have hlt : k < errs.length := (List.getElem?_eq_some_iff.1 hk).1
      have hkn : k < sm.nodes.length := by omega
      refine ⟨k, sm.nodes[k], List.getElem?_eq_getElem hkn, ?_⟩
      have := h6 k sm.nodes[k] (List.getElem?_eq_getElem hkn)
      rw [hk] at this
      injection this with this
      exact this.symm
    · rintro ⟨k, node, hk, he⟩
      have := h6 k node hk
      rw [he] at this
      exact List.mem_iff_getElem?.2 ⟨k, this⟩
  · rw [h4]
    constructor
    · intro hn
      obtain ⟨k, hk⟩ := List.mem_iff_getElem?.1 hn
      have hlt : k < errs.length := (List.getElem?_eq_some_iff.1 hk).1
      refine ⟨k, by omega, ?_⟩
      rw [h2, mem_writeCalls]
      exact ⟨k, none, hk, by simp⟩
    · rintro ⟨i, _, hi⟩
      exact (key i hi).2
  · intro i j e hi _
    exact h4.2 (key i hi).2

/-- C2: `WriteToAllNodes` makes exactly one call per node, the call number `k`
being `Write` of the object on node `k`, made in the world left by the writes
on the nodes before it and recorded with the error it returned; the world it
leaves is the one obtained by applying every node's `Write` in list order,
whatever the calls returned. -/
theorem WriteToAllNodes_writes_every_node_in_order {W : Type} (sm : Manager W)
    (obj : FileObject) (w : W) :
    (sm.WriteToAllNodes obj w).calls.length = sm.nodes.length ∧
    (∀ (k : Nat) (node : StorageNode W), sm.nodes[k]? = some node →
      (sm.WriteToAllNodes obj w).calls[k]? = some (Call.Write k obj (node.Write obj
        ((sm.nodes.take k).foldl (fun v n => (n.Write obj v).world) w)).err)) ∧
    (sm.WriteToAllNodes obj w).world =
      sm.nodes.foldl (fun v node => (node.Write obj v).world) w := by
  obtain ⟨errs, h1, h2, _, _, _, h6⟩ := WriteToAllNodes_run sm obj w
  refine ⟨by rw [h2, length_writeCalls, h1], ?_, WriteToAllNodes_world sm obj w⟩
  intro k node hk
  rw [h2, getElem?_writeCalls, h6 k node hk]
  simp

/-- C3: when the node list is not empty and every call returned an error, the last
call is the `Write` on the last node, it returned an error `e`, and the error
of `WriteToAllNodes` is the fixed text followed by that `e`. -/
theorem WriteToAllNodes_all_fail_carries_last_error {W : Type} (sm : Manager W)
    (obj : FileObject) (w : W) (hne : sm.nodes ≠ [])
    (hfail : ∀ c ∈ (sm.WriteToAllNodes obj w).calls, c.err ≠ none) :
    ∃ e, (sm.WriteToAllNodes obj w).calls.getLast? =
        some (Call.Write (sm.nodes.length - 1) obj (some e)) ∧
      (sm.WriteToAllNodes obj w).ret =
        some ("failed to write to any storage node, last error: " ++ e) := by
  obtain ⟨errs, h1, h2, _, _, h5, _⟩ := WriteToAllNodes_run sm obj w
  have hn : none ∉ errs := by
    intro hm
    obtain ⟨k, hk⟩ := List.mem_iff_getElem?.1 hm
    exact hfail (Call.Write k obj none)
      (by rw [h2, mem_writeCalls]; exact ⟨k, none, hk, by simp⟩) rfl
  have hlen : 0 < errs.length := by
    rw [h1]
    exact List.length_pos.2 hne
  have hlast : errs[errs.length - 1]? = some (errs[errs.length - 1]) :=
    List.getElem?_eq_getElem (by omega)
  cases hl : errs[errs.length - 1] with
  | none => exact absurd (hl ▸ List.getElem_mem (by omega)) hn
  | some e =>
    refine ⟨e, ?_, ?_⟩
    · rw [List.getLast?_eq_getElem?, h2, length_writeCalls, getElem?_writeCalls, hlast, hl, h1]
      simp
    · rw [h5 hn, List.getLast?_eq_getElem?, hlast, hl]
      rfl

/-- Witness of C3: two nodes that fail with `first down` and `second down`. -/
theorem WriteToAllNodes_all_fail_carries_last_error_witness :
    ∃ e, ((Manager.mk [failingNode Unit "stg1" "first down",
        failingNode Unit "stg2" "second down"] none).WriteToAllNodes hello ()).calls.getLast? =
        some (Call.Write (2 - 1) hello (some e)) ∧
      ((Manager.mk [failingNode Unit "stg1" "first down",
        failingNode Unit "stg2" "second down"] none).WriteToAllNodes hello ()).ret =
        some ("failed to write to any storage node, last error: " ++ e) :=
  WriteToAllNodes_all_fail_carries_last_error
    (Manager.mk [failingNode Unit "stg1" "first down", failingNode Unit "stg2" "second down"] none)
    hello () (by simp) (by decide)

theorem countP_writeCalls (obj : FileObject) (i : Nat) (errs : List (Option String)) :
    (writeCalls obj i errs).countP (fun c => c.err = none) = errs.count none := by
  induction errs generalizing i with
  | nil => simp [writeCalls]
  | cons e errs ih =>
    rw [writeCalls_cons, List.countP_cons, ih (i + 1), List.count_cons]
    cases e <;> simp [Call.err]

/-- Counterexample of C4: the value `WriteToAllNodes` returns is the same after
one successful write out of one node and after two out of two, so no count can
be read off it. -/
theorem WriteToAllNodes_returns_no_success_count :
    ((Manager.mk [acceptingNode Unit "stg1"] none).WriteToAllNodes hello ()).ret =
      ((Manager.mk [acceptingNode Unit "stg1", acceptingNode Unit "stg2"]
        none).WriteToAllNodes hello ()).ret ∧
    ((Manager.mk [acceptingNode Unit "stg1"] none).writeLoopEnd hello ()).successCount = 1 ∧
    ((Manager.mk [acceptingNode Unit "stg1", acceptingNode Unit "stg2"]
      none).writeLoopEnd hello ()).successCount = 2 ∧
    ¬ ∃ count : Option String → Nat, ∀ (sm : Manager Unit) (obj : FileObject),
      count (sm.WriteToAllNodes obj ()).ret = (sm.writeLoopEnd obj ()).successCount := by
  refine ⟨by decide, by decide, by decide, ?_⟩
  rintro ⟨count, h⟩
  have h1 := h (Manager.mk [acceptingNode Unit "stg1"] none) hello
  have h2 := h (Manager.mk [acceptingNode Unit "stg1", acceptingNode Unit "stg2"] none) hello
  have e1 : ((Manager.mk [acceptingNode Unit "stg1"] none).WriteToAllNodes hello ()).ret = none := by
    decide
  have e2 : ((Manager.mk [acceptingNode Unit "stg1", acceptingNode Unit "stg2"]
      none).WriteToAllNodes hello ()).ret = none := by
    decide
  have c1 : ((Manager.mk [acceptingNode Unit "stg1"] none).writeLoopEnd hello ()).successCount = 1 := by
    decide
  have c2 : ((Manager.mk [acceptingNode Unit "stg1", acceptingNode Unit "stg2"]
      none).writeLoopEnd hello ()).successCount = 2 := by
    decide
  rw [e1, c1] at h1
  rw [e2, c2] at h2
  omega

theorem Write_eq_of_no_hash (md5Sum other : List Byte → List Byte) (fs : FileStorageNode)
    (obj : FileObject) (w : OS) (h : obj.MD5Hash = "") :
    fs.Write md5Sum obj w = fs.Write other obj w := by
  unfold FileStorageNode.Write
  simp [h]

theorem Read_err_eq (md5Sum other : List Byte → List Byte) (fs : FileStorageNode)
    (key : String) (w : OS) :
    (fs.Read md5Sum key w).err = (fs.Read other key w).err := by
  unfold FileStorageNode.Read
  simp only
  split
  · rfl
  · split
    · rfl
    · split <;> rfl

theorem Read_payload_eq (md5Sum other : List Byte → List Byte) (fs : FileStorageNode)
    (key : String) (w : OS) :
    (fs.Read md5Sum key w).obj.map (fun o => (o.Key, o.Size, o.Data)) =
      (fs.Read other key w).obj.map (fun o => (o.Key, o.Size, o.Data)) := by
  unfold FileStorageNode.Read
  simp only
  split
  · rfl
  · split
    · rfl
    · split <;> rfl

theorem threeNodes_write_eq (md5Sum : List Byte → List Byte) (w : OS) :
    (threeNodes md5Sum).writeLoopEnd hello w = (threeNodes (fun _ => [])).writeLoopEnd hello w := by
  simp only [Manager.writeLoopEnd, threeNodes, writeLoop, FileStorageNode.asStorageNode,
    Write_eq_of_no_hash md5Sum (fun _ => []) _ hello _ rfl]

/-- C4, amended: `WriteToAllNodes` returns an error only; the count kept in its
local variable `successCount` is the number of `Write` calls that returned
`nil`, and the result is `nil` exactly when it is positive.  With the three
nodes of which the second always fails, on the file system left by the
creation of the file nodes, writing `hello` returns `nil` with a count of 2,
and `Read` of `b/obj1` on the first node then returns the bytes of `hello`. -/
theorem WriteToAllNodes_success_count {W : Type} (sm : Manager W) (obj : FileObject) (w : W)
    (md5Sum : List Byte → List Byte) :
    (sm.writeLoopEnd obj w).successCount =
      (sm.WriteToAllNodes obj w).calls.countP (fun c => c.err = none) ∧
    ((sm.WriteToAllNodes obj w).ret = none ↔ 0 < (sm.writeLoopEnd obj w).successCount) ∧
    ((threeNodes md5Sum).WriteToAllNodes hello (startedOS 0)).ret = none ∧
    ((threeNodes md5Sum).writeLoopEnd hello (startedOS 0)).successCount = 2 ∧
    (stg1.Read md5Sum "b/obj1"
      ((threeNodes md5Sum).WriteToAllNodes hello (startedOS 0)).world).err = none ∧
    (stg1.Read md5Sum "b/obj1"
      ((threeNodes md5Sum).WriteToAllNodes hello (startedOS 0)).world).obj.map
        (fun o => (o.Key, o.Size, o.Data)) = some ("b/obj1", 5, hello.Data) := by
  obtain ⟨errs, _, h2, h3, h4, _, _⟩ := WriteToAllNodes_run sm obj w
  have hw : (threeNodes md5Sum).WriteToAllNodes hello (startedOS 0) =
      (threeNodes (fun _ => [])).WriteToAllNodes hello (startedOS 0) := by
    unfold Manager.WriteToAllNodes
    rw [threeNodes_write_eq]
  refine ⟨by rw [h2, countP_writeCalls, h3], by rw [h4, h3, List.count_pos_iff], ?_, ?_, ?_, ?_⟩
  · rw [hw]
    decide
  · rw [threeNodes_write_eq]
    decide
  · rw [hw, Read_err_eq md5Sum (fun _ => [])]
    decide
  · rw [hw, Read_payload_eq md5Sum (fun _ => [])]
    decide

/-! ## Theorems: ReadFromStg1OrThirdParty and ReadFromAnyNode -/

/-- C5: when the first node is named stg1 and its `Read` of the key returns no
error, `ReadFromStg1OrThirdParty` returns the object of that `Read` with a `nil`
error, and that `Read` is the only call it makes: the third-party source is not
asked. -/
theorem ReadFromStg1OrThirdParty_returns_primary_object {W : Type} (sm : Manager W)
    (key : String) (w : W) (stg1Node : StorageNode W) (rest : List (StorageNode W))
    (hnodes : sm.nodes = stg1Node :: rest) (hid : stg1Node.GetNodeID = "stg1")
    (hread : (stg1Node.Read key w).err = none) :
    (sm.ReadFromStg1OrThirdParty key w).ret = ((stg1Node.Read key w).obj, none) ∧
    (sm.ReadFromStg1OrThirdParty key w).calls =
      [Call.Read 0 key (stg1Node.Read key w).obj none] ∧
    (sm.ReadFromStg1OrThirdParty key w).world = (stg1Node.Read key w).world := by
  unfold Manager.ReadFromStg1OrThirdParty
  rw [hnodes]
  simp only [hid, if_true]
  rw [hread]
  exact ⟨rfl, rfl, rfl⟩

/-- Witness of C5: the first node is named stg1 and holds `hello`, and a
third-party source is configured. -/
theorem ReadFromStg1OrThirdParty_returns_primary_object_witness :
    ((Manager.mk [holdingNode Unit "stg1" hello, failingNode Unit "stg2" "node down"]
        (some (failingSource Unit "no such object"))).ReadFromStg1OrThirdParty "b/obj1" ()).ret =
      (some hello, none) ∧
    ((Manager.mk [holdingNode Unit "stg1" hello, failingNode Unit "stg2" "node down"]
        (some (failingSource Unit "no such object"))).ReadFromStg1OrThirdParty "b/obj1" ()).calls =
      [Call.Read 0 "b/obj1" (some hello) none] ∧
    ((Manager.mk [holdingNode Unit "stg1" hello, failingNode Unit "stg2" "node down"]
        (some (failingSource Unit "no such object"))).ReadFromStg1OrThirdParty "b/obj1" ()).world =
      () :=
  ReadFromStg1OrThirdParty_returns_primary_object
    (Manager.mk [holdingNode Unit "stg1" hello, failingNode Unit "stg2" "node down"]
      (some (failingSource Unit "no such object")))
    "b/obj1" () (holdingNode Unit "stg1" hello) [failingNode Unit "stg2" "node down"]
    rfl (by decide) rfl

/-- The attempt on stg1 is not made, or its `Read` returned an error. -/
theorem ReadFromStg1OrThirdParty_after_miss {W : Type} (sm : Manager W) (key : String) (w : W)
    (hmiss : sm.nodes = [] ∨ ∃ node rest, sm.nodes = node :: rest ∧
      (node.GetNodeID ≠ "stg1" ∨ (node.Read key w).err ≠ none)) :
    ∃ calls, (sm.ReadFromStg1OrThirdParty key w).ret =
        (sm.readThirdParty key (sm.worldAfterStg1 key w) calls).ret ∧
      (sm.ReadFromStg1OrThirdParty key w).world =
        (sm.readThirdParty key (sm.worldAfterStg1 key w) calls).world := by
  unfold Manager.ReadFromStg1OrThirdParty Manager.worldAfterStg1
  rcases hmiss with h | ⟨node, rest, h, hn⟩
  · rw [h]
    exact ⟨[], rfl, rfl⟩
  · rw [h]
    by_cases hid : node.GetNodeID = "stg1"
    · simp only [hid, if_true]
      rcases hn with hn | hn
      · exact absurd hid hn
      · cases he : (node.Read key w).err with
        | none => exact absurd he hn
        | some e => exact ⟨_, rfl, rfl⟩
    · simp only [hid, if_false]
      exact ⟨[], rfl, rfl⟩

theorem readThirdParty_ret {W : Type} (sm : Manager W) (key : String) (w : W)
    (calls : List Call) :
    (sm.readThirdParty key w calls).ret = (sm.readThirdParty key w []).ret ∧
    (sm.readThirdParty key w calls).world = (sm.readThirdParty key w []).world := by
  unfold Manager.readThirdParty
  cases sm.thirdPartyService with
  | none => exact ⟨rfl, rfl⟩
  | some service =>
    simp only
    cases (service.GetObject key w).err <;> exact ⟨rfl, rfl⟩

/-- C6: with a third-party source configured, when the attempt on stg1 is not
made or its `Read` returned an error, `ReadFromStg1OrThirdParty` returns the
object of `GetObject` with a `nil` error when `GetObject` returned no error, and
no object with an error made of the fixed text and the error of `GetObject`
when it returned one. -/
theorem ReadFromStg1OrThirdParty_falls_back_to_third_party {W : Type} (sm : Manager W)
    (key : String) (w : W) (service : ThirdPartyService W)
    (hservice : sm.thirdPartyService = some service)
    (hmiss : sm.nodes = [] ∨ ∃ node rest, sm.nodes = node :: rest ∧
      (node.GetNodeID ≠ "stg1" ∨ (node.Read key w).err ≠ none)) :
    ((service.GetObject key (sm.worldAfterStg1 key w)).err = none →
      (sm.ReadFromStg1OrThirdParty key w).ret =
        ((service.GetObject key (sm.worldAfterStg1 key w)).obj, none)) ∧
    (∀ e, (service.GetObject key (sm.worldAfterStg1 key w)).err = some e →
      (sm.ReadFromStg1OrThirdParty key w).ret =
        (none, some ("failed to get object from third party service: " ++ e))) := by
  obtain ⟨calls, hret, _⟩ := ReadFromStg1OrThirdParty_after_miss sm key w hmiss
  rw [hret, (readThirdParty_ret sm key _ calls).1]
  unfold Manager.readThirdParty
  rw [hservice]
  simp only
  constructor
  · intro h
    rw [h]
  · intro e h
    rw [h]

/-- Witness of C6: the only node is named stg1 and fails, and the third-party
source returns `hello`. -/
theorem ReadFromStg1OrThirdParty_falls_back_to_third_party_witness :
    ((holdingSource Unit hello).GetObject "b/obj1" ()).err = none ∧
    ((Manager.mk [failingNode Unit "stg1" "node down"]
        (some (holdingSource Unit hello))).ReadFromStg1OrThirdParty "b/obj1" ()).ret =
      (some hello, none) :=
  ⟨rfl, (ReadFromStg1OrThirdParty_falls_back_to_third_party
    (Manager.mk [failingNode Unit "stg1" "node down"] (some (holdingSource Unit hello)))
    "b/obj1" () (holdingSource Unit hello) rfl
    (Or.inr ⟨failingNode Unit "stg1" "node down", [], rfl, Or.inr (by decide)⟩)).1 rfl⟩

/-- C7: with no third-party source configured, when the attempt on stg1 is not
made or its `Read` returned an error, `ReadFromStg1OrThirdParty` returns no
object and the error that no source is available for the key, and leaves the
world of the attempt.  The `Read` of a file node returns such an error, file
not found, whenever `Stat` reports that the file of the key does not exist. -/
theorem ReadFromStg1OrThirdParty_no_source {W : Type} (sm : Manager W) (key : String) (w : W)
    (hservice : sm.thirdPartyService = none)
    (hmiss : sm.nodes = [] ∨ ∃ node rest, sm.nodes = node :: rest ∧
      (node.GetNodeID ≠ "stg1" ∨ (node.Read key w).err ≠ none)) :
    (sm.ReadFromStg1OrThirdParty key w).ret =
      (none, some ("failed to read file " ++ key ++
        " from stg1 and no third party service configured")) ∧
    (sm.ReadFromStg1OrThirdParty key w).world = sm.worldAfterStg1 key w ∧
    (∀ (md5Sum : List Byte → List Byte) (fs : FileStorageNode) (v : OS),
      IsNotExist (errorOf (Stat (fs.getFilePath key) v)) = true →
      (fs.Read md5Sum key v).obj = none ∧
      (fs.Read md5Sum key v).err = some ("file not found: " ++ key) ∧
      (fs.Read md5Sum key v).world = v) := by
  obtain ⟨calls, hret, hworld⟩ := ReadFromStg1OrThirdParty_after_miss sm key w hmiss
  rw [hret, hworld]
  unfold Manager.readThirdParty
  rw [hservice]
  refine ⟨rfl, rfl, ?_⟩
  intro md5Sum fs v hstat
  unfold FileStorageNode.Read
  simp [hstat]

/-- Witness of C7: the file node stg1 on the file system left by the creation
of the nodes, where no key was written: its `Read` fails with not found. -/
theorem ReadFromStg1OrThirdParty_no_source_witness :
    (stg1.Read (fun _ => []) "b/obj1" (startedOS 0)).err = some "file not found: b/obj1" ∧
    ((Manager.mk [stg1.asStorageNode (fun _ => [])] none).ReadFromStg1OrThirdParty "b/obj1"
        (startedOS 0)).ret =
      (none, some ("failed to read file " ++ "b/obj1" ++
        " from stg1 and no third party service configured")) :=
  ⟨by decide, (ReadFromStg1OrThirdParty_no_source
    (Manager.mk [stg1.asStorageNode (fun _ => [])] none) "b/obj1" (startedOS 0) rfl
    (Or.inr ⟨stg1.asStorageNode (fun _ => []), [], rfl, Or.inr (by decide)⟩)).1⟩

/-- The loop of `ReadFromAnyNode` reads the nodes in order and stops at the first
`Read` that returns no error. -/
theorem readLoop_run {W : Type} (key : String) (ns : List (StorageNode W)) (i : Nat) (w : W)
    (calls : List Call) :
    ∃ new : List Call, (readLoop key ns i w calls).calls = calls ++ new ∧
      new.length ≤ ns.length ∧
      (∀ (j : Nat) (node : StorageNode W), j < new.length → ns[j]? = some node →
        new[j]? = some (Call.Read (i + j) key
          (node.Read key ((ns.take j).foldl (fun v n => (n.Read key v).world) w)).obj
          (node.Read key ((ns.take j).foldl (fun v n => (n.Read key v).world) w)).err)) ∧
      ((readLoop key ns i w calls).ret.2 = none →
        ∃ k, new.length = k + 1 ∧
          new[k]? = some (Call.Read (i + k) key (readLoop key ns i w calls).ret.1 none) ∧
          ∀ j, j < k → ∃ o e, new[j]? = some (Call.Read (i + j) key o (some e))) ∧
      ((readLoop key ns i w calls).ret.2 ≠ none →
        (readLoop key ns i w calls).ret =
          (none, some ("failed to read file " ++ key ++ " from any storage node")) ∧
        new.length = ns.length ∧
        ∀ j, j < ns.length → ∃ o e, new[j]? = some (Call.Read (i + j) key o (some e))) := by
  induction ns generalizing i w calls with
  | nil =>
    refine ⟨[], by simp [readLoop], by simp, by simp, ?_, ?_⟩
    · intro h
      simp [readLoop] at h
    · intro _
      exact ⟨rfl, rfl, by simp⟩
  | cons node rest ih =>
    cases h : (node.Read key w).err with
    | none =>
      refine ⟨[Call.Read i key (node.Read key w).obj none], ?_, by simp, ?_, ?_, ?_⟩
      · simp only [readLoop, h]
      · intro j n hj hn
        have hj0 : j = 0 := by simpa using hj
        subst hj0
        simp only [List.getElem?_cons_zero, Option.some.injEq] at hn
        subst hn
        simp [h]
      · intro _
        refine ⟨0, rfl, ?_, by intro j hj; omega⟩
        simp only [readLoop, h]
        rfl
      · intro hne
        simp only [readLoop, h] at hne
        exact absurd rfl hne
    | some e =>
      obtain ⟨new, h1, h2, h3, h4, h5⟩ := ih (i + 1) (node.Read key w).world
        (calls ++ [Call.Read i key (node.Read key w).obj (some e)])
      have hstep : readLoop key (node :: rest) i w calls =
          readLoop key rest (i + 1) (node.Read key w).world
            (calls ++ [Call.Read i key (node.Read key w).obj (some e)]) := by
        simp only [readLoop, h]
      rw [hstep]
      refine ⟨Call.Read i key (node.Read key w).obj (some e) :: new, ?_, ?_, ?_, ?_, ?_⟩
      · rw [h1]
        simp
      · simp only [List.length_cons]
        omega
      · intro j n hj hn
        cases j with
        | zero =>
          simp only [List.getElem?_cons_zero, Option.some.injEq] at hn
          subst hn
          simp [h]
        | succ j =>
          simp only [List.getElem?_cons_succ] at hn
          have hj' := h3 j n (by simpa using hj) hn
          simpa [Nat.add_assoc, Nat.add_comm 1 j] using hj'
      · intro hnone
        obtain ⟨k, hk1, hk2, hk3⟩ := h4 hnone
        refine ⟨k + 1, by simp [hk1], ?_, ?_⟩
        · simpa [Nat.add_assoc, Nat.add_comm 1 k] using hk2
        · intro j hj
          cases j with
          | zero => exact ⟨(node.Read key w).obj, e, by simp⟩
          | succ j =>
            obtain ⟨o, e', hj'⟩ := hk3 j (by omega)
            exact ⟨o, e', by simpa [Nat.add_assoc, Nat.add_comm 1 j] using hj'⟩
      · intro hne
        obtain ⟨hr, hl, hall⟩ := h5 hne
        refine ⟨hr, by simp [hl], ?_⟩
        intro j hj
        cases j with
        | zero => exact ⟨(node.Read key w).obj, e, by simp⟩
        | succ j =>
          obtain ⟨o, e', hj'⟩ := hall j (by simpa using hj)
          exact ⟨o, e', by simpa [Nat.add_assoc, Nat.add_comm 1 j] using hj'⟩

/-- C8: `ReadFromAnyNode` only makes `Read` calls, call number `j` on node `j`, in
the world left by the reads before it and recorded with what it returned, and
at most one per node.  If it returns no error, its last call is the first
`Read` that returned no error, it returns the object of that call, and the
nodes after it are not read.  If it returns an error, every node was read,
every `Read` returned an error, and the result is no object with the fixed
error.  The third-party source plays no part in it. -/
theorem ReadFromAnyNode_first_success {W : Type} (sm : Manager W) (key : String) (w : W) :
    (sm.ReadFromAnyNode key w).calls.length ≤ sm.nodes.length ∧
    (∀ (j : Nat) (node : StorageNode W), j < (sm.ReadFromAnyNode key w).calls.length →
      sm.nodes[j]? = some node →
      (sm.ReadFromAnyNode key w).calls[j]? = some (Call.Read j key
        (node.Read key ((sm.nodes.take j).foldl (fun v n => (n.Read key v).world) w)).obj
        (node.Read key ((sm.nodes.take j).foldl (fun v n => (n.Read key v).world) w)).err)) ∧
    ((sm.ReadFromAnyNode key w).ret.2 = none →
      ∃ k, (sm.ReadFromAnyNode key w).calls.length = k + 1 ∧
        (sm.ReadFromAnyNode key w).calls[k]? =
          some (Call.Read k key (sm.ReadFromAnyNode key w).ret.1 none) ∧
        ∀ j, j < k → ∃ o e,
          (sm.ReadFromAnyNode key w).calls[j]? = some (Call.Read j key o (some e))) ∧
    ((sm.ReadFromAnyNode key w).ret.2 ≠ none →
      (sm.ReadFromAnyNode key w).ret =
        (none, some ("failed to read file " ++ key ++ " from any storage node")) ∧
      (sm.ReadFromAnyNode key w).calls.length = sm.nodes.length ∧
      ∀ j, j < sm.nodes.length → ∃ o e,
        (sm.ReadFromAnyNode key w).calls[j]? = some (Call.Read j key o (some e))) ∧
    ((sm.ReadFromAnyNode key w).ret.2 ≠ none ↔
      ∀ c ∈ (sm.ReadFromAnyNode key w).calls, c.err ≠ none) ∧
    (∀ service, (Manager.mk sm.nodes service).ReadFromAnyNode key w =
      sm.ReadFromAnyNode key w) := by
  obtain ⟨new, h1, h2, h3, h4, h5⟩ := readLoop_run key sm.nodes 0 w []
  simp only [List.nil_append, Nat.zero_add] at h1 h3 h4 h5
  have hc : (sm.ReadFromAnyNode key w).calls = new := h1
  have hr : sm.ReadFromAnyNode key w = readLoop key sm.nodes 0 w [] := rfl
  rw [hc, hr]
  refine ⟨h2, h3, h4, h5, ?_, fun _ => rfl⟩
  constructor
  · intro hne c hcm
    obtain ⟨_, hl, hall⟩ := h5 hne
    obtain ⟨j, hj⟩ := List.mem_iff_getElem?.1 hcm
    have hjl : j < new.length := (List.getElem?_eq_some_iff.1 hj).1
    obtain ⟨o, e, hj'⟩ := hall j (by omega)
    rw [hj'] at hj
    injection hj with hj
    rw [← hj]
    simp [Call.err]
  · intro hall hnone
    obtain ⟨k, _, hk2, _⟩ := h4 hnone
    exact hall _ (List.mem_iff_getElem?.2 ⟨k, hk2⟩) rfl

end storage

/-! ## Theorems: Enqueue -/

namespace queue

open fixture

theorem runWorkerStep_queue_inv {W : Type} (qm : Manager W) (g : Nat) (v : W)
    (h : qm.queue.recvq ≠ [] → qm.queue.buf = []) :
    (qm.runWorkerStep g v).1.queue.recvq ≠ [] → (qm.runWorkerStep g v).1.queue.buf = [] := by
  unfold Manager.runWorkerStep
  cases qm.goroutines[g]? with
  | none => exact h
  | some gr =>
    simp only
    cases gr.stage with
    | receiving =>
      simp only
      cases hb : qm.queue.buf with
      | nil =>
        simp only
        cases qm.queue.closed with
        | true =>
          simp only [if_true]
          intro _
          exact hb
        | false =>
          intro _
          simp
      | cons task rest =>
        simp only
        intro hq
        have := h hq
        rw [hb] at this
        exact absurd this (List.cons_ne_nil _ _)
    | parked => exact h
    | received task =>
      simp only
      cases qm.workers[gr.worker]? with
      | none => exact h
      | some worker =>
        simp only
        cases worker.IsRunning <;> exact h
    | returned => exact h

theorem runWorkerStep_running {W : Type} (qm : Manager W) (g : Nat) (v : W) :
    (qm.runWorkerStep g v).1.running = qm.running := by
  unfold Manager.runWorkerStep
  cases qm.goroutines[g]? with
  | none => rfl
  | some gr =>
    simp only
    cases gr.stage with
    | receiving =>
      simp only
      cases qm.queue.buf with
      | nil =>
        simp only
        cases qm.queue.closed <;> rfl
      | cons task rest => rfl
    | parked => rfl
    | received task =>
      simp only
      cases qm.workers[gr.worker]? with
      | none => rfl
      | some worker =>
        simp only
        cases worker.IsRunning <;> rfl
    | returned => rfl

theorem waitFrom_queue_inv {W : Type} (n g : Nat) (qm : Manager W) (v : W)
    (h : qm.queue.recvq ≠ [] → qm.queue.buf = []) :
    (waitFrom n g qm v).1.queue.recvq ≠ [] → (waitFrom n g qm v).1.queue.buf = [] := by
  induction n generalizing g qm v with
  | zero => exact h
  | succ n ih =>
    simp only [waitFrom]
    exact ih _ _ _ (runWorkerStep_queue_inv _ _ _ (runWorkerStep_queue_inv _ _ _ h))

theorem waitFrom_running {W : Type} (n g : Nat) (qm : Manager W) (v : W) :
    (waitFrom n g qm v).1.running = qm.running := by
  induction n generalizing g qm v with
  | zero => rfl
  | succ n ih =>
    simp only [waitFrom]
    rw [ih, runWorkerStep_running, runWorkerStep_running]

theorem Stop_running {W : Type} (qm : Manager W) (v : W) : (qm.Stop v).2.1.running = false := by
  unfold Manager.Stop
  cases hr : qm.running with
  | false => simpa using hr
  | true =>
    simp only [Bool.not_true, Bool.false_eq_true, if_false]
    cases closeQueue qm.queue qm.goroutines with
    | panic msg => rfl
    | ret p => simp only [waitFrom_running]

theorem Stop_queue_inv {W : Type} (qm : Manager W) (v : W)
    (h : qm.queue.recvq ≠ [] → qm.queue.buf = []) :
    (qm.Stop v).2.1.queue.recvq ≠ [] → (qm.Stop v).2.1.queue.buf = [] := by
  unfold Manager.Stop
  cases qm.running with
  | false => exact h
  | true =>
    simp only [Bool.not_true, Bool.false_eq_true, if_false]
    unfold closeQueue
    cases qm.queue.closed with
    | true => exact h
    | false =>
      simp only [Bool.false_eq_true, if_false]
      exact waitFrom_queue_inv _ _ _ _ (fun hq => absurd rfl hq)

theorem Enqueue_queue_inv {W : Type} (qm : Manager W) (task : TaskMessage)
    (h : qm.queue.recvq ≠ [] → qm.queue.buf = []) :
    (qm.Enqueue task).2.queue.recvq ≠ [] → (qm.Enqueue task).2.queue.buf = [] := by
  unfold Manager.Enqueue
  cases qm.running with
  | false => exact h
  | true =>
    simp only [Bool.not_true, Bool.false_eq_true, if_false]
    unfold trySend
    cases qm.queue.closed with
    | true => exact h
    | false =>
      simp only [Bool.false_eq_true, if_false]
      cases hq : qm.queue.recvq with
      | cons g rest =>
        simp only
        intro _
        exact h (by rw [hq]; exact List.cons_ne_nil _ _)
      | nil =>
        simp only
        by_cases hlt : qm.queue.buf.length < qm.queue.cap
        · simp only [hlt, if_true]
          intro hne
          exact absurd rfl hne
        · simp only [hlt, if_false]
          exact h

/-- In every reachable state a goroutine is parked on the receive only while the
buffer of the queue is empty. -/
theorem Reachable.parked_only_when_empty {W : Type} {maxSize : Int} {qm : Manager W}
    (hreach : Reachable maxSize qm) : qm.queue.recvq ≠ [] → qm.queue.buf = [] := by
  induction hreach with
  | init qm h =>
    unfold NewManager at h
    split at h
    · cases h
    · injection h with h
      rw [← h]
      intro hq
      exact absurd rfl hq
  | start qm _ ih =>
    unfold Manager.Start
    split <;> exact ih
  | stop qm v _ ih => exact Stop_queue_inv qm v ih
  | enqueue qm task _ ih => exact Enqueue_queue_inv qm task ih
  | addWorker qm worker _ ih => exact ih
  | step qm g v _ ih => exact runWorkerStep_queue_inv qm g v ih
  | workerStart qm i _ ih => exact ih
  | workerStop qm i _ ih => exact ih
  | workerSetStorageManager qm i sm _ ih => exact ih

/-- Counterexample of C9: a started manager of capacity 0 holds 0 tasks, and
with a worker parked on the receive `Enqueue` returns `nil`, the task going to
that worker; a manager of capacity 2 that was started, filled, stopped and
started again holds 2 tasks, and `Enqueue` panics on its closed channel. -/
theorem Enqueue_at_capacity_counterexample :
    NewManager Unit 0 = Ret.ret (newQueue 0) ∧
    ((((newQueue 0).AddWorker worker1).Start.2.runWorkerStep 0 ()).1).running = true ∧
    ((((newQueue 0).AddWorker worker1).Start.2.runWorkerStep 0 ()).1).queue.buf.length =
      ((((newQueue 0).AddWorker worker1).Start.2.runWorkerStep 0 ()).1).queue.cap ∧
    (((((newQueue 0).AddWorker worker1).Start.2.runWorkerStep 0 ()).1).Enqueue
      (task "cleanup" "a")).1 = Ret.ret none ∧
    NewManager Unit 2 = Ret.ret (newQueue 2) ∧
    ((((((newQueue 2).Start.2.Enqueue (task "cleanup" "a")).2.Enqueue
      (task "cleanup" "b")).2.Stop ()).2.1).Start.2).running = true ∧
    ((((((newQueue 2).Start.2.Enqueue (task "cleanup" "a")).2.Enqueue
      (task "cleanup" "b")).2.Stop ()).2.1).Start.2).queue.buf.length = 2 ∧
    (((((((newQueue 2).Start.2.Enqueue (task "cleanup" "a")).2.Enqueue
      (task "cleanup" "b")).2.Stop ()).2.1).Start.2).Enqueue (task "cleanup" "c")).1 =
        Ret.panic "send on closed channel" := by
  refine ⟨rfl, by decide, by decide, by decide, rfl, by decide, by decide, by decide⟩

/-- C9, amended: in a reachable state of a manager that is running, whose
channel is not closed and whose buffer holds as many tasks as its capacity,
when the capacity is positive or no goroutine is parked on the receive,
`Enqueue` returns the queue-full error and leaves the manager, its queue
included, unchanged. -/
theorem Enqueue_full_queue {W : Type} (maxSize : Int) (qm : Manager W) (task : TaskMessage)
    (hreach : Reachable maxSize qm) (hrun : qm.running = true)
    (hopen : qm.queue.closed = false)
    (hcap : 0 < qm.queue.cap ∨ qm.queue.recvq = [])
    (hfull : qm.queue.buf.length = qm.queue.cap) :
    qm.Enqueue task = (Ret.ret (some "queue is full"), qm) := by
  have hq : qm.queue.recvq = [] := by
    rcases hcap with hcap | hcap
    · by_contra hne
      have := hreach.parked_only_when_empty hne
      rw [this] at hfull
      simp at hfull
      omega
    · exact hcap
  unfold Manager.Enqueue trySend
  simp [hrun, hopen, hq, hfull]

/-- Witness of C9: capacity 2 and no worker; the first two of three calls of
`Enqueue` return `nil` and the third returns the queue-full error. -/
theorem Enqueue_full_queue_witness :
    ((newQueue 2).Start.2.Enqueue (task "cleanup" "a")).1 = Ret.ret none ∧
    (((newQueue 2).Start.2.Enqueue (task "cleanup" "a")).2.Enqueue
      (task "cleanup" "b")).1 = Ret.ret none ∧
    (((newQueue 2).Start.2.Enqueue (task "cleanup" "a")).2.Enqueue
      (task "cleanup" "b")).2.Enqueue (task "cleanup" "c") =
      (Ret.ret (some "queue is full"),
        (((newQueue 2).Start.2.Enqueue (task "cleanup" "a")).2.Enqueue
          (task "cleanup" "b")).2) :=
  ⟨by decide, by decide,
    Enqueue_full_queue 2
      (((newQueue 2).Start.2.Enqueue (task "cleanup" "a")).2.Enqueue (task "cleanup" "b")).2
      (task "cleanup" "c")
      (Reachable.enqueue _ _ (Reachable.enqueue _ _ (Reachable.start _ (Reachable.init _ rfl))))
      (by decide) (by decide) (Or.inl (by decide)) (by decide)⟩

/-- C10: `Enqueue` on a manager that is not running returns the not-running
error and leaves the manager, its queue included, unchanged; the manager that
`NewManager` returns is not running, adding a worker to it does not start it,
and no manager is running after a call of `Stop`. -/
theorem Enqueue_not_running {W : Type} (qm : Manager W) (task : TaskMessage)
    (hrun : qm.running = false) :
    qm.Enqueue task = (Ret.ret (some "queue manager is not running"), qm) ∧
    (∀ maxSize (fresh : Manager W), NewManager W maxSize = Ret.ret fresh →
      fresh.running = false) ∧
    (∀ worker, (qm.AddWorker worker).running = false) ∧
    (∀ (started : Manager W) (v : W), (started.Stop v).2.1.running = false) := by
  refine ⟨?_, ?_, fun _ => hrun, Stop_running⟩
  · unfold Manager.Enqueue
    simp [hrun]
  · intro maxSize fresh h
    unfold NewManager at h
    split at h
    · cases h
    · injection h with h
      rw [← h]

/-- Witness of C10: a manager of capacity 2 that was started, given a task and
stopped. -/
theorem Enqueue_not_running_witness :
    ((((newQueue 2).Start.2.Enqueue (task "cleanup" "a")).2.Stop ()).2.1).Enqueue
        (task "cleanup" "b") =
      (Ret.ret (some "queue manager is not running"),
        (((newQueue 2).Start.2.Enqueue (task "cleanup" "a")).2.Stop ()).2.1) :=
  (Enqueue_not_running
    ((((newQueue 2).Start.2.Enqueue (task "cleanup" "a")).2.Stop ()).2.1)
    (task "cleanup" "b") (Stop_running _ _)).1

end queue

/-! ## Theorems: the queue invariant -/

namespace queue

open fixture

theorem runWorkerStep_bounds {W : Type} (qm : Manager W) (g : Nat) (v : W) :
    (qm.runWorkerStep g v).1.queue.buf.length ≤ qm.queue.buf.length ∧
    (qm.runWorkerStep g v).1.queue.cap = qm.queue.cap ∧
    (qm.runWorkerStep g v).1.maxSize = qm.maxSize := by
  unfold Manager.runWorkerStep
  cases qm.goroutines[g]? with
  | none => exact ⟨le_refl _, rfl, rfl⟩
  | some gr =>
    simp only
    cases gr.stage with
    | receiving =>
      simp only
      cases hb : qm.queue.buf with
      | nil =>
        simp only
        cases qm.queue.closed with
        | true => simp [hb]
        | false => simp
      | cons task rest => simp
    | parked => exact ⟨le_refl _, rfl, rfl⟩
    | received task =>
      simp only
      cases qm.workers[gr.worker]? with
      | none => exact ⟨le_refl _, rfl, rfl⟩
      | some worker =>
        simp only
        cases worker.IsRunning <;> exact ⟨le_refl _, rfl, rfl⟩
    | returned => exact ⟨le_refl _, rfl, rfl⟩

theorem waitFrom_bounds {W : Type} (n g : Nat) (qm : Manager W) (v : W) :
    (waitFrom n g qm v).1.queue.buf.length ≤ qm.queue.buf.length ∧
    (waitFrom n g qm v).1.queue.cap = qm.queue.cap ∧
    (waitFrom n g qm v).1.maxSize = qm.maxSize := by
  induction n generalizing g qm v with
  | zero => exact ⟨le_refl _, rfl, rfl⟩
  | succ n ih =>
    simp only [waitFrom]
    obtain ⟨a1, a2, a3⟩ := runWorkerStep_bounds qm g v
    obtain ⟨b1, b2, b3⟩ := runWorkerStep_bounds (qm.runWorkerStep g v).1 g
      (qm.runWorkerStep g v).2.world
    obtain ⟨c1, c2, c3⟩ := ih (g + 1)
      ((qm.runWorkerStep g v).1.runWorkerStep g (qm.runWorkerStep g v).2.world).1
      ((qm.runWorkerStep g v).1.runWorkerStep g (qm.runWorkerStep g v).2.world).2.world
    exact ⟨by omega, by rw [c2, b2, a2], by rw [c3, b3, a3]⟩

theorem Stop_bounds {W : Type} (qm : Manager W) (v : W) :
    (qm.Stop v).2.1.queue.buf.length ≤ qm.queue.buf.length ∧
    (qm.Stop v).2.1.queue.cap = qm.queue.cap ∧
    (qm.Stop v).2.1.maxSize = qm.maxSize := by
  unfold Manager.Stop
  cases qm.running with
  | false => exact ⟨le_refl _, rfl, rfl⟩
  | true =>
    simp only [Bool.not_true, Bool.false_eq_true, if_false]
    unfold closeQueue
    cases qm.queue.closed with
    | true => exact ⟨le_refl _, rfl, rfl⟩
    | false =>
      simp only [Bool.false_eq_true, if_false]
      exact waitFrom_bounds _ _ _ _

theorem Enqueue_bounds {W : Type} (qm : Manager W) (task : TaskMessage)
    (h : qm.queue.buf.length ≤ qm.queue.cap) :
    (qm.Enqueue task).2.queue.buf.length ≤ (qm.Enqueue task).2.queue.cap ∧
    (qm.Enqueue task).2.queue.cap = qm.queue.cap ∧
    (qm.Enqueue task).2.maxSize = qm.maxSize := by
  unfold Manager.Enqueue
  cases qm.running with
  | false => exact ⟨h, rfl, rfl⟩
  | true =>
    simp only [Bool.not_true, Bool.false_eq_true, if_false]
    unfold trySend
    cases qm.queue.closed with
    | true => exact ⟨h, rfl, rfl⟩
    | false =>
      simp only [Bool.false_eq_true, if_false]
      cases qm.queue.recvq with
      | cons g rest => exact ⟨h, rfl, rfl⟩
      | nil =>
        simp only
        by_cases hlt : qm.queue.buf.length < qm.queue.cap
        · simp only [hlt, if_true, List.length_append, List.length_singleton, and_self,
            and_true]
          omega
        · simp only [hlt, if_false, and_self, and_true]
          exact h

/-- C12: in every state reachable from the manager that `NewManager(maxSize)`
returned, by `Start`, `Stop`, `Enqueue`, `AddWorker`, steps of the worker
goroutines and calls on the workers, the queue holds at most as many tasks as
its capacity, the capacity is `maxSize`, and `GetStats` reports a `queue_size`
that is at most `max_size`, which is `maxSize`. -/
theorem queue_size_le_max_size {W : Type} (maxSize : Int) (qm : Manager W)
    (hreach : Reachable maxSize qm) :
    qm.queue.buf.length ≤ qm.queue.cap ∧
    (qm.queue.cap : Int) = maxSize ∧
    qm.maxSize = maxSize ∧
    (qm.GetStats.queue_size : Int) ≤ qm.GetStats.max_size ∧
    qm.GetStats.max_size = maxSize ∧
    qm.GetStats.queue_size = qm.queue.buf.length := by
  have key : qm.queue.buf.length ≤ qm.queue.cap ∧ (qm.queue.cap : Int) = maxSize ∧
      qm.maxSize = maxSize := by
    induction hreach with
    | init qm h =>
      unfold NewManager at h
      split at h
      · cases h
      · injection h with h
        rw [← h]
        refine ⟨Nat.zero_le _, ?_, rfl⟩
        simp only
        omega
    | start qm _ ih =>
      unfold Manager.Start
      split <;> exact ih
    | stop qm v _ ih =>
      obtain ⟨a1, a2, a3⟩ := Stop_bounds qm v
      exact ⟨by rw [a2]; omega, by rw [a2]; exact ih.2.1, by rw [a3]; exact ih.2.2⟩
    | enqueue qm task _ ih =>
      obtain ⟨a1, a2, a3⟩ := Enqueue_bounds qm task ih.1
      exact ⟨a1, by rw [a2]; exact ih.2.1, by rw [a3]; exact ih.2.2⟩
    | addWorker qm worker _ ih => exact ih
    | step qm g v _ ih =>
      obtain ⟨a1, a2, a3⟩ := runWorkerStep_bounds qm g v
      exact ⟨by rw [a2]; omega, by rw [a2]; exact ih.2.1, by rw [a3]; exact ih.2.2⟩
    | workerStart qm i _ ih => exact ih
    | workerStop qm i _ ih => exact ih
    | workerSetStorageManager qm i sm _ ih => exact ih
  obtain ⟨k1, k2, k3⟩ := key
  refine ⟨k1, k2, k3, ?_, k3, rfl⟩
  show ((qm.queue.buf.length : Nat) : Int) ≤ qm.maxSize
  rw [k3, ← k2]
  exact_mod_cast k1

/-- Witness of C12: capacity 2, started, three calls of `Enqueue` and no worker
goroutine. -/
theorem queue_size_le_max_size_witness :
    (((((newQueue 2).Start.2.Enqueue (task "cleanup" "a")).2.Enqueue
      (task "cleanup" "b")).2.Enqueue (task "cleanup" "c")).2.GetStats.queue_size : Int) ≤
      ((((newQueue 2).Start.2.Enqueue (task "cleanup" "a")).2.Enqueue
        (task "cleanup" "b")).2.Enqueue (task "cleanup" "c")).2.GetStats.max_size ∧
    ((((newQueue 2).Start.2.Enqueue (task "cleanup" "a")).2.Enqueue
      (task "cleanup" "b")).2.Enqueue (task "cleanup" "c")).2.GetStats.queue_size = 2 :=
  ⟨(queue_size_le_max_size 2 _ (Reachable.enqueue _ (task "cleanup" "c")
      (Reachable.enqueue _ (task "cleanup" "b") (Reachable.enqueue _ (task "cleanup" "a")
        (Reachable.start _ (Reachable.init (newQueue 2) rfl)))))).2.2.2.1,
    by decide⟩

end queue

/-! ## Theorems: first in, first out -/

namespace queue

open fixture

theorem getElem?_setStage_ne (gs : List Goroutine) (g g' : Nat) (stage : Stage) (h : g' ≠ g) :
    (setStage gs g stage)[g']? = gs[g']? := by
  unfold setStage
  rw [List.getElem?_modify]
  cases gs[g']? with
  | none => rfl
  | some x => simp [Ne.symm h]

theorem getElem?_setStage_self (gs : List Goroutine) (g : Nat) (stage : Stage) (gr : Goroutine)
    (h : gs[g]? = some gr) : (setStage gs g stage)[g]? = some ⟨gr.worker, stage⟩ := by
  unfold setStage
  rw [List.getElem?_modify, h]
  simp

theorem ParkedInv.of_setStage {W : Type} {qm : Manager W} (h : ParkedInv qm) (g : Nat)
    (stage : Stage) (gr : Goroutine) (hg : qm.goroutines[g]? = some gr)
    (hs : gr.stage ≠ Stage.parked) (next : Manager W)
    (hc : next.queue.recvq = qm.queue.recvq)
    (hgs : next.goroutines = setStage qm.goroutines g stage) : ParkedInv next := by
  refine ⟨by rw [hc]; exact h.1, ?_⟩
  intro g' hg'
  rw [hc] at hg'
  obtain ⟨gr', h1, h2⟩ := h.2 g' hg'
  have hne : g' ≠ g := by
    intro heq
    rw [heq, hg] at h1
    injection h1 with h1
    exact hs (h1 ▸ h2)
  exact ⟨gr', by rw [hgs, getElem?_setStage_ne _ _ _ _ hne, h1], h2⟩

theorem runWorkerStep_parkedInv {W : Type} (qm : Manager W) (g : Nat) (v : W)
    (h : ParkedInv qm) : ParkedInv (qm.runWorkerStep g v).1 := by
  unfold Manager.runWorkerStep
  cases hg : qm.goroutines[g]? with
  | none => exact h
  | some gr =>
    simp only
    cases hst : gr.stage with
    | receiving =>
      have hs : gr.stage ≠ Stage.parked := by rw [hst]; exact fun h => Stage.noConfusion h
      simp only
      cases hb : qm.queue.buf with
      | nil =>
        simp only
        cases hcl : qm.queue.closed with
        | true =>
          simp only [if_true]
          exact h.of_setStage g Stage.returned gr hg hs _ rfl rfl
        | false =>
          simp only [Bool.false_eq_true, if_false]
          have hnot : g ∉ qm.queue.recvq := by
            intro hmem
            obtain ⟨gr', h1, h2⟩ := h.2 g hmem
            rw [hg] at h1
            injection h1 with h1
            exact hs (h1 ▸ h2)
          refine ⟨?_, ?_⟩
          · simp only
            rw [List.nodup_append]
            refine ⟨h.1, List.nodup_singleton g, ?_⟩
            intro x hx hx'
            rw [List.mem_singleton] at hx'
            exact hnot (hx' ▸ hx)
          · intro g' hg'
            simp only [List.mem_append, List.mem_singleton] at hg'
            rcases hg' with hg' | hg'
            · obtain ⟨gr', h1, h2⟩ := h.2 g' hg'
              have hne : g' ≠ g := fun heq => hnot (heq ▸ hg')
              exact ⟨gr', by simp only [getElem?_setStage_ne _ _ _ _ hne, h1], h2⟩
            · rw [hg']
              exact ⟨⟨gr.worker, Stage.parked⟩, getElem?_setStage_self _ _ _ gr hg, rfl⟩
      | cons task rest =>
        simp only
        exact h.of_setStage g (Stage.received task) gr hg hs _ rfl rfl
    | parked => exact h
    | received task =>
      have hs : gr.stage ≠ Stage.parked := by rw [hst]; exact fun h => Stage.noConfusion h
      simp only
      cases qm.workers[gr.worker]? with
      | none => exact h
      | some worker =>
        simp only
        cases worker.IsRunning with
        | true =>
          simp only [Bool.not_true, Bool.false_eq_true, if_false]
          exact h.of_setStage g Stage.receiving gr hg hs _ rfl rfl
        | false =>
          simp only [Bool.not_false, if_true]
          exact h.of_setStage g Stage.returned gr hg hs _ rfl rfl
    | returned => exact h

theorem waitFrom_parkedInv {W : Type} (n g : Nat) (qm : Manager W) (v : W)
    (h : ParkedInv qm) : ParkedInv (waitFrom n g qm v).1 := by
  induction n generalizing g qm v with
  | zero => exact h
  | succ n ih =>
    simp only [waitFrom]
    exact ih _ _ _ (runWorkerStep_parkedInv _ _ _ (runWorkerStep_parkedInv _ _ _ h))

theorem Stop_parkedInv {W : Type} (qm : Manager W) (v : W) (h : ParkedInv qm) :
    ParkedInv (qm.Stop v).2.1 := by
  unfold Manager.Stop
  cases qm.running with
  | false => exact h
  | true =>
    simp only [Bool.not_true, Bool.false_eq_true, if_false]
    unfold closeQueue
    cases qm.queue.closed with
    | true => exact h
    | false =>
      simp only [Bool.false_eq_true, if_false]
      apply waitFrom_parkedInv
      exact ⟨List.nodup_nil, fun g hg => absurd hg (List.not_mem_nil g)⟩

theorem Enqueue_parkedInv {W : Type} (qm : Manager W) (task : TaskMessage)
    (h : ParkedInv qm) : ParkedInv (qm.Enqueue task).2 := by
  unfold Manager.Enqueue
  cases qm.running with
  | false => exact h
  | true =>
    simp only [Bool.not_true, Bool.false_eq_true, if_false]
    unfold trySend
    cases qm.queue.closed with
    | true => exact h
    | false =>
      simp only [Bool.false_eq_true, if_false]
      cases hq : qm.queue.recvq with
      | cons g rest =>
        simp only
        have hnd := h.1
        rw [hq, List.nodup_cons] at hnd
        refine ⟨hnd.2, ?_⟩
        intro g' hg'
        simp only at hg'
        obtain ⟨gr', h1, h2⟩ := h.2 g' (by rw [hq]; exact List.mem_cons_of_mem _ hg')
        have hne : g' ≠ g := fun heq => hnd.1 (heq ▸ hg')
        exact ⟨gr', by simp only [getElem?_setStage_ne _ _ _ _ hne, h1], h2⟩
      | nil =>
        simp only
        by_cases hlt : qm.queue.buf.length < qm.queue.cap
        · simp only [hlt, if_true]
          exact ⟨List.nodup_nil, fun g hg => absurd hg (List.not_mem_nil g)⟩
        · simp only [hlt, if_false]
          exact h

theorem ParkedInv.of_append {W : Type} {qm : Manager W} (h : ParkedInv qm)
    (ws : List (Worker W)) (r : Bool) (extra : List Goroutine) :
    ParkedInv ⟨qm.queue, ws, qm.maxSize, r, qm.goroutines ++ extra⟩ := by
  refine ⟨h.1, ?_⟩
  intro g hg
  obtain ⟨gr, h1, h2⟩ := h.2 g hg
  have hlt : g < qm.goroutines.length := (List.getElem?_eq_some_iff.1 h1).1
  exact ⟨gr, by simp only [List.getElem?_append_left hlt, h1], h2⟩

/-- In every reachable state the goroutines in the receive queue of the channel
are parked, and none is listed twice. -/
theorem Reachable.parkedInv {W : Type} {maxSize : Int} {qm : Manager W}
    (hreach : Reachable maxSize qm) : ParkedInv qm := by
  induction hreach with
  | init qm h =>
    unfold NewManager at h
    split at h
    · cases h
    · injection h with h
      rw [← h]
      exact ⟨List.nodup_nil, fun g hg => absurd hg (List.not_mem_nil g)⟩
  | start qm _ ih =>
    unfold Manager.Start
    split
    · exact ih
    · exact ih.of_append _ _ _
  | stop qm v _ ih => exact Stop_parkedInv qm v ih
  | enqueue qm task _ ih => exact Enqueue_parkedInv qm task ih
  | addWorker qm worker _ ih =>
    unfold Manager.AddWorker
    split
    · exact ih.of_append _ _ _
    · exact ih
  | step qm g v _ ih => exact runWorkerStep_parkedInv qm g v ih
  | workerStart qm i _ ih => exact ih
  | workerStop qm i _ ih => exact ih
  | workerSetStorageManager qm i sm _ ih => exact ih

end queue

namespace queue

open fixture

theorem dequeuedBetween_self (gs : List Goroutine) : dequeuedBetween gs gs = [] := by
  unfold dequeuedBetween
  induction gs with
  | nil => rfl
  | cons x gs ih => simp [List.filterMap_cons, ih]

theorem dequeuedBetween_append (gs extra : List Goroutine) :
    dequeuedBetween gs (gs ++ extra) = [] := by
  have h := dequeuedBetween_self gs
  unfold dequeuedBetween at h ⊢
  have hz : gs.zip (gs ++ extra) = gs.zip gs := by
    have := @List.zip_append _ _ gs [] gs extra rfl
    simpa using this
  rw [hz, h]

theorem dequeuedBetween_cons (x y : Goroutine) (gs hs : List Goroutine) :
    dequeuedBetween (x :: gs) (y :: hs) =
      (if x.stage = y.stage then [] else y.stage.task.toList) ++ dequeuedBetween gs hs := by
  unfold dequeuedBetween
  simp only [List.zip_cons_cons, List.filterMap_cons]
  by_cases he : x.stage = y.stage
  · simp [he]
  · simp only [he, if_false]
    cases y.stage.task <;> rfl

theorem dequeuedBetween_setStage (gs : List Goroutine) (g : Nat) (stage : Stage)
    (gr : Goroutine) (h : gs[g]? = some gr) :
    dequeuedBetween gs (setStage gs g stage) =
      if gr.stage = stage then [] else stage.task.toList := by
  induction gs generalizing g with
  | nil => simp at h
  | cons x gs ih =>
    cases g with
    | zero =>
      simp only [List.getElem?_cons_zero, Option.some.injEq] at h
      subst h
      unfold setStage
      rw [List.modify_zero_cons, dequeuedBetween_cons, dequeuedBetween_self, List.append_nil]
    | succ g =>
      simp only [List.getElem?_cons_succ] at h
      have := ih g h
      unfold setStage at this ⊢
      rw [List.modify_succ_cons, dequeuedBetween_cons, this]
      simp

/-- One operation keeps the order: the tasks in the queue before it followed by
the task it accepted are the tasks it dequeued followed by the tasks in the
queue after it. -/
theorem Op.exec_fifo {W : Type} (op : Op W) (qm : Manager W) (v : W) (hp : ParkedInv qm)
    (he : qm.queue.recvq ≠ [] → qm.queue.buf = []) :
    qm.queue.buf ++ op.accepted qm =
      dequeuedBetween qm.goroutines (op.exec qm v).1.goroutines ++
        (op.exec qm v).1.queue.buf := by
  cases op with
  | enqueue task =>
    simp only [Op.accepted, Op.exec]
    unfold Manager.Enqueue
    cases qm.running with
    | false => simp [dequeuedBetween_self]
    | true =>
      simp only [Bool.not_true, Bool.false_eq_true, if_false]
      unfold trySend
      cases qm.queue.closed with
      | true => simp [dequeuedBetween_self]
      | false =>
        simp only [Bool.false_eq_true, if_false]
        cases hq : qm.queue.recvq with
        | cons g rest =>
          obtain ⟨gr, h1, h2⟩ := hp.2 g (by rw [hq]; exact List.mem_cons_self _ _)
          have hb := he (by rw [hq]; exact List.cons_ne_nil _ _)
          simp only [if_true]
          rw [dequeuedBetween_setStage _ _ _ gr h1, h2, hb]
          simp [Stage.task]
        | nil =>
          simp only
          by_cases hlt : qm.queue.buf.length < qm.queue.cap
          · simp [hlt, dequeuedBetween_self]
          · simp [hlt, dequeuedBetween_self]
  | step g =>
    simp only [Op.accepted, Op.exec, List.append_nil]
    unfold Manager.runWorkerStep
    cases hg : qm.goroutines[g]? with
    | none => simp [dequeuedBetween_self]
    | some gr =>
      simp only
      cases hst : gr.stage with
      | receiving =>
        simp only
        cases hb : qm.queue.buf with
        | nil =>
          simp only
          cases qm.queue.closed with
          | true =>
            simp only [if_true]
            rw [dequeuedBetween_setStage _ _ _ gr hg, hst, hb]
            simp [Stage.task]
          | false =>
            simp only [Bool.false_eq_true, if_false]
            rw [dequeuedBetween_setStage _ _ _ gr hg, hst]
            simp [Stage.task]
        | cons task rest =>
          simp only
          rw [dequeuedBetween_setStage _ _ _ gr hg, hst]
          simp [Stage.task]
      | parked => simp [dequeuedBetween_self]
      | received task =>
        simp only
        cases qm.workers[gr.worker]? with
        | none => simp [dequeuedBetween_self]
        | some worker =>
          simp only
          cases worker.IsRunning with
          | true =>
            simp only [Bool.not_true, Bool.false_eq_true, if_false]
            rw [dequeuedBetween_setStage _ _ _ gr hg, hst]
            simp [Stage.task]
          | false =>
            simp only [Bool.not_false, if_true]
            rw [dequeuedBetween_setStage _ _ _ gr hg, hst]
            simp [Stage.task]
      | returned => simp [dequeuedBetween_self]
  | addWorker worker =>
    simp only [Op.accepted, Op.exec, List.append_nil]
    unfold Manager.AddWorker
    split
    · simp [dequeuedBetween_append]
    · simp [dequeuedBetween_self]
  | workerStart i => simp [Op.accepted, Op.exec, dequeuedBetween_self]
  | workerStop i => simp [Op.accepted, Op.exec, dequeuedBetween_self]

theorem Op.exec_reachable {W : Type} (op : Op W) (maxSize : Int) (qm : Manager W) (v : W)
    (h : Reachable maxSize qm) : Reachable maxSize (op.exec qm v).1 := by
  cases op with
  | enqueue task => exact Reachable.enqueue qm task h
  | step g => exact Reachable.step qm g v h
  | addWorker worker => exact Reachable.addWorker qm worker h
  | workerStart i => exact Reachable.workerStart qm i h
  | workerStop i => exact Reachable.workerStop qm i h

/-- C11: in a run of calls of `Enqueue` and steps of the worker goroutines from a
reachable state, the tasks in the queue at the start followed by the tasks
whose `Enqueue` returned `nil`, in the order of the calls, are the tasks the
goroutines took out of the queue, in the order they took them, followed by the
tasks still in the queue; from an empty queue the dequeued tasks are an initial
segment of the accepted ones, so a task whose `Enqueue` failed is not among
them. -/
theorem runOps_first_in_first_out {W : Type} (maxSize : Int) (qm : Manager W)
    (ops : List (Op W)) (v : W) (hreach : Reachable maxSize qm) :
    qm.queue.buf ++ (runOps ops qm v).2.2.accepted =
      (runOps ops qm v).2.2.dequeued ++ (runOps ops qm v).1.queue.buf ∧
    (qm.queue.buf = [] →
      (runOps ops qm v).2.2.dequeued <+: (runOps ops qm v).2.2.accepted) := by
  have key : qm.queue.buf ++ (runOps ops qm v).2.2.accepted =
      (runOps ops qm v).2.2.dequeued ++ (runOps ops qm v).1.queue.buf := by
    induction ops generalizing qm v with
    | nil => simp [runOps]
    | cons op ops ih =>
      have h1 := op.exec_fifo qm v hreach.parkedInv hreach.parked_only_when_empty
      have h2 := ih (op.exec qm v).1 (op.exec qm v).2 (op.exec_reachable maxSize qm v hreach)
      simp only [runOps]
      rw [← List.append_assoc, h1, List.append_assoc, h2, List.append_assoc]
  refine ⟨key, ?_⟩
  intro hb
  rw [hb, List.nil_append] at key
  rw [key]
  exact List.prefix_append _ _

/-- Witness of C11: capacity 2 and one worker; `a` and `b` are accepted, `c` is
refused by the full queue, the goroutine takes `a` and handles it, `c` is then
accepted, and the goroutine takes `b`: dequeued are `a`, `b`, accepted `a`, `b`,
`c`. -/
theorem runOps_first_in_first_out_witness :
    (runOps [Op.enqueue (task "cleanup" "a"), Op.enqueue (task "cleanup" "b"),
        Op.enqueue (task "cleanup" "c"), Op.step 0, Op.step 0, Op.enqueue (task "cleanup" "c"),
        Op.step 0] ((newQueue 2).AddWorker worker1).Start.2 ()).2.2 =
      ⟨[task "cleanup" "a", task "cleanup" "b", task "cleanup" "c"],
        [task "cleanup" "a", task "cleanup" "b"]⟩ ∧
    (runOps [Op.enqueue (task "cleanup" "a"), Op.enqueue (task "cleanup" "b"),
        Op.enqueue (task "cleanup" "c"), Op.step 0, Op.step 0, Op.enqueue (task "cleanup" "c"),
        Op.step 0] ((newQueue 2).AddWorker worker1).Start.2 ()).2.2.dequeued <+:
      (runOps [Op.enqueue (task "cleanup" "a"), Op.enqueue (task "cleanup" "b"),
        Op.enqueue (task "cleanup" "c"), Op.step 0, Op.step 0, Op.enqueue (task "cleanup" "c"),
        Op.step 0] ((newQueue 2).AddWorker worker1).Start.2 ()).2.2.accepted :=
  ⟨by decide,
    (runOps_first_in_first_out 2 ((newQueue 2).AddWorker worker1).Start.2 _ ()
      (Reachable.start _ (Reachable.addWorker _ worker1 (Reachable.init (newQueue 2) rfl)))).2
      rfl⟩

end queue

/-! ## Theorems: the fan-out delete -/

theorem deleteCalls_cons (key : String) (i : Nat) (e : Option String)
    (errs : List (Option String)) :
    deleteCalls key i (e :: errs) = Call.Delete i key e :: deleteCalls key (i + 1) errs := by
  simp [deleteCalls, List.range'_succ]

theorem length_deleteCalls (key : String) (i : Nat) (errs : List (Option String)) :
    (deleteCalls key i errs).length = errs.length := by
  simp [deleteCalls]

theorem getElem?_deleteCalls (key : String) (i : Nat) (errs : List (Option String)) (k : Nat) :
    (deleteCalls key i errs)[k]? = (errs[k]?).map (fun e => Call.Delete (i + k) key e) := by
  induction errs generalizing i k with
  | nil => simp [deleteCalls]
  | cons e errs ih =>
    rw [deleteCalls_cons]
    cases k with
    | zero => simp
    | succ k => simp [ih, Nat.add_assoc, Nat.add_comm 1 k]

theorem mem_deleteCalls (key : String) (i : Nat) (errs : List (Option String)) (c : Call) :
    c ∈ deleteCalls key i errs ↔ ∃ k e, errs[k]? = some e ∧ c = Call.Delete (i + k) key e := by
  rw [List.mem_iff_getElem?]
  constructor
  · rintro ⟨k, hk⟩
    rw [getElem?_deleteCalls] at hk
    cases he : errs[k]? with
    | none => simp [he] at hk
    | some e =>
      simp [he] at hk
      exact ⟨k, e, he, hk.symm⟩
  · rintro ⟨k, e, he, hc⟩
    exact ⟨k, by rw [getElem?_deleteCalls, he, hc]; rfl⟩

theorem length_sequentialDeleteErrors {W : Type} (key : String) (ns : List (StorageNode W))
    (w : W) : (sequentialDeleteErrors key ns w).length = ns.length := by
  induction ns generalizing w with
  | nil => rfl
  | cons node rest ih => simp [sequentialDeleteErrors, ih]

theorem getElem?_sequentialDeleteErrors {W : Type} (key : String) (ns : List (StorageNode W))
    (w : W) (k : Nat) (node : StorageNode W) (h : ns[k]? = some node) :
    (sequentialDeleteErrors key ns w)[k]? = some (node.Delete key
      ((ns.take k).foldl (fun v n => (n.Delete key v).world) w)).err := by
  induction ns generalizing w k with
  | nil => simp at h
  | cons n rest ih =>
    cases k with
    | zero =>
      simp only [List.getElem?_cons_zero, Option.some.injEq] at h
      subst h
      simp [sequentialDeleteErrors]
    | succ k =>
      simp only [List.getElem?_cons_succ] at h
      simpa [sequentialDeleteErrors] using ih (n.Delete key w).world k h

namespace queue

/-- The loop of `processDeleteFromStorage` calls `Delete` once on each remaining
node, in order, counts the calls that returned `nil` and keeps the last error. -/
theorem deleteLoop_run {W : Type} (key : String) (ns : List (StorageNode W)) (i : Nat)
    (s : DeleteLoopState W) :
    (deleteLoop key ns i s).calls =
      s.calls ++ deleteCalls key i (sequentialDeleteErrors key ns s.world) ∧
    (deleteLoop key ns i s).deletedCount =
      s.deletedCount + (sequentialDeleteErrors key ns s.world).count none ∧
    (none ∉ sequentialDeleteErrors key ns s.world →
      (deleteLoop key ns i s).lastError =
        (sequentialDeleteErrors key ns s.world).getLast?.getD s.lastError) ∧
    (deleteLoop key ns i s).world = ns.foldl (fun v n => (n.Delete key v).world) s.world := by
  induction ns generalizing i s with
  | nil => simp [deleteLoop, sequentialDeleteErrors, deleteCalls]
  | cons node rest ih =>
    cases h : (node.Delete key s.world).err with
    | some e =>
      obtain ⟨h1, h2, h3, h4⟩ := ih (i + 1)
        ⟨some e, s.deletedCount, (node.Delete key s.world).world,
          s.calls ++ [Call.Delete i key (some e)]⟩
      simp only [deleteLoop, h, sequentialDeleteErrors, List.foldl_cons]
      refine ⟨?_, ?_, ?_, h4⟩
      · rw [h1, deleteCalls_cons]
        simp
      · rw [h2]
        simp
      · intro hn
        rw [h3 (fun hm => hn (List.mem_cons_of_mem _ hm)), List.getLast?_cons]
        simp
    | none =>
      obtain ⟨h1, h2, _, h4⟩ := ih (i + 1)
        ⟨s.lastError, s.deletedCount + 1, (node.Delete key s.world).world,
          s.calls ++ [Call.Delete i key none]⟩
      simp only [deleteLoop, h, sequentialDeleteErrors, List.foldl_cons]
      refine ⟨?_, ?_, ?_, h4⟩
      · rw [h1, deleteCalls_cons]
        simp
      · rw [h2]
        simp
        omega
      · intro hn
        exact absurd (List.mem_cons_self _ _) hn

end queue

namespace s3

/-- The loop of `DeleteFromAllStorageNodes` calls `Delete` once on each remaining
node, in order. -/
theorem deleteAllLoop_run {W : Type} (key : String) (ns : List (StorageNode W)) (i : Nat)
    (v : W) (calls : List Call) :
    (deleteAllLoop key ns i v calls).calls =
      calls ++ deleteCalls key i (sequentialDeleteErrors key ns v) ∧
    (deleteAllLoop key ns i v calls).world =
      ns.foldl (fun u n => (n.Delete key u).world) v := by
  induction ns generalizing i v calls with
  | nil => simp [deleteAllLoop, sequentialDeleteErrors, deleteCalls]
  | cons node rest ih =>
    cases h : (node.Delete key v).err with
    | some e =>
      obtain ⟨h1, h2⟩ := ih (i + 1) (node.Delete key v).world
        (calls ++ [Call.Delete i key (some e)])
      simp only [deleteAllLoop, h, sequentialDeleteErrors, List.foldl_cons]
      refine ⟨?_, h2⟩
      rw [h1, deleteCalls_cons]
      simp
    | none =>
      obtain ⟨h1, h2⟩ := ih (i + 1) (node.Delete key v).world
        (calls ++ [Call.Delete i key none])
      simp only [deleteAllLoop, h, sequentialDeleteErrors, List.foldl_cons]
      refine ⟨?_, h2⟩
      rw [h1, deleteCalls_cons]
      simp

end s3

namespace queue

open fixture os storage

theorem processDeleteFromStorage_eq {W : Type} (w : Worker W) (task : TaskMessage) (v : W)
    (key : String) (sm : StorageManager W)
    (hkey : task.Data.lookup "key" = some (Any.string key))
    (hsm : w.storageManager = some sm) :
    (w.processDeleteFromStorage task v).calls =
      deleteCalls key 0 (sequentialDeleteErrors key sm.GetNodes v) ∧
    (w.processDeleteFromStorage task v).world =
      sm.GetNodes.foldl (fun u n => (n.Delete key u).world) v ∧
    (none ∈ sequentialDeleteErrors key sm.GetNodes v →
      (w.processDeleteFromStorage task v).ret = none) ∧
    (none ∉ sequentialDeleteErrors key sm.GetNodes v →
      (w.processDeleteFromStorage task v).ret =
        ((sequentialDeleteErrors key sm.GetNodes v).getLast?.getD none).map
          (fun e => "failed to delete from all storage nodes: " ++ e)) := by
  obtain ⟨h1, h2, h3, h4⟩ := deleteLoop_run key sm.GetNodes 0 ⟨none, 0, v, []⟩
  simp only [List.nil_append, Nat.zero_add] at h1 h2 h3
  refine ⟨?_, ?_, ?_, ?_⟩
  · unfold Worker.processDeleteFromStorage
    rw [hkey, hsm]
    simp only
    split
    · exact h1
    · split <;> exact h1
  · unfold Worker.processDeleteFromStorage
    rw [hkey, hsm]
    simp only
    split
    · exact h4
    · split <;> exact h4
  · intro hm
    have hpos : List.count none (sequentialDeleteErrors key sm.GetNodes v) > 0 :=
      List.count_pos_iff.2 hm
    unfold Worker.processDeleteFromStorage
    rw [hkey, hsm]
    simp only
    rw [h2, if_pos hpos]
  · intro hm
    have hzero : List.count none (sequentialDeleteErrors key sm.GetNodes v) = 0 :=
      List.count_eq_zero.2 hm
    unfold Worker.processDeleteFromStorage
    rw [hkey, hsm]
    simp only
    rw [h2, hzero, if_neg (by omega), h3 hm]
    cases (sequentialDeleteErrors key sm.GetNodes v).getLast?.getD none <;> rfl

end queue

namespace s3

open fixture storage

/-- C14: `DeleteFromAllStorageNodes` makes exactly one call per node, the call
number `k` being `Delete` of the key on node `k`, made in the world left by the
deletes on the nodes before it, whatever the calls returned; these are the
calls of the sequential fan-out, and `processDeleteFromStorage`, for a task
with that key and a worker with that storage manager, makes the same calls and
leaves the same world. -/
theorem DeleteFromAllStorageNodes_same_calls_as_handler {W M : Type} (s : Service W M)
    (w : queue.Worker W) (task : TaskMessage) (key : String) (v : W)
    (hkey : task.Data.lookup "key" = some (Any.string key))
    (hsm : w.storageManager = some s.storageManager.asStorageManager) :
    (s.DeleteFromAllStorageNodes key v).calls.length = s.storageManager.nodes.length ∧
    (∀ (k : Nat) (node : StorageNode W), s.storageManager.nodes[k]? = some node →
      (s.DeleteFromAllStorageNodes key v).calls[k]? = some (Call.Delete k key (node.Delete key
        ((s.storageManager.nodes.take k).foldl (fun u n => (n.Delete key u).world) v)).err)) ∧
    (s.DeleteFromAllStorageNodes key v).calls =
      deleteCalls key 0 (sequentialDeleteErrors key s.storageManager.nodes v) ∧
    (w.processDeleteFromStorage task v).calls = (s.DeleteFromAllStorageNodes key v).calls ∧
    (w.processDeleteFromStorage task v).world = (s.DeleteFromAllStorageNodes key v).world ∧
    (s.DeleteFromAllStorageNodes key v).world =
      s.storageManager.nodes.foldl (fun u n => (n.Delete key u).world) v := by
  obtain ⟨h1, h2⟩ := deleteAllLoop_run key s.storageManager.GetNodes 0 v []
  simp only [List.nil_append] at h1
  obtain ⟨g1, g2, _, _⟩ := queue.processDeleteFromStorage_eq w task v key
    s.storageManager.asStorageManager hkey hsm
  have hc : (s.DeleteFromAllStorageNodes key v).calls =
      deleteCalls key 0 (sequentialDeleteErrors key s.storageManager.nodes v) := h1
  have hw : (s.DeleteFromAllStorageNodes key v).world =
      s.storageManager.nodes.foldl (fun u n => (n.Delete key u).world) v := h2
  refine ⟨?_, ?_, hc, ?_, ?_, hw⟩
  · rw [hc, length_deleteCalls, length_sequentialDeleteErrors]
  · intro k node hk
    rw [hc, getElem?_deleteCalls, getElem?_sequentialDeleteErrors key _ v k node hk]
    simp
  · rw [hc]
    exact g1
  · rw [hw]
    exact g2

/-- Witness of C14: two nodes, the first of which fails. -/
theorem DeleteFromAllStorageNodes_same_calls_as_handler_witness :
    ((Service.mk (Manager.mk [failingNode Unit "stg1" "node down", acceptingNode Unit "stg2"]
        none) () (newQueue 2)).DeleteFromAllStorageNodes "b/obj1" ()).calls =
      [Call.Delete 0 "b/obj1" (some "node down"), Call.Delete 1 "b/obj1" none] ∧
    (((queue.NewWorker "worker-1" none).SetStorageManager
        (Manager.mk [failingNode Unit "stg1" "node down", acceptingNode Unit "stg2"]
          none).asStorageManager).processDeleteFromStorage
        (task "delete_from_storage" "b/obj1") ()).calls =
      ((Service.mk (Manager.mk [failingNode Unit "stg1" "node down", acceptingNode Unit "stg2"]
        none) () (newQueue 2)).DeleteFromAllStorageNodes "b/obj1" ()).calls :=
  ⟨by decide,
    (DeleteFromAllStorageNodes_same_calls_as_handler
      (Service.mk (Manager.mk [failingNode Unit "stg1" "node down", acceptingNode Unit "stg2"]
        none) () (newQueue 2))
      ((queue.NewWorker "worker-1" none).SetStorageManager
        (Manager.mk [failingNode Unit "stg1" "node down", acceptingNode Unit "stg2"]
          none).asStorageManager)
      (task "delete_from_storage" "b/obj1") "b/obj1" () rfl rfl).2.2.2.1⟩

end s3

/-! ## Theorems: the file system -/

namespace os

open filepath

theorem lookup_filter_ne_self (files : List (CPath × Entry)) (p : CPath) :
    (files.filter (fun x => x.1 ≠ p)).lookup p = none := by
  induction files with
  | nil => rfl
  | cons x files ih =>
    by_cases h : x.1 = p
    · simp only [List.filter_cons, ne_eq, h, not_true_eq_false, decide_False]
      simpa using ih
    · have hb : (p == x.1) = false := by
        simp only [beq_eq_false_iff_ne, ne_eq]
        exact fun e => h e.symm
      simp only [List.filter_cons, ne_eq, h, not_false_eq_true, decide_True, if_true]
      rw [show x = (x.1, x.2) from rfl, List.lookup_cons, hb]
      exact ih

theorem lookup_filter_ne_other (files : List (CPath × Entry)) (p q : CPath) (h : q ≠ p) :
    (files.filter (fun x => x.1 ≠ p)).lookup q = files.lookup q := by
  induction files with
  | nil => rfl
  | cons x files ih =>
    by_cases hx : x.1 = p
    · have hb : (q == x.1) = false := by
        simp only [beq_eq_false_iff_ne, ne_eq]
        exact fun e => h (e.trans hx)
      simp only [List.filter_cons, ne_eq, hx, not_true_eq_false, decide_False]
      rw [show x = (x.1, x.2) from rfl, List.lookup_cons, hb]
      simpa using ih
    · simp only [List.filter_cons, ne_eq, hx, not_false_eq_true, decide_True, if_true]
      rw [show x = (x.1, x.2) from rfl, List.lookup_cons, List.lookup_cons, ih]

theorem lookup_set_self (w : OS) (p : CPath) (e : Entry)
    (hp : p.elems.all (fun s => s = "..") = false) : (w.set p e).lookup p = some e := by
  unfold OS.lookup OS.set
  simp only [hp, Bool.false_eq_true, if_false]
  rw [List.lookup_cons]
  simp

theorem lookup_set_ne (w : OS) (p q : CPath) (e : Entry) (h : q ≠ p) :
    (w.set p e).lookup q = w.lookup q := by
  unfold OS.lookup OS.set
  have hb : (q == p) = false := by
    simp only [beq_eq_false_iff_ne, ne_eq]
    exact h
  simp only
  rw [List.lookup_cons, hb]
  simp only
  rw [lookup_filter_ne_other _ _ _ h]

theorem lookup_unset_self (w : OS) (p : CPath)
    (hp : p.elems.all (fun s => s = "..") = false) : (w.unset p).lookup p = none := by
  unfold OS.lookup OS.unset
  simp only [hp, Bool.false_eq_true, if_false]
  exact lookup_filter_ne_self _ _

theorem lookup_unset_ne (w : OS) (p q : CPath) (h : q ≠ p) :
    (w.unset p).lookup q = w.lookup q := by
  unfold OS.lookup OS.unset
  simp only
  rw [lookup_filter_ne_other _ _ _ h]

/-- With the directories above it in place, a path resolves to its own entry. -/
theorem walk_of_dirsAbove (w : OS) (rooted : Bool) (done rest : List String)
    (h : w.dirsAbove rooted done rest) :
    w.walk rooted done rest =
      match w.lookup ⟨rooted, done ++ rest⟩ with
      | some e => .ok e
      | none => .error Errno.ENOENT := by
  induction rest generalizing done with
  | nil => simp [OS.walk]
  | cons e rest ih =>
    obtain ⟨h1, h2⟩ := h
    rw [OS.walk, h1]
    simp only
    rw [ih _ h2]
    simp

/-- A path that resolves has the directories above it in place and holds the
entry it resolves to. -/
theorem dirsAbove_of_walk (w : OS) (rooted : Bool) (done rest : List String) (e : Entry)
    (h : w.walk rooted done rest = .ok e) :
    w.dirsAbove rooted done rest ∧ w.lookup ⟨rooted, done ++ rest⟩ = some e := by
  induction rest generalizing done with
  | nil =>
    refine ⟨trivial, ?_⟩
    rw [OS.walk] at h
    cases hl : w.lookup ⟨rooted, done⟩ with
    | none => rw [hl] at h; cases h
    | some x =>
      rw [hl] at h
      injection h with h
      simp only [List.append_nil]
      rw [hl, h]
  | cons s rest ih =>
    rw [OS.walk] at h
    cases hl : w.lookup ⟨rooted, done⟩ with
    | none => rw [hl] at h; cases h
    | some x =>
      rw [hl] at h
      cases x with
      | file d t => cases h
      | dir =>
        obtain ⟨h1, h2⟩ := ih (done ++ [s]) h
        exact ⟨⟨hl, h1⟩, by simpa using h2⟩

/-- Two states that hold the same entries at the paths shorter than a path have
the same directories above it. -/
theorem dirsAbove_congr (w u : OS) (rooted : Bool) (done rest : List String)
    (hagree : ∀ q : List String, q.length < (done ++ rest).length →
      u.lookup ⟨rooted, q⟩ = w.lookup ⟨rooted, q⟩)
    (h : w.dirsAbove rooted done rest) : u.dirsAbove rooted done rest := by
  induction rest generalizing done with
  | nil => trivial
  | cons e rest ih =>
    obtain ⟨h1, h2⟩ := h
    refine ⟨?_, ih (done ++ [e]) (by simpa using hagree) h2⟩
    rw [hagree done (by simp)]
    exact h1

theorem dirsAbove_append (w : OS) (rooted : Bool) (done rest : List String) (e : String) :
    w.dirsAbove rooted done (rest ++ [e]) ↔
      w.dirsAbove rooted done rest ∧ w.lookup ⟨rooted, done ++ rest⟩ = some Entry.dir := by
  induction rest generalizing done with
  | nil => simp [OS.dirsAbove]
  | cons s rest ih =>
    have hi := ih (done ++ [s])
    simp only [List.append_assoc, List.singleton_append] at hi
    show (w.lookup ⟨rooted, done⟩ = some Entry.dir ∧
        w.dirsAbove rooted (done ++ [s]) (rest ++ [e])) ↔
      (w.lookup ⟨rooted, done⟩ = some Entry.dir ∧ w.dirsAbove rooted (done ++ [s]) rest) ∧
        w.lookup ⟨rooted, done ++ s :: rest⟩ = some Entry.dir
    rw [hi]
    constructor
    · rintro ⟨a, b, c⟩
      exact ⟨⟨a, b⟩, c⟩
    · rintro ⟨⟨a, b⟩, c⟩
      exact ⟨a, b, c⟩

end os

namespace os

open filepath

theorem dirsAbove_set (w : OS) (p : CPath) (e : Entry) (h : w.dirsAbove p.rooted [] p.elems) :
    (w.set p e).dirsAbove p.rooted [] p.elems := by
  apply dirsAbove_congr w _ _ _ _ _ h
  intro q hq
  apply lookup_set_ne
  intro heq
  rw [← heq] at hq
  simp at hq

theorem dirsAbove_unset (w : OS) (p : CPath) (h : w.dirsAbove p.rooted [] p.elems) :
    (w.unset p).dirsAbove p.rooted [] p.elems := by
  apply dirsAbove_congr w _ _ _ _ _ h
  intro q hq
  apply lookup_unset_ne
  intro heq
  rw [← heq] at hq
  simp at hq

/-- After an entry is put at a path whose directories are in place, the path
resolves to that entry. -/
theorem resolve_set (w : OS) (name : String) (e : Entry) (hname : name ≠ "")
    (hdirs : w.dirsAbove (cleanPath name).rooted [] (cleanPath name).elems)
    (hp : (cleanPath name).elems.all (fun s => s = "..") = false) :
    (w.set (cleanPath name) e).resolve name = .ok e := by
  unfold OS.resolve OS.resolvePath
  rw [if_neg hname, walk_of_dirsAbove _ _ _ _ (dirsAbove_set w _ e hdirs)]
  simp only [List.nil_append]
  rw [lookup_set_self w _ e hp]

/-- After the entry at a path whose directories are in place is removed, the
path does not exist. -/
theorem resolve_unset (w : OS) (name : String)
    (hdirs : w.dirsAbove (cleanPath name).rooted [] (cleanPath name).elems)
    (hp : (cleanPath name).elems.all (fun s => s = "..") = false) :
    (w.unset (cleanPath name)).resolve name = .error Errno.ENOENT := by
  unfold OS.resolve OS.resolvePath
  split
  · rfl
  · rw [walk_of_dirsAbove _ _ _ _ (dirsAbove_unset w _ hdirs)]
    simp only [List.nil_append]
    rw [lookup_unset_self w _ hp]

theorem lookup_allDots (w : OS) (p : CPath) (h : p.elems.all (fun s => s = "..") = true) :
    w.lookup p = some Entry.dir := by
  unfold OS.lookup
  rw [if_pos h]

theorem not_allDots_of_lookup (w : OS) (p : CPath) (h : w.lookup p ≠ some Entry.dir) :
    p.elems.all (fun s => s = "..") = false := by
  cases hp : p.elems.all (fun s => s = "..") with
  | false => rfl
  | true => exact absurd (lookup_allDots w p hp) h

/-- What a path that resolves to an entry other than a directory, or to
nothing below directories in place, tells about it. -/
theorem resolve_ok_facts (w : OS) (name : String) (e : Entry) (h : w.resolve name = .ok e) :
    name ≠ "" ∧ w.dirsAbove (cleanPath name).rooted [] (cleanPath name).elems ∧
      w.lookup (cleanPath name) = some e := by
  unfold OS.resolve OS.resolvePath at h
  by_cases hn : name = ""
  · rw [if_pos hn] at h
    cases h
  · rw [if_neg hn] at h
    obtain ⟨h1, h2⟩ := dirsAbove_of_walk _ _ _ _ _ h
    exact ⟨hn, h1, by simpa using h2⟩

/-- A call of `WriteFile` that returns no error found the directories above the
file in place and leaves the file with the bytes written at its path. -/
theorem WriteFile_ok (name : String) (data : List Byte) (w : OS)
    (h : (WriteFile name data w).1 = none) :
    name ≠ "" ∧ w.dirsAbove (cleanPath name).rooted [] (cleanPath name).elems ∧
      (cleanPath name).elems.all (fun s => s = "..") = false ∧
      (WriteFile name data w).2 = w.set (cleanPath name) (Entry.file data w.now) := by
  unfold WriteFile at h ⊢
  cases hr : w.resolve name with
  | ok e =>
    rw [hr] at h
    cases e with
    | dir => simp at h
    | file d t =>
      obtain ⟨h1, h2, h3⟩ := resolve_ok_facts w name _ hr
      refine ⟨h1, h2, not_allDots_of_lookup w _ (by rw [h3]; simp), rfl⟩
  | error errno =>
    rw [hr] at h
    cases errno with
    | ENOENT =>
      simp only at h ⊢
      by_cases hn : name = ""
      · rw [if_pos hn] at h
        simp at h
      · rw [if_neg hn] at h ⊢
        cases hpar : w.resolvePath ⟨(cleanPath name).rooted, (cleanPath name).elems.dropLast⟩ with
        | error e2 =>
          rw [hpar] at h
          simp at h
        | ok e2 =>
          rw [hpar] at h
          cases e2 with
          | file d t => simp at h
          | dir =>
            unfold OS.resolvePath at hpar
            obtain ⟨d1, d2⟩ := dirsAbove_of_walk _ _ _ _ _ hpar
            simp only [List.nil_append] at d2
            have hne : (cleanPath name).elems ≠ [] := by
              intro he
              unfold OS.resolve OS.resolvePath at hr
              rw [if_neg hn, he] at hr
              have hd : w.lookup ⟨(cleanPath name).rooted, []⟩ = some Entry.dir :=
                lookup_allDots _ _ rfl
              simp only [OS.walk] at hr
              rw [hd] at hr
              cases hr
            have hsplit : (cleanPath name).elems =
                (cleanPath name).elems.dropLast ++ [(cleanPath name).elems.getLast hne] :=
              (List.dropLast_append_getLast hne).symm
            have hdirs : w.dirsAbove (cleanPath name).rooted [] (cleanPath name).elems := by
              rw [hsplit, dirsAbove_append]
              exact ⟨d1, by simpa using d2⟩
            refine ⟨hn, hdirs, ?_, rfl⟩
            apply not_allDots_of_lookup w
            unfold OS.resolve OS.resolvePath at hr
            rw [if_neg hn, walk_of_dirsAbove _ _ _ _ hdirs] at hr
            simp only [List.nil_append] at hr
            intro hl
            rw [show (⟨(cleanPath name).rooted, (cleanPath name).elems⟩ : CPath) = cleanPath name
              from rfl, hl] at hr
            cases hr
    | ENOTDIR => simp at h
    | EISDIR => simp at h
    | ENOTEMPTY => simp at h
    | EINVAL => simp at h

theorem mkdirFrom_now (rooted : Bool) (done rest : List String) (w : OS) :
    (mkdirFrom rooted done rest w).2.now = w.now := by
  induction rest generalizing done w with
  | nil => rfl
  | cons e rest ih =>
    rw [mkdirFrom]
    split
    · exact ih _ _
    · rfl
    · rw [ih]
      rfl

theorem MkdirAll_now (name : String) (w : OS) : (MkdirAll name w).2.now = w.now := by
  unfold MkdirAll
  split
  · rfl
  · exact mkdirFrom_now _ _ _ _

end os

/-! ## Theorems: the file storage node -/

theorem append_ne_of_head (a b x y : String) (c d : Char) (ta tb : List Char)
    (ha : a.data = c :: ta) (hb : b.data = d :: tb) (hcd : c ≠ d) : a ++ x ≠ b ++ y := by
  intro h
  have := congrArg String.data h
  simp only [String.data_append, ha, hb, List.cons_append, List.cons.injEq] at this
  exact hcd this.1

namespace storage

open fixture os filepath

theorem Read_of_file (md5Sum : List Byte → List Byte) (fs : FileStorageNode) (key : String)
    (w : OS) (data : List Byte) (t : Nat)
    (h : w.resolve (fs.getFilePath key) = .ok (Entry.file data t)) :
    fs.Read md5Sum key w =
      ⟨some ⟨"", key, data.length, "", calculateMD5 md5Sum data, data, t⟩, none, w⟩ := by
  unfold FileStorageNode.Read Stat ReadFile
  simp only [h]
  rfl

theorem Read_of_absent (md5Sum : List Byte → List Byte) (fs : FileStorageNode) (key : String)
    (w : OS) (h : w.resolve (fs.getFilePath key) = .error Errno.ENOENT) :
    fs.Read md5Sum key w = ⟨none, some ("file not found: " ++ key), w⟩ := by
  unfold FileStorageNode.Read Stat
  simp only [h]
  rfl

/-- What `Remove` does: with an error it leaves the state as it is; without, the
path no longer exists afterwards. -/
theorem Remove_facts (name : String) (w : OS) :
    ((Remove name w).1 ≠ none → (Remove name w).2 = w) ∧
    ((Remove name w).1 = none →
      (Remove name w).2 = w.unset (cleanPath name) ∧
      (Remove name w).2.resolve name = .error Errno.ENOENT) := by
  unfold Remove
  cases hr : w.resolve name with
  | error errno => simp
  | ok e =>
    obtain ⟨_, h2, h3⟩ := resolve_ok_facts w name e hr
    cases e with
    | file d t =>
      simp only [ne_eq, not_true_eq_false, false_implies, true_and, forall_const]
      exact resolve_unset w name h2 (not_allDots_of_lookup w _ (by rw [h3]; simp))
    | dir =>
      simp only
      cases hd : (cleanPath name).elems.all (fun s => decide (s = "..")) with
      | true => simp
      | false =>
        simp only [Bool.false_eq_true, if_false]
        cases w.hasChild (cleanPath name) with
        | true => simp
        | false =>
          simp only [Bool.false_eq_true, if_false, ne_eq, not_true_eq_false, false_implies,
            true_and, forall_const]
          exact resolve_unset w name h2 hd

theorem Remove_of_absent (name : String) (w : OS)
    (h : w.resolve name = .error Errno.ENOENT) :
    Remove name w = (some ⟨"remove", name, Errno.ENOENT⟩, w) := by
  unfold Remove
  rw [h]

theorem Delete_of_absent (fs : FileStorageNode) (key : String) (w : OS)
    (h : w.resolve (fs.getFilePath key) = .error Errno.ENOENT) :
    fs.Delete key w = ⟨none, w⟩ := by
  unfold FileStorageNode.Delete
  simp only
  rw [Remove_of_absent _ _ h]
  rfl

theorem Delete_world (fs : FileStorageNode) (key : String) (w : OS) :
    (fs.Delete key w).world = (Remove (fs.getFilePath key) w).2 := by
  unfold FileStorageNode.Delete
  simp only
  cases hr : Remove (fs.getFilePath key) w with
  | mk err w1 =>
    cases err with
    | none => rfl
    | some e =>
      simp only
      split <;> rfl

theorem Delete_err_none (fs : FileStorageNode) (key : String) (w : OS)
    (h : (fs.Delete key w).err = none) :
    (Remove (fs.getFilePath key) w).1 = none ∨
      IsNotExist (Remove (fs.getFilePath key) w).1 = true := by
  unfold FileStorageNode.Delete at h
  simp only at h
  cases hr : Remove (fs.getFilePath key) w with
  | mk err w1 =>
    rw [hr] at h
    cases err with
    | none => exact Or.inl rfl
    | some e =>
      right
      simp only at h
      by_cases hne : IsNotExist (some e) = true
      · exact hne
      · simp [hne] at h

theorem Remove_isNotExist (name : String) (w : OS)
    (h : IsNotExist (Remove name w).1 = true) : w.resolve name = .error Errno.ENOENT := by
  unfold Remove at h
  cases hr : w.resolve name with
  | error errno =>
    rw [hr] at h
    simp only [IsNotExist, decide_eq_true_eq] at h
    rw [h]
  | ok e =>
    rw [hr] at h
    cases e with
    | file d t => simp [IsNotExist] at h
    | dir =>
      simp only at h
      split at h
      · simp [IsNotExist] at h
      · split at h <;> simp [IsNotExist] at h

/-- A call of `Delete` that returns no error leaves a state in which the file of
the key does not exist. -/
theorem Delete_ok_absent (fs : FileStorageNode) (key : String) (w : OS)
    (h : (fs.Delete key w).err = none) :
    (fs.Delete key w).world.resolve (fs.getFilePath key) = .error Errno.ENOENT := by
  rw [Delete_world]
  rcases Delete_err_none fs key w h with h1 | h1
  · exact ((Remove_facts _ w).2 h1).2
  · have h2 : (Remove (fs.getFilePath key) w).1 ≠ none := by
      intro h0
      rw [h0] at h1
      simp [IsNotExist] at h1
    rw [(Remove_facts _ w).1 h2]
    exact Remove_isNotExist _ _ h1

/-- Counterexample of C15: after `b/obj1` was written to stg1, the node holds no
object under the key `b` (its `Read` fails) and none under `b/obj1/x`, yet
`Delete` of each returns an error: the directory of `b` is not empty, and
`b/obj1` is not a directory. -/
theorem Delete_absent_key_counterexample :
    (stg1.Read md5Hello "b" (stg1.Write md5Hello hello (startedOS 0)).world).obj = none ∧
    (stg1.Delete "b" (stg1.Write md5Hello hello (startedOS 0)).world).err =
      some "failed to delete file data/stg1/b: remove data/stg1/b: directory not empty" ∧
    (stg1.Read md5Hello "b/obj1/x" (stg1.Write md5Hello hello (startedOS 0)).world).obj = none ∧
    (stg1.Delete "b/obj1/x" (stg1.Write md5Hello hello (startedOS 0)).world).err =
      some "failed to delete file data/stg1/b/obj1/x: remove data/stg1/b/obj1/x: not a directory" := by
  refine ⟨by decide, by decide, by decide, by decide⟩

/-- C15, amended: `Delete` of a key whose file does not exist (its path resolves
to nothing: the error of `Remove` is that the file does not exist) returns
`nil` and leaves the state unchanged; when `Delete` returns `nil`, a second
`Delete` of the key returns `nil` too and leaves the state of the first; and
for every key the state after two calls is the state after one. -/
theorem Delete_idempotent (fs : FileStorageNode) (key : String) (w : OS) :
    (w.resolve (fs.getFilePath key) = .error Errno.ENOENT → fs.Delete key w = ⟨none, w⟩) ∧
    ((fs.Delete key w).err = none →
      fs.Delete key (fs.Delete key w).world = ⟨none, (fs.Delete key w).world⟩) ∧
    (fs.Delete key (fs.Delete key w).world).world = (fs.Delete key w).world := by
  have h2 : (fs.Delete key w).err = none →
      fs.Delete key (fs.Delete key w).world = ⟨none, (fs.Delete key w).world⟩ :=
    fun h => Delete_of_absent fs key _ (Delete_ok_absent fs key w h)
  refine ⟨fun h => Delete_of_absent fs key w h, h2, ?_⟩
  cases he : (fs.Delete key w).err with
  | none => rw [h2 he]
  | some e =>
    have hsame : (fs.Delete key w).world = w := by
      rw [Delete_world]
      apply (Remove_facts _ w).1
      intro h0
      unfold FileStorageNode.Delete at he
      simp only at he
      cases hr : Remove (fs.getFilePath key) w with
      | mk err w1 =>
        rw [hr] at he h0
        simp only at h0
        rw [h0] at he
        cases he
    rw [hsame, hsame]

/-- Witness of C15: on the fresh stg1 the key `b/other` has no file and its
`Delete` changes nothing; after `b/obj1` was written, its first `Delete` returns
`nil` and so does the second, which leaves the state of the first. -/
theorem Delete_idempotent_witness :
    stg1.Delete "b/other" (startedOS 0) = ⟨none, startedOS 0⟩ ∧
    (stg1.Delete "b/obj1" (stg1.Write md5Hello hello (startedOS 0)).world).err = none ∧
    stg1.Delete "b/obj1"
        (stg1.Delete "b/obj1" (stg1.Write md5Hello hello (startedOS 0)).world).world =
      ⟨none, (stg1.Delete "b/obj1" (stg1.Write md5Hello hello (startedOS 0)).world).world⟩ :=
  ⟨(Delete_idempotent stg1 "b/other" (startedOS 0)).1 rfl,
    by decide,
    (Delete_idempotent stg1 "b/obj1" (stg1.Write md5Hello hello (startedOS 0)).world).2.1
      (by decide)⟩

end storage

namespace storage

open fixture os filepath

/-- The error `Write` returns on a hash mismatch. -/
theorem Write_branches (md5Sum : List Byte → List Byte) (fs : FileStorageNode)
    (obj : FileObject) (w : OS) :
    (∃ e, (MkdirAll (Dir (fs.getFilePath obj.Key)) w).1 = some e ∧
      fs.Write md5Sum obj w = ⟨some ("failed to create directory " ++
        Dir (fs.getFilePath obj.Key) ++ ": " ++ e.Error),
        (MkdirAll (Dir (fs.getFilePath obj.Key)) w).2⟩) ∨
    ((MkdirAll (Dir (fs.getFilePath obj.Key)) w).1 = none ∧
      ∃ e, (WriteFile (fs.getFilePath obj.Key) obj.Data
          (MkdirAll (Dir (fs.getFilePath obj.Key)) w).2).1 = some e ∧
        fs.Write md5Sum obj w = ⟨some ("failed to write file " ++ fs.getFilePath obj.Key ++
          ": " ++ e.Error),
          (WriteFile (fs.getFilePath obj.Key) obj.Data
            (MkdirAll (Dir (fs.getFilePath obj.Key)) w).2).2⟩) ∨
    ((MkdirAll (Dir (fs.getFilePath obj.Key)) w).1 = none ∧
      (WriteFile (fs.getFilePath obj.Key) obj.Data
        (MkdirAll (Dir (fs.getFilePath obj.Key)) w).2).1 = none ∧
      ((obj.MD5Hash ≠ "" ∧ calculateMD5 md5Sum obj.Data ≠ obj.MD5Hash ∧
        fs.Write md5Sum obj w = ⟨some ("MD5 hash mismatch: expected " ++ obj.MD5Hash ++
          ", got " ++ calculateMD5 md5Sum obj.Data),
          (Remove (fs.getFilePath obj.Key) (WriteFile (fs.getFilePath obj.Key) obj.Data
            (MkdirAll (Dir (fs.getFilePath obj.Key)) w).2).2).2⟩) ∨
      ((obj.MD5Hash = "" ∨ calculateMD5 md5Sum obj.Data = obj.MD5Hash) ∧
        fs.Write md5Sum obj w = ⟨none, (WriteFile (fs.getFilePath obj.Key) obj.Data
          (MkdirAll (Dir (fs.getFilePath obj.Key)) w).2).2⟩))) := by
  unfold FileStorageNode.Write
  simp only
  cases hm : MkdirAll (Dir (fs.getFilePath obj.Key)) w with
  | mk e1 w1 =>
    cases e1 with
    | some e =>
      left
      simp
    | none =>
      right
      cases hw : WriteFile (fs.getFilePath obj.Key) obj.Data w1 with
      | mk e2 w2 =>
        cases e2 with
        | some e =>
          left
          simp [hw]
        | none =>
          right
          by_cases h1 : obj.MD5Hash = ""
          · simp [hw, h1]
          · by_cases h2 : calculateMD5 md5Sum obj.Data = obj.MD5Hash
            · simp [hw, h1, h2]
            · simp [hw, h1, h2]

/-- C16: for an object whose bytes can be stored (`MkdirAll` and `WriteFile`
return no error), `Write` returns the hash-mismatch error if and only if the
declared hash is not empty and differs from the digest computed over the
payload; with an empty declared hash, or a matching one, `Write` returns `nil`;
and the hash-mismatch error is the only error it then returns. -/
theorem Write_hash_mismatch_iff (md5Sum : List Byte → List Byte) (fs : FileStorageNode)
    (obj : FileObject) (w : OS)
    (hmkdir : (MkdirAll (Dir (fs.getFilePath obj.Key)) w).1 = none)
    (hwrite : (WriteFile (fs.getFilePath obj.Key) obj.Data
      (MkdirAll (Dir (fs.getFilePath obj.Key)) w).2).1 = none) :
    ((fs.Write md5Sum obj w).err = some ("MD5 hash mismatch: expected " ++ obj.MD5Hash ++
        ", got " ++ calculateMD5 md5Sum obj.Data) ↔
      obj.MD5Hash ≠ "" ∧ calculateMD5 md5Sum obj.Data ≠ obj.MD5Hash) ∧
    ((obj.MD5Hash = "" ∨ calculateMD5 md5Sum obj.Data = obj.MD5Hash) →
      (fs.Write md5Sum obj w).err = none) ∧
    ((fs.Write md5Sum obj w).err ≠ none →
      (fs.Write md5Sum obj w).err = some ("MD5 hash mismatch: expected " ++ obj.MD5Hash ++
        ", got " ++ calculateMD5 md5Sum obj.Data)) := by
  rcases Write_branches md5Sum fs obj w with ⟨e, h, _⟩ | ⟨_, e, h, _⟩ | ⟨_, _, h⟩
  · rw [hmkdir] at h
    cases h
  · rw [hwrite] at h
    cases h
  · rcases h with ⟨h1, h2, h3⟩ | ⟨h1, h3⟩
    · rw [h3]
      refine ⟨⟨fun _ => ⟨h1, h2⟩, fun _ => rfl⟩, ?_, fun _ => rfl⟩
      rintro (h | h)
      · exact absurd h h1
      · exact absurd h h2
    · rw [h3]
      refine ⟨⟨fun h => Option.noConfusion h, ?_⟩, fun _ => rfl, fun h => absurd rfl h⟩
      rintro ⟨a, b⟩
      rcases h1 with h1 | h1
      · exact absurd h1 a
      · exact absurd h1 b

/-- Witness of C16: `hello` with a wrong declared hash, written to stg1. -/
theorem Write_hash_mismatch_iff_witness :
    (stg1.Write md5Hello helloWrongHash (startedOS 0)).err =
      some ("MD5 hash mismatch: expected " ++ helloWrongHash.MD5Hash ++
        ", got " ++ calculateMD5 md5Hello helloWrongHash.Data) ∧
    (stg1.Write md5Hello helloHashed (startedOS 0)).err = none ∧
    (stg1.Write md5Hello hello (startedOS 0)).err = none :=
  ⟨(Write_hash_mismatch_iff md5Hello stg1 helloWrongHash (startedOS 0) (by decide)
      (by decide)).1.2 ⟨by decide, by decide⟩,
    (Write_hash_mismatch_iff md5Hello stg1 helloHashed (startedOS 0) (by decide)
      (by decide)).2.1 (Or.inr (by decide)),
    (Write_hash_mismatch_iff md5Hello stg1 hello (startedOS 0) (by decide)
      (by decide)).2.1 (Or.inl rfl)⟩

/-- A call of `Write` that returns the hash-mismatch error wrote the file and
removed it. -/
theorem Write_mismatch_world (md5Sum : List Byte → List Byte) (fs : FileStorageNode)
    (obj : FileObject) (w : OS)
    (h : (fs.Write md5Sum obj w).err = some ("MD5 hash mismatch: expected " ++ obj.MD5Hash ++
      ", got " ++ calculateMD5 md5Sum obj.Data)) :
    (fs.Write md5Sum obj w).world.resolve (fs.getFilePath obj.Key) = .error Errno.ENOENT := by
  rcases Write_branches md5Sum fs obj w with ⟨e, _, h0⟩ | ⟨_, e, _, h0⟩ | ⟨_, hw, h0⟩
  · rw [h0] at h
    simp only [Option.some.injEq, String.append_assoc] at h
    exact absurd h (append_ne_of_head _ _ _ _ 'f' 'M' _ _ rfl rfl (by decide))
  · rw [h0] at h
    simp only [Option.some.injEq, String.append_assoc] at h
    exact absurd h (append_ne_of_head _ _ _ _ 'f' 'M' _ _ rfl rfl (by decide))
  · rcases h0 with ⟨_, _, h3⟩ | ⟨_, h3⟩
    · rw [h3]
      simp only
      obtain ⟨hn, hd, hp, hset⟩ := WriteFile_ok _ _ _ hw
      have hres := resolve_set (MkdirAll (Dir (fs.getFilePath obj.Key)) w).2
        (fs.getFilePath obj.Key)
        (Entry.file obj.Data (MkdirAll (Dir (fs.getFilePath obj.Key)) w).2.now) hn hd hp
      rw [← hset] at hres
      have hrem : (Remove (fs.getFilePath obj.Key) (WriteFile (fs.getFilePath obj.Key) obj.Data
          (MkdirAll (Dir (fs.getFilePath obj.Key)) w).2).2).1 = none := by
        unfold Remove
        rw [hres]
      exact ((Remove_facts _ _).2 hrem).2
    · rw [h3] at h
      cases h

/-- C17: after a `Write` that returned the hash-mismatch error, whatever the
state before it, `Read` of the same key on that node returns no object and the
error file not found. -/
theorem Read_after_hash_mismatch_not_found (md5Sum : List Byte → List Byte)
    (fs : FileStorageNode) (obj : FileObject) (w : OS)
    (h : (fs.Write md5Sum obj w).err = some ("MD5 hash mismatch: expected " ++ obj.MD5Hash ++
      ", got " ++ calculateMD5 md5Sum obj.Data)) :
    (fs.Read md5Sum obj.Key (fs.Write md5Sum obj w).world).obj = none ∧
    (fs.Read md5Sum obj.Key (fs.Write md5Sum obj w).world).err =
      some ("file not found: " ++ obj.Key) := by
  rw [Read_of_absent md5Sum fs obj.Key _ (Write_mismatch_world md5Sum fs obj w h)]
  exact ⟨rfl, rfl⟩

/-- Witness of C17: stg1 holds `hello` under `b/obj1`; a write of the same key
with a wrong declared hash fails, and the key is no longer readable. -/
theorem Read_after_hash_mismatch_not_found_witness :
    (stg1.Read md5Hello "b/obj1" (stg1.Write md5Hello helloHashed (startedOS 0)).world).err =
      none ∧
    (stg1.Read md5Hello helloWrongHash.Key
      (stg1.Write md5Hello helloWrongHash
        (stg1.Write md5Hello helloHashed (startedOS 0)).world).world).obj = none ∧
    (stg1.Read md5Hello helloWrongHash.Key
      (stg1.Write md5Hello helloWrongHash
        (stg1.Write md5Hello helloHashed (startedOS 0)).world).world).err =
      some ("file not found: " ++ helloWrongHash.Key) :=
  ⟨by decide,
    Read_after_hash_mismatch_not_found md5Hello stg1 helloWrongHash
      (stg1.Write md5Hello helloHashed (startedOS 0)).world (by decide)⟩

/-- A call of `Write` that returns no error leaves the file of the key with the
payload. -/
theorem Write_ok_world (md5Sum : List Byte → List Byte) (fs : FileStorageNode)
    (obj : FileObject) (w : OS) (h : (fs.Write md5Sum obj w).err = none) :
    (fs.Write md5Sum obj w).world.resolve (fs.getFilePath obj.Key) =
      .ok (Entry.file obj.Data w.now) := by
  rcases Write_branches md5Sum fs obj w with ⟨e, _, h0⟩ | ⟨_, e, _, h0⟩ | ⟨_, hw, h0⟩
  · rw [h0] at h
    cases h
  · rw [h0] at h
    cases h
  · rcases h0 with ⟨_, _, h3⟩ | ⟨_, h3⟩
    · rw [h3] at h
      cases h
    · rw [h3]
      simp only
      obtain ⟨hn, hd, hp, hset⟩ := WriteFile_ok _ _ _ hw
      rw [hset, MkdirAll_now]
      exact resolve_set _ _ _ hn hd hp

/-- C18: when `Write` of an object whose declared hash is the digest computed
over its payload returns no error, `Read` of its key on the same node returns
no error and an object whose payload is the payload written and whose hash is
the declared hash. -/
theorem Read_after_Write_round_trip (md5Sum : List Byte → List Byte) (fs : FileStorageNode)
    (obj : FileObject) (w : OS)
    (hhash : obj.MD5Hash = calculateMD5 md5Sum obj.Data)
    (hwrite : (fs.Write md5Sum obj w).err = none) :
    (fs.Read md5Sum obj.Key (fs.Write md5Sum obj w).world).err = none ∧
    (fs.Read md5Sum obj.Key (fs.Write md5Sum obj w).world).obj =
      some ⟨"", obj.Key, obj.Data.length, "", obj.MD5Hash, obj.Data, w.now⟩ := by
  rw [Read_of_file md5Sum fs obj.Key _ obj.Data w.now (Write_ok_world md5Sum fs obj w hwrite),
    hhash]
  exact ⟨rfl, rfl⟩

/-- Witness of C18: `hello` with its digest as declared hash, written to stg1. -/
theorem Read_after_Write_round_trip_witness :
    (stg1.Read md5Hello helloHashed.Key
      (stg1.Write md5Hello helloHashed (startedOS 0)).world).err = none ∧
    (stg1.Read md5Hello helloHashed.Key
      (stg1.Write md5Hello helloHashed (startedOS 0)).world).obj =
      some ⟨"", helloHashed.Key, helloHashed.Data.length, "", helloHashed.MD5Hash,
        helloHashed.Data, (startedOS 0).now⟩ :=
  Read_after_Write_round_trip md5Hello stg1 helloHashed (startedOS 0) (by decide) (by decide)

end storage

/-! ## Theorems: self-heal after a third-party fetch -/

namespace storage

open fixture os filepath

theorem Read_world (md5Sum : List Byte → List Byte) (fs : FileStorageNode) (key : String)
    (w : OS) : (fs.Read md5Sum key w).world = w := by
  unfold FileStorageNode.Read
  simp only
  split
  · rfl
  · split
    · rfl
    · split <;> rfl

/-- Counterexample of C19: stg1 holds the file `b/obj1`, so it does not hold the
key `b/obj1/x` and cannot store it.  `ReadFromStg1OrThirdParty` returns the
object of the third-party source, `WriteToAllNodes` of that object returns `nil`
because stg3 stored it, and `Read` of the key on stg1 still fails. -/
theorem self_heal_counterexample :
    (stg1.Read md5Hello "b/obj1/x" (stg1.Write md5Hello hello (startedOS 0)).world).obj =
      none ∧
    (twoFileNodes.ReadFromStg1OrThirdParty "b/obj1/x"
      (stg1.Write md5Hello hello (startedOS 0)).world).ret =
      ((mockSource.GetObject md5Hello "uuid-1" "b/obj1/x"
        (stg1.Write md5Hello hello (startedOS 0)).world).obj, none) ∧
    (twoFileNodes.WriteToAllNodes
      ⟨"uuid-1", "b/obj1/x", 52, "application/octet-stream",
        calculateMD5 md5Hello (bytesOf "Mock data from third party service for key: b/obj1/x"),
        bytesOf "Mock data from third party service for key: b/obj1/x", 0⟩
      (stg1.Write md5Hello hello (startedOS 0)).world).ret = none ∧
    (stg1.Read md5Hello "b/obj1/x" (twoFileNodes.WriteToAllNodes
      ⟨"uuid-1", "b/obj1/x", 52, "application/octet-stream",
        calculateMD5 md5Hello (bytesOf "Mock data from third party service for key: b/obj1/x"),
        bytesOf "Mock data from third party service for key: b/obj1/x", 0⟩
      (stg1.Write md5Hello hello (startedOS 0)).world).world).obj = none ∧
    (mockSource.GetObject md5Hello "uuid-1" "b/obj1/x"
        (stg1.Write md5Hello hello (startedOS 0)).world).obj =
      some ⟨"uuid-1", "b/obj1/x", 52, "application/octet-stream",
        calculateMD5 md5Hello (bytesOf "Mock data from third party service for key: b/obj1/x"),
        bytesOf "Mock data from third party service for key: b/obj1/x", 0⟩ := by
  refine ⟨by decide, by decide, by decide, by decide, by decide⟩

end storage

namespace storage

open fixture os filepath

/-- C19, amended: when the first node is a file node, stg1 or not, its `Read` of
the key fails and the third-party source is the mock service, then
`ReadFromStg1OrThirdParty` returns the object of the mock service; and when
the `Write` of that object on stg1 itself returns no error and the writes on
the other nodes leave the file of the key as stg1 wrote it, `WriteToAllNodes`
of the object returns `nil` and `Read` of the key on stg1 then returns no error
and the payload of the object. -/
theorem self_heal_makes_primary_read_succeed (md5Sum : List Byte → List Byte) (uuid : String)
    (mts : MockThirdPartyService) (fs : FileStorageNode) (rest : List (StorageNode OS))
    (sm : Manager OS) (key : String) (w : OS) (o : FileObject)
    (hnodes : sm.nodes = fs.asStorageNode md5Sum :: rest)
    (hsource : sm.thirdPartyService = some (mts.asThirdPartyService md5Sum uuid))
    (hmiss : (fs.Read md5Sum key w).err ≠ none)
    (ho : (mts.GetObject md5Sum uuid key w).obj = some o) :
    (sm.ReadFromStg1OrThirdParty key w).ret = (some o, none) ∧
    ((fs.Write md5Sum o w).err = none →
      (sm.WriteToAllNodes o w).world.resolve (fs.getFilePath key) =
        (fs.Write md5Sum o w).world.resolve (fs.getFilePath key) →
      (sm.WriteToAllNodes o w).ret = none ∧
      (fs.Read md5Sum key (sm.WriteToAllNodes o w).world).err = none ∧
      (fs.Read md5Sum key (sm.WriteToAllNodes o w).world).obj.map (fun x => x.Data) =
        some o.Data) := by
  have hkey : o.Key = key := by
    unfold MockThirdPartyService.GetObject at ho
    simp only [Option.some.injEq] at ho
    rw [← ho]
  constructor
  · have hm : sm.nodes = [] ∨ ∃ node tail, sm.nodes = node :: tail ∧
        (node.GetNodeID ≠ "stg1" ∨ (node.Read key w).err ≠ none) :=
      Or.inr ⟨fs.asStorageNode md5Sum, rest, hnodes, Or.inr hmiss⟩
    obtain ⟨calls, hret, _⟩ := ReadFromStg1OrThirdParty_after_miss sm key w hm
    rw [hret, (readThirdParty_ret sm key _ calls).1]
    have hw : sm.worldAfterStg1 key w = w := by
      unfold Manager.worldAfterStg1
      rw [hnodes]
      simp only
      split
      · exact Read_world md5Sum fs key w
      · rfl
    rw [hw]
    unfold Manager.readThirdParty
    rw [hsource]
    simp only
    have herr : ((mts.asThirdPartyService md5Sum uuid).GetObject key w).err = none := rfl
    rw [herr]
    simp only
    exact congrArg (fun x => (x, (none : Option String))) ho
  · intro hprimary hrest
    obtain ⟨errs, _, _, _, h4, _, h6⟩ := WriteToAllNodes_run sm o w
    have h0 := h6 0 (fs.asStorageNode md5Sum) (by rw [hnodes]; simp)
    simp only [List.take_zero, List.foldl_nil] at h0
    have hfirst : ((fs.asStorageNode md5Sum).Write o w).err = none := hprimary
    rw [hfirst] at h0
    refine ⟨h4.2 (List.mem_iff_getElem?.2 ⟨0, h0⟩), ?_⟩
    have hres := Write_ok_world md5Sum fs o w hprimary
    rw [hkey] at hres
    rw [← hrest] at hres
    rw [Read_of_file md5Sum fs key _ o.Data w.now hres]
    exact ⟨rfl, rfl⟩

/-- Witness of C19: the file nodes stg1 and stg3 on the file system left by
their creation, the mock source, and the key `b/obj1`. -/
theorem self_heal_makes_primary_read_succeed_witness :
    (twoFileNodes.ReadFromStg1OrThirdParty "b/obj1" (startedOS 0)).ret =
      (some ⟨"uuid-1", "b/obj1", 50, "application/octet-stream",
        calculateMD5 md5Hello (bytesOf "Mock data from third party service for key: b/obj1"),
        bytesOf "Mock data from third party service for key: b/obj1", 0⟩, none) ∧
    (twoFileNodes.WriteToAllNodes
      ⟨"uuid-1", "b/obj1", 50, "application/octet-stream",
        calculateMD5 md5Hello (bytesOf "Mock data from third party service for key: b/obj1"),
        bytesOf "Mock data from third party service for key: b/obj1", 0⟩
      (startedOS 0)).ret = none ∧
    (stg1.Read md5Hello "b/obj1" (twoFileNodes.WriteToAllNodes
      ⟨"uuid-1", "b/obj1", 50, "application/octet-stream",
        calculateMD5 md5Hello (bytesOf "Mock data from third party service for key: b/obj1"),
        bytesOf "Mock data from third party service for key: b/obj1", 0⟩
      (startedOS 0)).world).err = none ∧
    (stg1.Read md5Hello "b/obj1" (twoFileNodes.WriteToAllNodes
      ⟨"uuid-1", "b/obj1", 50, "application/octet-stream",
        calculateMD5 md5Hello (bytesOf "Mock data from third party service for key: b/obj1"),
        bytesOf "Mock data from third party service for key: b/obj1", 0⟩
      (startedOS 0)).world).obj.map (fun x => x.Data) =
      some (bytesOf "Mock data from third party service for key: b/obj1") :=
  ⟨(self_heal_makes_primary_read_succeed md5Hello "uuid-1" mockSource stg1
      [stg3.asStorageNode md5Hello] twoFileNodes "b/obj1" (startedOS 0) _ rfl rfl
      (by decide) (by decide)).1,
    (self_heal_makes_primary_read_succeed md5Hello "uuid-1" mockSource stg1
      [stg3.asStorageNode md5Hello] twoFileNodes "b/obj1" (startedOS 0) _ rfl rfl
      (by decide) (by decide)).2 (by decide) rfl⟩

end storage

/-! ## Theorems: Stop -/

namespace queue

open fixture

theorem setStage_setStage (gs : List Goroutine) (g : Nat) (a b : Stage) :
    setStage (setStage gs g a) g b = setStage gs g b := by
  induction gs generalizing g with
  | nil => cases g <;> rfl
  | cons x gs ih =>
    cases g with
    | zero => rfl
    | succ g =>
      unfold setStage at ih ⊢
      rw [List.modify_succ_cons, List.modify_succ_cons, List.modify_succ_cons, ih]

theorem setStage_same (gs : List Goroutine) (g : Nat) (gr : Goroutine) (h : gs[g]? = some gr) :
    setStage gs g gr.stage = gs := by
  induction gs generalizing g with
  | nil => cases g <;> rfl
  | cons x gs ih =>
    cases g with
    | zero =>
      simp only [List.getElem?_cons_zero, Option.some.injEq] at h
      subst h
      rfl
    | succ g =>
      simp only [List.getElem?_cons_succ] at h
      unfold setStage at ih ⊢
      rw [List.modify_succ_cons, ih g h]

theorem length_setStage (gs : List Goroutine) (g : Nat) (a : Stage) :
    (setStage gs g a).length = gs.length := by
  unfold setStage
  exact List.length_modify _ _ _

theorem drop_setStage (gs : List Goroutine) (g : Nat) (a : Stage) :
    (setStage gs g a).drop (g + 1) = gs.drop (g + 1) := by
  induction gs generalizing g with
  | nil => cases g <;> rfl
  | cons x gs ih =>
    cases g with
    | zero => rfl
    | succ g =>
      unfold setStage at ih ⊢
      rw [List.modify_succ_cons]
      simpa using ih g

theorem mem_setStage (gs : List Goroutine) (g : Nat) (a : Stage) (x : Goroutine)
    (h : x ∈ setStage gs g a) : x ∈ gs ∨ ∃ gr, gs[g]? = some gr ∧ x = ⟨gr.worker, a⟩ := by
  obtain ⟨i, hi⟩ := List.mem_iff_getElem?.1 h
  by_cases hig : i = g
  · subst hig
    cases hg : gs[i]? with
    | none =>
      unfold setStage at hi
      rw [List.getElem?_modify, hg] at hi
      cases hi
    | some gr =>
      rw [getElem?_setStage_self gs i a gr hg] at hi
      injection hi with hi
      exact Or.inr ⟨gr, rfl, hi.symm⟩
  · rw [getElem?_setStage_ne gs g i a hig] at hi
    exact Or.inl (List.mem_iff_getElem?.2 ⟨i, hi⟩)

/-- The two steps that `Stop` lets goroutine `g` take, in a draining state: the
goroutine returns, having taken a task out of the queue without handling it
if it was about to receive; no worker and nothing of the world changes. -/
theorem two_steps_draining {W : Type} (qm : Manager W) (g : Nat) (v : W) (gr : Goroutine)
    (hd : Draining qm) (hg : qm.goroutines[g]? = some gr) :
    Draining ((qm.runWorkerStep g v).1.runWorkerStep g (qm.runWorkerStep g v).2.world).1 ∧
    ((qm.runWorkerStep g v).1.runWorkerStep g (qm.runWorkerStep g v).2.world).2.world = v ∧
    ((qm.runWorkerStep g v).1.runWorkerStep g (qm.runWorkerStep g v).2.world).1.workers =
      qm.workers ∧
    ((qm.runWorkerStep g v).1.runWorkerStep g (qm.runWorkerStep g v).2.world).1.running =
      qm.running ∧
    ((qm.runWorkerStep g v).1.runWorkerStep g (qm.runWorkerStep g v).2.world).1.goroutines =
      setStage qm.goroutines g Stage.returned ∧
    ((qm.runWorkerStep g v).1.runWorkerStep g (qm.runWorkerStep g v).2.world).1.queue.buf =
      if gr.stage = Stage.receiving then qm.queue.buf.tail else qm.queue.buf := by
  obtain ⟨hclosed, hworkers, hgs⟩ := hd
  have hgmem : gr ∈ qm.goroutines := List.mem_iff_getElem?.2 ⟨g, hg⟩
  obtain ⟨hvalid, hnp⟩ := hgs gr hgmem
  obtain ⟨worker, hworker⟩ : ∃ worker, qm.workers[gr.worker]? = some worker :=
    ⟨qm.workers[gr.worker], List.getElem?_eq_getElem hvalid⟩
  have hstopped : worker.IsRunning = false :=
    hworkers worker (List.mem_iff_getElem?.2 ⟨gr.worker, hworker⟩)
  have keep : ∀ (st : Stage), st ≠ Stage.parked →
      ∀ x ∈ setStage qm.goroutines g st, x.worker < qm.workers.length ∧ x.stage ≠ Stage.parked := by
    intro st hst x hx
    rcases mem_setStage _ _ _ _ hx with h | ⟨gr', h1, h2⟩
    · exact hgs x h
    · rw [hg] at h1
      injection h1 with h1
      rw [h2, ← h1]
      exact ⟨hvalid, hst⟩
  have hret : Stage.returned ≠ Stage.parked := fun h => Stage.noConfusion h
  cases hst : gr.stage with
  | parked => exact absurd hst hnp
  | returned =>
    have h1 : qm.runWorkerStep g v = (qm, ⟨none, v, []⟩) := by
      unfold Manager.runWorkerStep
      rw [hg]
      simp only [hst]
    rw [h1]
    simp only
    rw [h1]
    have hsame := setStage_same qm.goroutines g gr hg
    rw [hst] at hsame
    simp only [hsame, if_neg (fun h : Stage.returned = Stage.receiving => Stage.noConfusion h)]
    exact ⟨⟨hclosed, hworkers, hgs⟩, trivial, trivial, trivial, trivial, trivial⟩
  | received task =>
    have h1 : qm.runWorkerStep g v =
        (⟨qm.queue, qm.workers, qm.maxSize, qm.running,
          setStage qm.goroutines g Stage.returned⟩, ⟨none, v, []⟩) := by
      unfold Manager.runWorkerStep
      rw [hg]
      simp only [hst, hworker, hstopped, Bool.not_false, if_true]
    rw [h1]
    simp only
    have h2 : (⟨qm.queue, qm.workers, qm.maxSize, qm.running,
          setStage qm.goroutines g Stage.returned⟩ : Manager W).runWorkerStep g v =
        (⟨qm.queue, qm.workers, qm.maxSize, qm.running,
          setStage qm.goroutines g Stage.returned⟩, ⟨none, v, []⟩) := by
      unfold Manager.runWorkerStep
      simp only
      rw [getElem?_setStage_self _ _ _ gr hg]
    rw [h2]
    simp only [if_neg (fun h : Stage.received task = Stage.receiving => Stage.noConfusion h)]
    exact ⟨⟨hclosed, hworkers, keep _ hret⟩, trivial, trivial, trivial, trivial, trivial⟩
  | receiving =>
    cases hb : qm.queue.buf with
    | nil =>
      have h1 : qm.runWorkerStep g v =
          (⟨qm.queue, qm.workers, qm.maxSize, qm.running,
            setStage qm.goroutines g Stage.returned⟩, ⟨none, v, []⟩) := by
        unfold Manager.runWorkerStep
        rw [hg]
        simp only [hst, hb, hclosed, if_true]
      rw [h1]
      simp only
      have h2 : (⟨qm.queue, qm.workers, qm.maxSize, qm.running,
            setStage qm.goroutines g Stage.returned⟩ : Manager W).runWorkerStep g v =
          (⟨qm.queue, qm.workers, qm.maxSize, qm.running,
            setStage qm.goroutines g Stage.returned⟩, ⟨none, v, []⟩) := by
        unfold Manager.runWorkerStep
        simp only
        rw [getElem?_setStage_self _ _ _ gr hg]
      rw [h2]
      simp only [hb, List.tail_nil, ite_self]
      exact ⟨⟨hclosed, hworkers, keep _ hret⟩, trivial, trivial, trivial, trivial, trivial⟩
    | cons task rest =>
      have h1 : qm.runWorkerStep g v =
          (⟨⟨rest, qm.queue.cap, qm.queue.closed, qm.queue.recvq⟩, qm.workers, qm.maxSize,
            qm.running, setStage qm.goroutines g (Stage.received task)⟩, ⟨none, v, []⟩) := by
        unfold Manager.runWorkerStep
        rw [hg]
        simp only [hst, hb]
      rw [h1]
      simp only
      have h2 : (⟨⟨rest, qm.queue.cap, qm.queue.closed, qm.queue.recvq⟩, qm.workers, qm.maxSize,
            qm.running, setStage qm.goroutines g (Stage.received task)⟩ :
            Manager W).runWorkerStep g v =
          (⟨⟨rest, qm.queue.cap, qm.queue.closed, qm.queue.recvq⟩, qm.workers, qm.maxSize,
            qm.running, setStage qm.goroutines g Stage.returned⟩, ⟨none, v, []⟩) := by
        unfold Manager.runWorkerStep
        simp only
        rw [getElem?_setStage_self _ _ _ gr hg]
        simp only [hworker, hstopped, Bool.not_false, if_true, setStage_setStage]
      rw [h2]
      simp only [List.tail_cons, if_true]
      exact ⟨⟨hclosed, hworkers, keep _ hret⟩, trivial, trivial, trivial, trivial, trivial⟩

end queue

namespace queue

open fixture

theorem waitFrom_draining {W : Type} (n g : Nat) (qm : Manager W) (v : W) (hd : Draining qm)
    (hlen : g + n = qm.goroutines.length) :
    (waitFrom n g qm v).2 = v ∧
    (waitFrom n g qm v).1.workers = qm.workers ∧
    (∀ i, g ≤ i → ∀ gr, (waitFrom n g qm v).1.goroutines[i]? = some gr →
      gr.stage = Stage.returned) ∧
    (∀ i, i < g → (waitFrom n g qm v).1.goroutines[i]? = qm.goroutines[i]?) ∧
    (waitFrom n g qm v).1.queue.buf =
      qm.queue.buf.drop ((qm.goroutines.drop g).countP (fun gr => gr.stage = Stage.receiving)) := by
  induction n generalizing g qm with
  | zero =>
    simp only [waitFrom]
    refine ⟨trivial, trivial, ?_, fun _ _ => trivial, ?_⟩
    · intro i hi gr hgr
      have : i < qm.goroutines.length := (List.getElem?_eq_some_iff.1 hgr).1
      omega
    · have : qm.goroutines.drop g = [] := List.drop_eq_nil_of_le (by omega)
      rw [this]
      rfl
  | succ n ih =>
    have hg : g < qm.goroutines.length := by omega
    have hgr : qm.goroutines[g]? = some qm.goroutines[g] := List.getElem?_eq_getElem hg
    obtain ⟨a1, a2, a3, _, a5, a6⟩ := two_steps_draining qm g v qm.goroutines[g] hd hgr
    simp only [waitFrom]
    rw [a2]
    have hlen2 : g + 1 + n =
        ((qm.runWorkerStep g v).1.runWorkerStep g (qm.runWorkerStep g v).2.world).1.goroutines.length := by
      rw [a5, length_setStage]
      omega
    obtain ⟨b1, b2, b3, b4, b5⟩ := ih (g + 1) _ a1 hlen2
    refine ⟨b1, by rw [b2, a3], ?_, ?_, ?_⟩
    · intro i hi gr hi2
      by_cases hig : i = g
      · rw [hig, b4 g (by omega), a5, getElem?_setStage_self _ _ _ _ hgr] at hi2
        injection hi2 with hi2
        rw [← hi2]
      · exact b3 i (by omega) gr hi2
    · intro i hi
      rw [b4 i (by omega), a5, getElem?_setStage_ne _ _ _ _ (by omega)]
    · rw [b5, a5, a6, drop_setStage]
      have hdrop : qm.goroutines.drop g = qm.goroutines[g] :: qm.goroutines.drop (g + 1) :=
        List.drop_eq_getElem_cons hg
      rw [hdrop, List.countP_cons]
      by_cases hs : qm.goroutines[g].stage = Stage.receiving
      · simp only [hs, if_true, decide_True]
        cases qm.queue.buf with
        | nil => simp
        | cons t rest => simp
      · simp [hs]

theorem Enqueue_valid {W : Type} (qm : Manager W) (task : TaskMessage)
    (h : ∀ gr ∈ qm.goroutines, gr.worker < qm.workers.length) :
    ∀ gr ∈ (qm.Enqueue task).2.goroutines, gr.worker < (qm.Enqueue task).2.workers.length := by
  unfold Manager.Enqueue
  cases qm.running with
  | false => exact h
  | true =>
    simp only [Bool.not_true, Bool.false_eq_true, if_false]
    unfold trySend
    cases qm.queue.closed with
    | true => exact h
    | false =>
      simp only [Bool.false_eq_true, if_false]
      cases qm.queue.recvq with
      | cons g rest =>
        simp only
        intro x hx
        rcases mem_setStage _ _ _ _ hx with h1 | ⟨gr, h1, h2⟩
        · exact h x h1
        · rw [h2]
          exact h gr (List.mem_iff_getElem?.2 ⟨g, h1⟩)
      | nil =>
        simp only
        by_cases hc : qm.queue.buf.length < qm.queue.cap
        · rw [if_pos hc]
          exact h
        · rw [if_neg hc]
          exact h

theorem runWorkerStep_valid {W : Type} (qm : Manager W) (g : Nat) (v : W)
    (h : ∀ gr ∈ qm.goroutines, gr.worker < qm.workers.length) :
    ∀ gr ∈ (qm.runWorkerStep g v).1.goroutines,
      gr.worker < (qm.runWorkerStep g v).1.workers.length := by
  have keep : ∀ (st : Stage), ∀ x ∈ setStage qm.goroutines g st,
      x.worker < qm.workers.length := by
    intro st x hx
    rcases mem_setStage _ _ _ _ hx with h1 | ⟨gr, h1, h2⟩
    · exact h x h1
    · rw [h2]
      exact h gr (List.mem_iff_getElem?.2 ⟨g, h1⟩)
  unfold Manager.runWorkerStep
  cases qm.goroutines[g]? with
  | none => exact h
  | some gr =>
    simp only
    cases gr.stage with
    | receiving =>
      simp only
      cases qm.queue.buf with
      | nil =>
        simp only
        cases qm.queue.closed with
        | true => exact keep _
        | false => exact keep _
      | cons task rest => exact keep _
    | parked => exact h
    | received task =>
      simp only
      cases qm.workers[gr.worker]? with
      | none => exact h
      | some worker =>
        simp only
        cases worker.IsRunning with
        | true =>
          simp only [Bool.not_true, Bool.false_eq_true, if_false, List.length_set]
          exact keep _
        | false => exact keep _
    | returned => exact h

theorem waitFrom_valid {W : Type} (n g : Nat) (qm : Manager W) (v : W)
    (h : ∀ gr ∈ qm.goroutines, gr.worker < qm.workers.length) :
    ∀ gr ∈ (waitFrom n g qm v).1.goroutines, gr.worker < (waitFrom n g qm v).1.workers.length := by
  induction n generalizing g qm v with
  | zero => exact h
  | succ n ih =>
    simp only [waitFrom]
    exact ih _ _ _ (runWorkerStep_valid _ _ _ (runWorkerStep_valid _ _ _ h))

theorem closeQueue_valid {W : Type} (qm : Manager W)
    (h : ∀ gr ∈ qm.goroutines, gr.worker < qm.workers.length) :
    ∀ gr ∈ qm.goroutines.map
        (fun x => if x.stage = Stage.parked then (⟨x.worker, Stage.returned⟩ : Goroutine) else x),
      gr.worker < (qm.workers.map Worker.Stop).length ∧ gr.stage ≠ Stage.parked := by
  intro gr hgr
  rw [List.mem_map] at hgr
  obtain ⟨x, hx, hxe⟩ := hgr
  rw [List.length_map]
  by_cases hp : x.stage = Stage.parked
  · rw [if_pos hp] at hxe
    rw [← hxe]
    exact ⟨h x hx, fun h => Stage.noConfusion h⟩
  · rw [if_neg hp] at hxe
    rw [← hxe]
    exact ⟨h x hx, hp⟩

theorem Stop_valid {W : Type} (qm : Manager W) (v : W)
    (h : ∀ gr ∈ qm.goroutines, gr.worker < qm.workers.length) :
    ∀ gr ∈ (qm.Stop v).2.1.goroutines, gr.worker < (qm.Stop v).2.1.workers.length := by
  unfold Manager.Stop
  cases qm.running with
  | false => exact h
  | true =>
    simp only [Bool.not_true, Bool.false_eq_true, if_false]
    unfold closeQueue
    cases qm.queue.closed with
    | true =>
      simp only [if_true, List.length_map]
      exact h
    | false =>
      simp only [Bool.false_eq_true, if_false]
      apply waitFrom_valid
      intro gr hgr
      exact (closeQueue_valid qm h gr hgr).1

/-- In every reachable state every goroutine belongs to a worker of the manager. -/
theorem Reachable.goroutines_valid {W : Type} {maxSize : Int} {qm : Manager W}
    (hreach : Reachable maxSize qm) : ∀ gr ∈ qm.goroutines, gr.worker < qm.workers.length := by
  induction hreach with
  | init qm h =>
    unfold NewManager at h
    split at h
    · cases h
    · injection h with h
      rw [← h]
      intro gr hgr
      cases hgr
  | start qm _ ih =>
    unfold Manager.Start
    split
    · exact ih
    · intro gr hgr
      simp only [List.mem_append, List.mem_map, List.mem_range] at hgr
      rcases hgr with hgr | ⟨i, hi, rfl⟩
      · exact ih gr hgr
      · exact hi
  | stop qm v _ ih => exact Stop_valid qm v ih
  | enqueue qm task _ ih => exact Enqueue_valid qm task ih
  | addWorker qm worker _ ih =>
    unfold Manager.AddWorker
    intro gr hgr
    simp only [List.length_append, List.length_singleton]
    split at hgr
    · simp only [List.mem_append, List.mem_singleton] at hgr
      rcases hgr with hgr | rfl
      · exact Nat.lt_succ_of_lt (ih gr hgr)
      · exact Nat.lt_succ_self _
    · exact Nat.lt_succ_of_lt (ih gr hgr)
  | step qm g v _ ih => exact runWorkerStep_valid qm g v ih
  | workerStart qm i _ ih =>
    intro gr hgr
    simp only [List.length_modify]
    exact ih gr hgr
  | workerStop qm i _ ih =>
    intro gr hgr
    simp only [List.length_modify]
    exact ih gr hgr
  | workerSetStorageManager qm i sm _ ih =>
    intro gr hgr
    simp only [List.length_modify]
    exact ih gr hgr

end queue

namespace queue

open fixture

theorem runWorkerStep_closed {W : Type} (qm : Manager W) (g : Nat) (v : W) :
    (qm.runWorkerStep g v).1.queue.closed = qm.queue.closed := by
  unfold Manager.runWorkerStep
  cases qm.goroutines[g]? with
  | none => rfl
  | some gr =>
    simp only
    cases gr.stage with
    | receiving =>
      simp only
      cases qm.queue.buf with
      | nil =>
        simp only
        cases h : qm.queue.closed with
        | true =>
          rw [if_pos rfl]
          exact h
        | false => rfl
      | cons task rest => rfl
    | parked => rfl
    | received task =>
      simp only
      cases qm.workers[gr.worker]? with
      | none => rfl
      | some worker =>
        simp only
        cases worker.IsRunning <;> rfl
    | returned => rfl

theorem waitFrom_closed {W : Type} (n g : Nat) (qm : Manager W) (v : W) :
    (waitFrom n g qm v).1.queue.closed = qm.queue.closed := by
  induction n generalizing g qm v with
  | zero => rfl
  | succ n ih =>
    simp only [waitFrom]
    rw [ih, runWorkerStep_closed, runWorkerStep_closed]

theorem countP_receiving_closeQueue (gs : List Goroutine) :
    (gs.map (fun x => if x.stage = Stage.parked then (⟨x.worker, Stage.returned⟩ : Goroutine)
      else x)).countP (fun gr => gr.stage = Stage.receiving) =
    gs.countP (fun gr => gr.stage = Stage.receiving) := by
  induction gs with
  | nil => rfl
  | cons x gs ih =>
    rw [List.map_cons, List.countP_cons, List.countP_cons, ih]
    by_cases hp : x.stage = Stage.parked
    · rw [if_pos hp]
      simp [hp]
    · rw [if_neg hp]

theorem Stop_eq_waitFrom {W : Type} (qm : Manager W) (v : W) (hrun : qm.running = true)
    (hopen : qm.queue.closed = false) :
    qm.Stop v = (Ret.ret none,
      waitFrom qm.goroutines.length 0
        ⟨⟨qm.queue.buf, qm.queue.cap, true, []⟩, qm.workers.map Worker.Stop, qm.maxSize, false,
          qm.goroutines.map (fun x =>
            if x.stage = Stage.parked then (⟨x.worker, Stage.returned⟩ : Goroutine) else x)⟩ v) := by
  unfold Manager.Stop closeQueue
  simp only [hrun, hopen, Bool.not_true, Bool.false_eq_true, if_false, List.length_map]

theorem draining_after_close {W : Type} (qm : Manager W)
    (hvalid : ∀ gr ∈ qm.goroutines, gr.worker < qm.workers.length) :
    Draining (⟨⟨qm.queue.buf, qm.queue.cap, true, []⟩, qm.workers.map Worker.Stop, qm.maxSize,
      false, qm.goroutines.map (fun x =>
        if x.stage = Stage.parked then (⟨x.worker, Stage.returned⟩ : Goroutine) else x)⟩ :
      Manager W) := by
  refine ⟨rfl, ?_, closeQueue_valid qm hvalid⟩
  intro worker hw
  simp only [List.mem_map] at hw
  obtain ⟨x, _, hx⟩ := hw
  rw [← hx]
  rfl

/-- Counterexample of C20: a started manager has one started worker and two
tasks in its queue. Processing is live: had the goroutine run its two steps
first, the worker would have processed one task. `Stop` returns nil, yet the
worker has processed no task, its goroutine has returned, and the second task
is still in the closed queue. -/
theorem Stop_with_queued_tasks_counterexample :
    twoQueued.running = true ∧
    twoQueued.queue.buf = [task "upload" "a", task "upload" "b"] ∧
    twoQueued.workers.map (fun worker => (worker.IsRunning, worker.tasksProcessed)) =
      [(true, 0)] ∧
    ((twoQueued.runWorkerStep 0 ()).1.runWorkerStep 0 ()).1.workers.map
      (fun worker => worker.tasksProcessed) = [1] ∧
    (twoQueued.Stop ()).1 = Ret.ret none ∧
    (twoQueued.Stop ()).2.1.workers.map (fun worker => worker.tasksProcessed) = [0] ∧
    (twoQueued.Stop ()).2.1.goroutines = [⟨0, Stage.returned⟩] ∧
    (twoQueued.Stop ()).2.1.queue.buf = [task "upload" "b"] ∧
    (twoQueued.Stop ()).2.1.queue.closed = true := by
  refine ⟨rfl, rfl, rfl, rfl, rfl, rfl, rfl, rfl, rfl⟩

/-- The schedule of `Manager.Stop`, in which no goroutine runs between the
statements of `Stop`: when a reachable, running queue manager with an open
queue is stopped so, `Stop` returns nil and no further enqueue is accepted, but
the queued tasks are not processed: the workers are stopped before the queue is
closed, so every goroutine returns without calling ProcessTask. The world is
unchanged,
each worker is the stopped copy of itself with the same count of processed
tasks, each goroutine that was about to receive has taken one task off the
queue and dropped it, and the other tasks are left in the closed queue. -/
theorem Stop_leaves_queued_tasks_unprocessed {W : Type} (maxSize : Int) (qm : Manager W) (v : W)
    (hreach : Reachable maxSize qm) (hrun : qm.running = true)
    (hopen : qm.queue.closed = false) :
    (qm.Stop v).1 = Ret.ret none ∧
    (qm.Stop v).2.2 = v ∧
    (qm.Stop v).2.1.workers = qm.workers.map Worker.Stop ∧
    (∀ gr ∈ (qm.Stop v).2.1.goroutines, gr.stage = Stage.returned) ∧
    (qm.Stop v).2.1.queue.closed = true ∧
    (qm.Stop v).2.1.queue.buf =
      qm.queue.buf.drop (qm.goroutines.countP (fun gr => gr.stage = Stage.receiving)) ∧
    ∀ task, ((qm.Stop v).2.1.Enqueue task).1 = Ret.ret (some "queue manager is not running") := by
  have hd := draining_after_close qm hreach.goroutines_valid
  obtain ⟨b1, b2, b3, _, b5⟩ := waitFrom_draining qm.goroutines.length 0 _ v hd
    (by simp only [List.length_map, Nat.zero_add])
  have hr := Stop_running qm v
  rw [Stop_eq_waitFrom qm v hrun hopen] at hr ⊢
  refine ⟨rfl, b1, b2, ?_, ?_, ?_, ?_⟩
  · intro gr hgr
    obtain ⟨i, hi⟩ := List.mem_iff_getElem?.1 hgr
    exact b3 i (Nat.zero_le i) gr hi
  · rw [waitFrom_closed]
  · rw [b5, List.drop_zero, countP_receiving_closeQueue]
  · intro task
    unfold Manager.Enqueue
    rw [hr]
    rfl

/-- An instance of that schedule: the manager with one worker and two queued tasks. -/
theorem Stop_leaves_queued_tasks_unprocessed_witness :
    twoQueued.running = true ∧ twoQueued.queue.closed = false ∧
    (twoQueued.Stop ()).2.1.workers = twoQueued.workers.map Worker.Stop ∧
    (twoQueued.Stop ()).2.1.queue.buf =
      twoQueued.queue.buf.drop
        (twoQueued.goroutines.countP (fun gr => gr.stage = Stage.receiving)) :=
  have h := Stop_leaves_queued_tasks_unprocessed 2 twoQueued ()
    (Reachable.enqueue _ _ (Reachable.enqueue _ _ (Reachable.start _
      (Reachable.addWorker _ worker1 (Reachable.init (newQueue 2) rfl))))) rfl rfl
  ⟨rfl, rfl, h.2.2.1, h.2.2.2.2.2.1⟩

end queue

/-! ## Theorems: each task is handed to one worker once -/

namespace queue

open fixture

theorem heldTasks_cons (x : Goroutine) (gs : List Goroutine) :
    heldTasks (x :: gs) = x.held ++ heldTasks gs := by
  simp [heldTasks]

theorem heldTasks_append (gs hs : List Goroutine) :
    heldTasks (gs ++ hs) = heldTasks gs ++ heldTasks hs := by
  simp [heldTasks]

theorem held_of_returned (x : Goroutine) (h : x.stage = Stage.returned) : x.held = [] := by
  unfold Goroutine.held
  rw [h]

theorem handedBetween_cons (x y : Goroutine) (gs hs : List Goroutine) :
    handedBetween (x :: gs) (y :: hs) =
      (if x.stage = y.stage then [] else y.held) ++ handedBetween gs hs := by
  simp [handedBetween]

theorem handedBetween_self (gs : List Goroutine) : handedBetween gs gs = [] := by
  induction gs with
  | nil => rfl
  | cons x gs ih => rw [handedBetween_cons, ih, if_pos rfl]; rfl

theorem handedBetween_append (gs extra : List Goroutine) :
    handedBetween gs (gs ++ extra) = [] := by
  induction gs with
  | nil => simp [handedBetween]
  | cons x gs ih => rw [List.cons_append, handedBetween_cons, ih, if_pos rfl]; rfl

theorem handedBetween_setStage (gs : List Goroutine) (g : Nat) (stage : Stage)
    (gr : Goroutine) (h : gs[g]? = some gr) :
    handedBetween gs (setStage gs g stage) =
      if gr.stage = stage then [] else Goroutine.held ⟨gr.worker, stage⟩ := by
  induction gs generalizing g with
  | nil => simp at h
  | cons x gs ih =>
    cases g with
    | zero =>
      simp only [List.getElem?_cons_zero, Option.some.injEq] at h
      subst h
      unfold setStage
      rw [List.modify_zero_cons, handedBetween_cons, handedBetween_self, List.append_nil]
    | succ g =>
      simp only [List.getElem?_cons_succ] at h
      have := ih g h
      unfold setStage at this ⊢
      rw [List.modify_succ_cons, handedBetween_cons, this, if_pos rfl]
      rfl

theorem droppedBetween_cons (x y : Goroutine) (gs hs : List Goroutine) :
    droppedBetween (x :: gs) (y :: hs) =
      (if y.stage = Stage.returned then x.held else []) ++ droppedBetween gs hs := by
  simp [droppedBetween]

theorem droppedBetween_self (gs : List Goroutine) : droppedBetween gs gs = [] := by
  induction gs with
  | nil => rfl
  | cons x gs ih =>
    rw [droppedBetween_cons, ih, List.append_nil]
    by_cases hx : x.stage = Stage.returned
    · rw [if_pos hx, held_of_returned x hx]
    · rw [if_neg hx]

theorem droppedBetween_append (gs extra : List Goroutine) :
    droppedBetween gs (gs ++ extra) = [] := by
  induction gs with
  | nil => simp [droppedBetween]
  | cons x gs ih =>
    rw [List.cons_append, droppedBetween_cons, ih, List.append_nil]
    by_cases hx : x.stage = Stage.returned
    · rw [if_pos hx, held_of_returned x hx]
    · rw [if_neg hx]

theorem droppedBetween_setStage (gs : List Goroutine) (g : Nat) (stage : Stage)
    (gr : Goroutine) (h : gs[g]? = some gr) :
    droppedBetween gs (setStage gs g stage) =
      if stage = Stage.returned then gr.held else [] := by
  induction gs generalizing g with
  | nil => simp at h
  | cons x gs ih =>
    cases g with
    | zero =>
      simp only [List.getElem?_cons_zero, Option.some.injEq] at h
      subst h
      unfold setStage
      rw [List.modify_zero_cons, droppedBetween_cons, droppedBetween_self, List.append_nil]
    | succ g =>
      simp only [List.getElem?_cons_succ] at h
      have := ih g h
      unfold setStage at this ⊢
      rw [List.modify_succ_cons, droppedBetween_cons, this]
      by_cases hx : x.stage = Stage.returned
      · rw [if_pos hx, held_of_returned x hx, List.nil_append]
      · rw [if_neg hx, List.nil_append]

theorem heldTasks_setStage (gs : List Goroutine) (g : Nat) (stage : Stage) (gr : Goroutine)
    (h : gs[g]? = some gr) (p : Nat × TaskMessage) :
    List.count p (heldTasks (setStage gs g stage)) + List.count p gr.held =
      List.count p (heldTasks gs) + List.count p (Goroutine.held ⟨gr.worker, stage⟩) := by
  induction gs generalizing g with
  | nil => simp at h
  | cons x gs ih =>
    cases g with
    | zero =>
      simp only [List.getElem?_cons_zero, Option.some.injEq] at h
      subst h
      unfold setStage
      rw [List.modify_zero_cons, heldTasks_cons, heldTasks_cons, List.count_append,
        List.count_append]
      omega
    | succ g =>
      simp only [List.getElem?_cons_succ] at h
      have := ih g h
      unfold setStage at this ⊢
      rw [List.modify_succ_cons, heldTasks_cons, heldTasks_cons, List.count_append,
        List.count_append]
      omega

theorem handedBetween_map_snd (before after : List Goroutine) :
    (handedBetween before after).map Prod.snd = dequeuedBetween before after := by
  induction before generalizing after with
  | nil => simp [handedBetween, dequeuedBetween]
  | cons x gs ih =>
    cases after with
    | nil => simp [handedBetween, dequeuedBetween]
    | cons y hs =>
      rw [handedBetween_cons, dequeuedBetween_cons, List.map_append, ih]
      by_cases he : x.stage = y.stage
      · rw [if_pos he, if_pos he]
        rfl
      · rw [if_neg he, if_neg he]
        unfold Goroutine.held Stage.task
        cases y.stage <;> rfl

end queue

namespace queue

open fixture

/-- A stage change of one goroutine, in counts: `x` is what the step processed. -/
theorem setStage_handling (gs : List Goroutine) (g : Nat) (stage : Stage) (gr : Goroutine)
    (h : gs[g]? = some gr) (x : List (Nat × TaskMessage)) (p : Nat × TaskMessage)
    (hx : List.count p gr.held +
        List.count p (if gr.stage = stage then [] else Goroutine.held ⟨gr.worker, stage⟩) =
      List.count p x + List.count p (if stage = Stage.returned then gr.held else []) +
        List.count p (Goroutine.held ⟨gr.worker, stage⟩)) :
    List.count p (heldTasks gs) + List.count p (handedBetween gs (setStage gs g stage)) =
      List.count p x + List.count p (droppedBetween gs (setStage gs g stage)) +
        List.count p (heldTasks (setStage gs g stage)) := by
  rw [handedBetween_setStage gs g stage gr h, droppedBetween_setStage gs g stage gr h]
  have := heldTasks_setStage gs g stage gr h p
  omega

theorem same_handling (gs : List Goroutine) (p : Nat × TaskMessage) :
    List.count p (heldTasks gs) + List.count p (handedBetween gs gs) =
      List.count p ([] : List (Nat × TaskMessage)) + List.count p (droppedBetween gs gs) +
        List.count p (heldTasks gs) := by
  rw [handedBetween_self, droppedBetween_self]
  simp

/-- One operation keeps the tasks: the tasks held before it and the tasks it
handed out are the task it processed, the tasks it dropped and the tasks held
after it. -/
theorem Op.exec_handling {W : Type} (op : Op W) (qm : Manager W) (v : W) (hp : ParkedInv qm)
    (p : Nat × TaskMessage) :
    List.count p (heldTasks qm.goroutines) +
        List.count p (handedBetween qm.goroutines (op.exec qm v).1.goroutines) =
      List.count p (op.processed qm) +
        List.count p (droppedBetween qm.goroutines (op.exec qm v).1.goroutines) +
        List.count p (heldTasks (op.exec qm v).1.goroutines) := by
  cases op with
  | enqueue task =>
    simp only [Op.processed, Op.exec]
    unfold Manager.Enqueue
    cases qm.running with
    | false => exact same_handling _ p
    | true =>
      simp only [Bool.not_true, Bool.false_eq_true, if_false]
      unfold trySend
      cases qm.queue.closed with
      | true => exact same_handling _ p
      | false =>
        simp only [Bool.false_eq_true, if_false]
        cases hq : qm.queue.recvq with
        | cons g rest =>
          obtain ⟨gr, h1, h2⟩ := hp.2 g (by rw [hq]; exact List.mem_cons_self _ _)
          simp only
          apply setStage_handling _ _ _ gr h1
          simp [Goroutine.held, h2]
        | nil =>
          simp only
          by_cases hlt : qm.queue.buf.length < qm.queue.cap
          · rw [if_pos hlt]
            exact same_handling _ p
          · rw [if_neg hlt]
            exact same_handling _ p
  | step g =>
    simp only [Op.processed, Op.exec]
    unfold Manager.runWorkerStep Manager.processCall
    cases hg : qm.goroutines[g]? with
    | none => exact same_handling _ p
    | some gr =>
      simp only
      cases hst : gr.stage with
      | receiving =>
        simp only
        cases hb : qm.queue.buf with
        | nil =>
          simp only
          cases qm.queue.closed with
          | true =>
            simp only [if_true]
            apply setStage_handling _ _ _ gr hg
            simp [Goroutine.held, hst]
          | false =>
            simp only [Bool.false_eq_true, if_false]
            apply setStage_handling _ _ _ gr hg
            simp [Goroutine.held, hst]
        | cons task rest =>
          simp only
          apply setStage_handling _ _ _ gr hg
          simp [Goroutine.held, hst]
      | parked => exact same_handling _ p
      | received task =>
        simp only
        cases qm.workers[gr.worker]? with
        | none => exact same_handling _ p
        | some worker =>
          simp only
          cases worker.IsRunning with
          | true =>
            simp only [Bool.not_true, Bool.false_eq_true, if_false]
            apply setStage_handling _ _ _ gr hg
            simp [Goroutine.held, hst]
          | false =>
            simp only [Bool.not_false, if_true]
            apply setStage_handling _ _ _ gr hg
            simp [Goroutine.held, hst]
      | returned => exact same_handling _ p
  | addWorker worker =>
    simp only [Op.processed, Op.exec]
    unfold Manager.AddWorker
    simp only
    split
    · rw [handedBetween_append, droppedBetween_append, heldTasks_append]
      simp [heldTasks, Goroutine.held]
    · exact same_handling _ p
  | workerStart i => exact same_handling _ p
  | workerStop i => exact same_handling _ p

/-- The calls of `ProcessTask` that `processCall` lists are the calls that
`runWorkerStep` makes: with a call listed, the step returns what `ProcessTask`
of that worker on that task returns and leaves its world and the worker with
its counter raised; with none listed, the step returns nothing, and leaves the
world and the workers as they are. -/
theorem processCall_spec {W : Type} (qm : Manager W) (g : Nat) (v : W) :
    (∀ (i : Nat) (task : TaskMessage), qm.processCall g = [(i, task)] →
      ∃ worker, qm.workers[i]? = some worker ∧
        (qm.runWorkerStep g v).2.ret = some (worker.ProcessTask task v).2.ret ∧
        (qm.runWorkerStep g v).2.world = (worker.ProcessTask task v).2.world ∧
        (qm.runWorkerStep g v).1.workers = qm.workers.set i (worker.ProcessTask task v).1) ∧
    (qm.processCall g = [] →
      (qm.runWorkerStep g v).2.ret = none ∧ (qm.runWorkerStep g v).2.world = v ∧
      (qm.runWorkerStep g v).1.workers = qm.workers) ∧
    (qm.processCall g).length ≤ 1 := by
  unfold Manager.runWorkerStep Manager.processCall
  cases hg : qm.goroutines[g]? with
  | none => simp
  | some gr =>
    simp only
    cases hst : gr.stage with
    | receiving =>
      simp only
      cases hb : qm.queue.buf with
      | nil =>
        simp only
        cases qm.queue.closed <;> simp
      | cons task rest => simp
    | parked => simp
    | received task =>
      simp only
      cases hw : qm.workers[gr.worker]? with
      | none => simp
      | some worker =>
        simp only
        cases worker.IsRunning with
        | true =>
          simp only [Bool.not_true, Bool.false_eq_true, if_false]
          refine ⟨?_, fun h => List.noConfusion h, Nat.le_refl 1⟩
          intro i t h
          simp only [List.cons.injEq, Prod.mk.injEq, and_true] at h
          obtain ⟨h1, h2⟩ := h
          subst h1 h2
          exact ⟨worker, hw, rfl, rfl, rfl⟩
        | false => simp
    | returned => simp

end queue

namespace queue

open fixture

theorem pair_beq (x p : Nat × TaskMessage) : (x == p) = decide (x = p) := by
  obtain ⟨x1, x2⟩ := x
  obtain ⟨p1, p2⟩ := p
  show (x1 == p1 && x2 == p2) = decide ((x1, x2) = (p1, p2))
  by_cases h1 : x1 = p1
  · by_cases h2 : x2 = p2
    · simp [h1, h2]
    · simp [h1, h2]
  · simp [h1]

theorem count_pair_eq (p : Nat × TaskMessage) (l : List (Nat × TaskMessage)) :
    @List.count _ instBEqOfDecidableEq p l = List.count p l := by
  induction l with
  | nil => rfl
  | cons x l ih =>
    rw [@List.count_cons _ instBEqOfDecidableEq, List.count_cons, ih, pair_beq]
    rfl

theorem runOps_fifo {W : Type} (maxSize : Int) (qm : Manager W) (ops : List (Op W)) (v : W)
    (hreach : Reachable maxSize qm) :
    qm.queue.buf ++ (runOps ops qm v).2.2.accepted =
      (runOps ops qm v).2.2.dequeued ++ (runOps ops qm v).1.queue.buf := by
  induction ops generalizing qm v with
  | nil => simp [runOps]
  | cons op ops ih =>
    have h1 := op.exec_fifo qm v hreach.parkedInv hreach.parked_only_when_empty
    have h2 := ih (op.exec qm v).1 (op.exec qm v).2 (op.exec_reachable maxSize qm v hreach)
    simp only [runOps]
    rw [← List.append_assoc, h1, List.append_assoc, h2, List.append_assoc]

theorem runHandling_handed {W : Type} (ops : List (Op W)) (qm : Manager W) (v : W) :
    (runHandling ops qm v).handed.map Prod.snd = (runOps ops qm v).2.2.dequeued := by
  induction ops generalizing qm v with
  | nil => rfl
  | cons op ops ih =>
    simp only [runHandling, runOps]
    rw [List.map_append, handedBetween_map_snd, ih]

theorem runHandling_counts {W : Type} (maxSize : Int) (qm : Manager W) (ops : List (Op W))
    (v : W) (hreach : Reachable maxSize qm) (p : Nat × TaskMessage) :
    List.count p (heldTasks qm.goroutines) + List.count p (runHandling ops qm v).handed =
      List.count p (runHandling ops qm v).processed +
        List.count p (runHandling ops qm v).dropped +
        List.count p (heldTasks (runOps ops qm v).1.goroutines) := by
  induction ops generalizing qm v with
  | nil => simp [runHandling, runOps]
  | cons op ops ih =>
    have h1 := op.exec_handling qm v hreach.parkedInv p
    have h2 := ih (op.exec qm v).1 (op.exec qm v).2 (op.exec_reachable maxSize qm v hreach)
    simp only [runHandling, runOps, List.count_append]
    omega

/-- C21: in a run of calls of `Enqueue` by any producers and steps of the
goroutines of any workers, in any order, from a reachable state: the tasks in
the queue at the start followed by the tasks whose `Enqueue` returned `nil` are
the tasks handed to goroutines, each handed once and to one worker, followed by
the tasks still in the queue; the tasks held at the start and the tasks handed
out are, up to order, the tasks on which `ProcessTask` was called, each by the
worker it was handed to, the tasks dropped by a stopped worker and the tasks
still held. So from a state with an empty queue and no task held, the calls of
`ProcessTask` of all workers together name a task at most as often as it was
accepted. A step makes a call of `ProcessTask` exactly when `processCall` lists
one. -/
theorem each_task_handed_to_one_worker_once {W : Type} (maxSize : Int) (qm : Manager W)
    (ops : List (Op W)) (v : W) (hreach : Reachable maxSize qm) :
    qm.queue.buf ++ (runOps ops qm v).2.2.accepted =
      (runHandling ops qm v).handed.map Prod.snd ++ (runOps ops qm v).1.queue.buf ∧
    List.Perm (heldTasks qm.goroutines ++ (runHandling ops qm v).handed)
      ((runHandling ops qm v).processed ++ (runHandling ops qm v).dropped ++
        heldTasks (runOps ops qm v).1.goroutines) ∧
    (qm.queue.buf = [] → heldTasks qm.goroutines = [] →
      List.Subperm ((runHandling ops qm v).processed.map Prod.snd)
        (runOps ops qm v).2.2.accepted ∧
      ∀ task, List.count task ((runHandling ops qm v).processed.map Prod.snd) ≤
        List.count task (runOps ops qm v).2.2.accepted) ∧
    (∀ g, qm.processCall g = [] ↔ (qm.runWorkerStep g v).2.ret = none) := by
  have hfifo := runOps_fifo maxSize qm ops v hreach
  rw [← runHandling_handed] at hfifo
  have hperm : List.Perm (heldTasks qm.goroutines ++ (runHandling ops qm v).handed)
      ((runHandling ops qm v).processed ++ (runHandling ops qm v).dropped ++
        heldTasks (runOps ops qm v).1.goroutines) := by
    rw [List.perm_iff_count]
    intro p
    have := runHandling_counts maxSize qm ops v hreach p
    rw [count_pair_eq, count_pair_eq]
    simp only [List.count_append]
    omega
  refine ⟨hfifo, hperm, ?_, ?_⟩
  · intro hb hh
    rw [hb, List.nil_append] at hfifo
    rw [hh, List.nil_append] at hperm
    have h1 : List.Subperm (runHandling ops qm v).processed (runHandling ops qm v).handed := by
      refine List.Subperm.trans ?_ hperm.symm.subperm
      rw [List.append_assoc]
      exact (List.sublist_append_left _ _).subperm
    have h2 : List.Subperm ((runHandling ops qm v).processed.map Prod.snd)
        (runOps ops qm v).2.2.accepted := by
      obtain ⟨l, hl1, hl2⟩ := h1
      refine List.Subperm.trans ⟨l.map Prod.snd, hl1.map Prod.snd, hl2.map Prod.snd⟩ ?_
      rw [hfifo]
      exact (List.sublist_append_left _ _).subperm
    exact ⟨h2, fun task => h2.count_le task⟩
  · intro g
    obtain ⟨s1, s2, s3⟩ := processCall_spec qm g v
    constructor
    · intro h
      exact (s2 h).1
    · intro h
      cases hc : qm.processCall g with
      | nil => rfl
      | cons x rest =>
        cases rest with
        | nil =>
          obtain ⟨worker, _, hret, _⟩ := s1 x.1 x.2 hc
          rw [hret] at h
          cases h
        | cons y more =>
          rw [hc] at s3
          simp at s3

/-- Witness of C21: two workers and the tasks `a`, `b`, `c`: `a` is handed to
the first worker, `b` to the second, which handles it first, and `c` is handed
to the first worker, which still holds it at the end. -/
theorem each_task_handed_to_one_worker_once_witness :
    runHandling interleaved twoWorkers () =
      ⟨[(0, task "cleanup" "a"), (1, task "cleanup" "b"), (0, task "cleanup" "c")],
        [(1, task "cleanup" "b"), (0, task "cleanup" "a")], []⟩ ∧
    heldTasks (runOps interleaved twoWorkers ()).1.goroutines = [(0, task "cleanup" "c")] ∧
    (runOps interleaved twoWorkers ()).1.workers.map (fun worker => worker.GetTasksProcessed) =
      [1, 1] ∧
    List.Subperm ((runHandling interleaved twoWorkers ()).processed.map Prod.snd)
      (runOps interleaved twoWorkers ()).2.2.accepted :=
  ⟨by decide, by decide, by decide,
    ((each_task_handed_to_one_worker_once 2 twoWorkers interleaved ()
      (Reachable.start _ (Reachable.addWorker _ worker2
        (Reachable.addWorker _ worker1 (Reachable.init (newQueue 2) rfl))))).2.2.1
      rfl rfl).1⟩

end queue

/-! ## Theorems: the counter of a worker -/

namespace queue

open fixture

theorem incInt64_of_ne (n : Int) (h : n ≠ 2 ^ 63 - 1) : incInt64 n = n + 1 := by
  unfold incInt64
  rw [if_neg]
  intro h1
  apply h
  omega

theorem WorkerOp.exec_counter {W : Type} (op : WorkerOp W) (w : Worker W) (v : W) :
    (op.exec w v).1.tasksProcessed =
      if op.isProcessTask then incInt64 w.tasksProcessed else w.tasksProcessed := by
  cases op with
  | start => rfl
  | stop => rfl
  | isRunning => rfl
  | getTasksProcessed => rfl
  | setStorageManager sm => rfl
  | processTask task =>
    simp only [WorkerOp.exec, WorkerOp.isProcessTask, if_true]
    unfold Worker.ProcessTask
    cases w.processor <;> rfl

theorem runWorkerOps_counter {W : Type} (ops : List (WorkerOp W)) (w : Worker W) (v : W)
    (h0 : 0 ≤ w.tasksProcessed)
    (hlt : w.tasksProcessed + (ops.countP WorkerOp.isProcessTask : Int) < 2 ^ 63) :
    (runWorkerOps ops w v).1.tasksProcessed =
      w.tasksProcessed + (ops.countP WorkerOp.isProcessTask : Int) := by
  induction ops generalizing w v with
  | nil => simp [runWorkerOps]
  | cons op ops ih =>
    simp only [runWorkerOps]
    have hc := WorkerOp.exec_counter op w v
    cases hp : op.isProcessTask with
    | false =>
      rw [hp] at hc
      simp only [Bool.false_eq_true, if_false] at hc
      have hcount : (op :: ops).countP WorkerOp.isProcessTask =
          ops.countP WorkerOp.isProcessTask := by
        rw [List.countP_cons, hp]
        simp
      rw [hcount] at hlt ⊢
      rw [ih _ _ (by rw [hc]; exact h0) (by rw [hc]; exact hlt), hc]
    | true =>
      rw [hp] at hc
      simp only [if_true] at hc
      have hcount : (op :: ops).countP WorkerOp.isProcessTask =
          ops.countP WorkerOp.isProcessTask + 1 := by
        rw [List.countP_cons, hp]
        simp
      rw [hcount] at hlt ⊢
      push_cast at hlt ⊢
      have hinc : incInt64 w.tasksProcessed = w.tasksProcessed + 1 :=
        incInt64_of_ne _ (by omega)
      rw [hinc] at hc
      rw [ih _ _ (by rw [hc]; omega) (by rw [hc]; omega), hc]
      omega

/-- C22: the counter of the worker that `NewWorker` returns is 0; `Start`,
`Stop` and `SetStorageManager` leave the counter as it is (`IsRunning` and
`GetTasksProcessed` only read); a call of `ProcessTask` on a worker whose
counter is not the largest `int64` raises `GetTasksProcessed` by exactly 1,
whatever the handler returns; and after any calls on a new worker of which
fewer than `2 ^ 63` are calls of `ProcessTask`, the counter is the number of
the calls of `ProcessTask`. -/
theorem tasksProcessed_counts_ProcessTask_calls {W : Type} (id : String)
    (processor : Option (TaskProcessor W)) (w : Worker W) (sm : StorageManager W)
    (task : TaskMessage) (v : W) (ops : List (WorkerOp W)) :
    (NewWorker id processor).GetTasksProcessed = 0 ∧
    w.Start.GetTasksProcessed = w.GetTasksProcessed ∧
    w.Stop.GetTasksProcessed = w.GetTasksProcessed ∧
    (w.SetStorageManager sm).GetTasksProcessed = w.GetTasksProcessed ∧
    (w.GetTasksProcessed ≠ 2 ^ 63 - 1 →
      (w.ProcessTask task v).1.GetTasksProcessed = w.GetTasksProcessed + 1) ∧
    ((ops.countP WorkerOp.isProcessTask : Int) < 2 ^ 63 →
      (runWorkerOps ops (NewWorker id processor) v).1.GetTasksProcessed =
        ops.countP WorkerOp.isProcessTask) := by
  refine ⟨rfl, rfl, rfl, rfl, ?_, ?_⟩
  · intro h
    have hc := WorkerOp.exec_counter (WorkerOp.processTask task) w v
    simp only [WorkerOp.exec, WorkerOp.isProcessTask, if_true] at hc
    unfold Worker.GetTasksProcessed at h ⊢
    rw [hc, incInt64_of_ne _ h]
  · intro h
    have h0 : (NewWorker id processor).tasksProcessed = 0 := rfl
    unfold Worker.GetTasksProcessed
    rw [runWorkerOps_counter ops _ v (by rw [h0]) (by rw [h0]; omega), h0]
    omega

/-- Witness of C22: a new worker with the default handlers is started, handles
a delete task that fails for want of a storage manager and a cleanup task
that succeeds, and is stopped: its counter is 2. -/
theorem tasksProcessed_counts_ProcessTask_calls_witness :
    ((NewWorker "worker-1" none).Start.ProcessTask (task "delete_from_storage" "a") ()).2.ret =
      some "storage manager not available" ∧
    ((NewWorker "worker-1" none).Start.ProcessTask
      (task "delete_from_storage" "a") ()).1.GetTasksProcessed = 0 + 1 ∧
    (runWorkerOps [WorkerOp.start, WorkerOp.processTask (task "delete_from_storage" "a"),
      WorkerOp.isRunning, WorkerOp.processTask (task "cleanup" "b"), WorkerOp.stop]
      (NewWorker "worker-1" none) ()).1.GetTasksProcessed = 2 :=
  have h := tasksProcessed_counts_ProcessTask_calls "worker-1" none
    (NewWorker "worker-1" none).Start ⟨[]⟩ (task "delete_from_storage" "a") ()
    [WorkerOp.start, WorkerOp.processTask (task "delete_from_storage" "a"),
      WorkerOp.isRunning, WorkerOp.processTask (task "cleanup" "b"), WorkerOp.stop]
  ⟨rfl, h.2.2.2.2.1 (by decide), h.2.2.2.2.2 (by decide)⟩

end queue

/-! ## Theorems: the upload flow -/

namespace s3

open fixture storage metadata

theorem SaveMetadata_db (jsonMarshal : List String → Except String String)
    (dm : DatabaseManager) (entry : MetadataEntry) :
    ((dm.SaveMetadata jsonMarshal entry).1 = none →
      dm.db.closed = false ∧
      ∃ text, jsonMarshal entry.StorageNodes = .ok text ∧
        (dm.SaveMetadata jsonMarshal entry).2.db.metadata =
          dm.db.metadata.filter (fun r => r.id ≠ entry.ID ∧ r.key ≠ entry.Key) ++
            [⟨entry.ID, entry.Key, entry.Size, entry.ContentType, entry.MD5Hash, text,
              entry.CreatedAt, entry.UpdatedAt⟩]) ∧
    ((dm.SaveMetadata jsonMarshal entry).1 ≠ none → (dm.SaveMetadata jsonMarshal entry).2 = dm) := by
  unfold DatabaseManager.SaveMetadata sql.DB.insertOrReplace
  cases hj : jsonMarshal entry.StorageNodes with
  | error err =>
    simp only
    exact ⟨fun h => Option.noConfusion h, fun _ => trivial⟩
  | ok text =>
    simp only
    cases hc : dm.db.closed with
    | true =>
      simp only [if_true]
      refine ⟨fun h => Option.noConfusion h, fun _ => ?_⟩
      cases dm
      trivial
    | false =>
      simp only [Bool.false_eq_true, if_false]
      exact ⟨fun _ => ⟨trivial, text, rfl, rfl⟩, fun h => absurd rfl h⟩

theorem MetaService_SaveMetadata_db (jsonMarshal : List String → Except String String)
    (now : Nat) (ms : MetaService) (obj : FileObject) (storageNodes : List String) :
    ((ms.SaveMetadata jsonMarshal now obj storageNodes).1 = none →
      ∃ text, jsonMarshal storageNodes = .ok text ∧
        (ms.SaveMetadata jsonMarshal now obj storageNodes).2.db.db.metadata =
          ms.db.db.metadata.filter (fun r => r.id ≠ obj.ID ∧ r.key ≠ obj.Key) ++
            [⟨obj.ID, obj.Key, obj.Size, obj.ContentType, obj.MD5Hash, text, obj.CreatedAt,
              now⟩]) ∧
    ((ms.SaveMetadata jsonMarshal now obj storageNodes).1 ≠ none →
      (ms.SaveMetadata jsonMarshal now obj storageNodes).2 = ms) := by
  have h := SaveMetadata_db jsonMarshal ms.db
    ⟨obj.ID, obj.Key, obj.Size, obj.ContentType, obj.MD5Hash, storageNodes, obj.CreatedAt, now⟩
  unfold MetaService.SaveMetadata
  simp only
  cases hs : ms.db.SaveMetadata jsonMarshal
      ⟨obj.ID, obj.Key, obj.Size, obj.ContentType, obj.MD5Hash, storageNodes, obj.CreatedAt,
        now⟩ with
  | mk err dm =>
    rw [hs] at h
    cases err with
    | some e =>
      simp only
      refine ⟨fun h0 => Option.noConfusion h0, fun _ => ?_⟩
      have := h.2 (fun h0 => Option.noConfusion h0)
      simp only at this
      rw [this]
    | none =>
      simp only
      refine ⟨fun _ => ?_, fun h0 => absurd rfl h0⟩
      obtain ⟨_, text, h1, h2⟩ := h.1 rfl
      exact ⟨text, h1, h2⟩

/-- What `ExecuteUploadFlow` does after `WriteToAllNodes`. -/
theorem ExecuteUploadFlow_eq {W : Type} (jsonMarshal : List String → Except String String)
    (now : Nat) (s : Service W MetaService) (fileObj : FileObject) (v : W) :
    (s.ExecuteUploadFlow jsonMarshal now fileObj v).calls =
      (s.storageManager.WriteToAllNodes fileObj v).calls ∧
    (s.ExecuteUploadFlow jsonMarshal now fileObj v).world =
      (s.storageManager.WriteToAllNodes fileObj v).world ∧
    (∀ e, (s.storageManager.WriteToAllNodes fileObj v).ret = some e →
      (s.ExecuteUploadFlow jsonMarshal now fileObj v).err =
        some ("failed to write to storage nodes: " ++ e) ∧
      (s.ExecuteUploadFlow jsonMarshal now fileObj v).saves = [] ∧
      (s.ExecuteUploadFlow jsonMarshal now fileObj v).service = s) ∧
    ((s.storageManager.WriteToAllNodes fileObj v).ret = none →
      (s.ExecuteUploadFlow jsonMarshal now fileObj v).saves =
        [⟨fileObj, s.storageManager.GetNodeIDs,
          (s.metadataService.SaveMetadata jsonMarshal now fileObj
            s.storageManager.GetNodeIDs).1⟩] ∧
      (s.ExecuteUploadFlow jsonMarshal now fileObj v).service =
        ⟨s.storageManager, (s.metadataService.SaveMetadata jsonMarshal now fileObj
          s.storageManager.GetNodeIDs).2, s.queueManager⟩ ∧
      (s.ExecuteUploadFlow jsonMarshal now fileObj v).err =
        (s.metadataService.SaveMetadata jsonMarshal now fileObj
          s.storageManager.GetNodeIDs).1.map (fun e => "failed to save metadata: " ++ e)) := by
  unfold Service.ExecuteUploadFlow
  simp only
  cases hw : (s.storageManager.WriteToAllNodes fileObj v).ret with
  | some e =>
    simp only
    exact ⟨trivial, trivial, fun e0 he => by cases he; exact ⟨rfl, trivial, trivial⟩,
      fun h => Option.noConfusion h⟩
  | none =>
    simp only
    cases hm : (s.metadataService.SaveMetadata jsonMarshal now fileObj
        s.storageManager.GetNodeIDs).1 with
    | some e =>
      simp only
      exact ⟨trivial, trivial, fun e0 he => Option.noConfusion he,
        fun _ => ⟨trivial, trivial, rfl⟩⟩
    | none =>
      simp only
      exact ⟨trivial, trivial, fun e0 he => Option.noConfusion he,
        fun _ => ⟨trivial, trivial, rfl⟩⟩

end s3

namespace s3

open fixture storage metadata

/-- Counterexample of C23: the first of two nodes fails and the second accepts
the write of `hello`. The upload flow returns `nil`; the `Write` on stg1
returned an error, and the record saved for the key lists stg1 before stg2. -/
theorem ExecuteUploadFlow_lists_failed_node_counterexample :
    ((oneDown emptyMeta).ExecuteUploadFlow jsonIDs 7 helloHashed ()).err = none ∧
    ((oneDown emptyMeta).ExecuteUploadFlow jsonIDs 7 helloHashed ()).calls =
      [Call.Write 0 helloHashed (some "node down"), Call.Write 1 helloHashed none] ∧
    ((oneDown emptyMeta).ExecuteUploadFlow jsonIDs 7 helloHashed
      ()).service.metadataService.db.db.metadata =
      [⟨"id-1", "b/obj1", 5, "text/plain", "5d41402abc4b2a76b9719d911017c592",
        "[" ++ String.singleton (Char.ofNat 34) ++ "stg1" ++ String.singleton (Char.ofNat 34) ++
          "," ++ String.singleton (Char.ofNat 34) ++ "stg2" ++ String.singleton (Char.ofNat 34) ++
          "]", 0, 7⟩] ∧
    ((oneDown emptyMeta).ExecuteUploadFlow jsonIDs 7 helloHashed
      ()).service.metadataService.db.db.metadata.map
        (fun r => (Except.ok r.storage_nodes : Except String String)) =
      [jsonIDs ["stg1", "stg2"]] := by
  refine ⟨by decide, by decide, by decide, rfl⟩

/-- C23, amended: when `ExecuteUploadFlow` returns `nil`, the table of the
metadata service is the table before it without the rows that had the id or the
key of the object, followed by the record of the object, whose node-id list is
the JSON text of the ids of all nodes of the manager in list order, whether
their `Write` returned an error or not; there is one call `Write` per node, and
for at least one node the `Write` returned `nil`. -/
theorem ExecuteUploadFlow_persists_all_node_ids {W : Type}
    (jsonMarshal : List String → Except String String) (now : Nat)
    (s : Service W MetaService) (fileObj : FileObject) (v : W)
    (hok : (s.ExecuteUploadFlow jsonMarshal now fileObj v).err = none) :
    (∃ text, jsonMarshal (s.storageManager.nodes.map (fun node => node.GetNodeID)) = .ok text ∧
      (s.ExecuteUploadFlow jsonMarshal now fileObj v).service.metadataService.db.db.metadata =
        s.metadataService.db.db.metadata.filter
            (fun r => r.id ≠ fileObj.ID ∧ r.key ≠ fileObj.Key) ++
          [⟨fileObj.ID, fileObj.Key, fileObj.Size, fileObj.ContentType, fileObj.MD5Hash, text,
            fileObj.CreatedAt, now⟩]) ∧
    (s.ExecuteUploadFlow jsonMarshal now fileObj v).calls.length =
      s.storageManager.nodes.length ∧
    (∃ (k : Nat) (node : StorageNode W), s.storageManager.nodes[k]? = some node ∧
      (node.Write fileObj ((s.storageManager.nodes.take k).foldl
        (fun u n => (n.Write fileObj u).world) v)).err = none) := by
  obtain ⟨h1, _, h3, h4⟩ := ExecuteUploadFlow_eq jsonMarshal now s fileObj v
  obtain ⟨errs, e1, e2, _, e4, _, e6⟩ := WriteToAllNodes_run s.storageManager fileObj v
  have hw : (s.storageManager.WriteToAllNodes fileObj v).ret = none := by
    cases hr : (s.storageManager.WriteToAllNodes fileObj v).ret with
    | none => rfl
    | some e =>
      rw [(h3 e hr).1] at hok
      cases hok
  obtain ⟨_, g2, g3⟩ := h4 hw
  have hs : (s.metadataService.SaveMetadata jsonMarshal now fileObj
      s.storageManager.GetNodeIDs).1 = none := by
    rw [g3] at hok
    cases hm : (s.metadataService.SaveMetadata jsonMarshal now fileObj
        s.storageManager.GetNodeIDs).1 with
    | none => rfl
    | some e =>
      rw [hm] at hok
      cases hok
  refine ⟨?_, ?_, ?_⟩
  · obtain ⟨text, t1, t2⟩ :=
      (MetaService_SaveMetadata_db jsonMarshal now s.metadataService fileObj
        s.storageManager.GetNodeIDs).1 hs
    refine ⟨text, t1, ?_⟩
    rw [g2]
    exact t2
  · rw [h1, e2, length_writeCalls, e1]
  · obtain ⟨k, hk⟩ := List.mem_iff_getElem?.1 (e4.1 hw)
    have hlt : k < s.storageManager.nodes.length := by
      rw [← e1]
      exact (List.getElem?_eq_some_iff.1 hk).1
    refine ⟨k, s.storageManager.nodes[k], List.getElem?_eq_getElem hlt, ?_⟩
    have := e6 k _ (List.getElem?_eq_getElem hlt)
    rw [hk] at this
    injection this with this
    exact this.symm

/-- Witness of C23: the flow of the service whose first node fails. -/
theorem ExecuteUploadFlow_persists_all_node_ids_witness :
    ∃ text, jsonIDs ((oneDown emptyMeta).storageManager.nodes.map (fun node => node.GetNodeID)) =
        .ok text ∧
      ((oneDown emptyMeta).ExecuteUploadFlow jsonIDs 7 helloHashed
        ()).service.metadataService.db.db.metadata =
        (emptyMeta.db.db.metadata.filter
            (fun r => r.id ≠ helloHashed.ID ∧ r.key ≠ helloHashed.Key) ++
          [⟨helloHashed.ID, helloHashed.Key, helloHashed.Size, helloHashed.ContentType,
            helloHashed.MD5Hash, text, helloHashed.CreatedAt, 7⟩]) :=
  (ExecuteUploadFlow_persists_all_node_ids jsonIDs 7 (oneDown emptyMeta) helloHashed ()
    (by decide)).1

/-- C25: `ExecuteUploadFlow` makes the calls of `WriteToAllNodes` and leaves
its world. When `WriteToAllNodes` returns an error, the flow returns that error
after a fixed text, makes no call of `SaveMetadata` and leaves the service, the
metadata service in it, as it was. When `WriteToAllNodes` returns `nil`, the
flow makes one call of `SaveMetadata`, with the object and the ids of the nodes,
and leaves the metadata service as that call leaves it; the flow returns `nil`
exactly when the call does, and else the error of the call after a fixed text.
The record of a call that returns `nil` has the id, key, size, content type and
hash of the object. -/
theorem ExecuteUploadFlow_saves_after_write {W : Type}
    (jsonMarshal : List String → Except String String) (now : Nat)
    (s : Service W MetaService) (fileObj : FileObject) (v : W) :
    (s.ExecuteUploadFlow jsonMarshal now fileObj v).calls =
      (s.storageManager.WriteToAllNodes fileObj v).calls ∧
    (s.ExecuteUploadFlow jsonMarshal now fileObj v).world =
      (s.storageManager.WriteToAllNodes fileObj v).world ∧
    (∀ e, (s.storageManager.WriteToAllNodes fileObj v).ret = some e →
      (s.ExecuteUploadFlow jsonMarshal now fileObj v).err =
        some ("failed to write to storage nodes: " ++ e) ∧
      (s.ExecuteUploadFlow jsonMarshal now fileObj v).saves = [] ∧
      (s.ExecuteUploadFlow jsonMarshal now fileObj v).service = s) ∧
    ((s.storageManager.WriteToAllNodes fileObj v).ret = none →
      (s.ExecuteUploadFlow jsonMarshal now fileObj v).saves =
        [⟨fileObj, s.storageManager.GetNodeIDs,
          (s.metadataService.SaveMetadata jsonMarshal now fileObj
            s.storageManager.GetNodeIDs).1⟩] ∧
      (s.ExecuteUploadFlow jsonMarshal now fileObj v).service.metadataService =
        (s.metadataService.SaveMetadata jsonMarshal now fileObj
          s.storageManager.GetNodeIDs).2 ∧
      ((s.ExecuteUploadFlow jsonMarshal now fileObj v).err = none ↔
        (s.metadataService.SaveMetadata jsonMarshal now fileObj
          s.storageManager.GetNodeIDs).1 = none) ∧
      (∀ e, (s.metadataService.SaveMetadata jsonMarshal now fileObj
          s.storageManager.GetNodeIDs).1 = some e →
        (s.ExecuteUploadFlow jsonMarshal now fileObj v).err =
          some ("failed to save metadata: " ++ e)) ∧
      ((s.metadataService.SaveMetadata jsonMarshal now fileObj
          s.storageManager.GetNodeIDs).1 = none →
        ∃ text, (s.ExecuteUploadFlow jsonMarshal now fileObj
            v).service.metadataService.db.db.metadata.getLast? =
          some ⟨fileObj.ID, fileObj.Key, fileObj.Size, fileObj.ContentType, fileObj.MD5Hash,
            text, fileObj.CreatedAt, now⟩)) := by
  obtain ⟨h1, h2, h3, h4⟩ := ExecuteUploadFlow_eq jsonMarshal now s fileObj v
  refine ⟨h1, h2, h3, ?_⟩
  intro hw
  obtain ⟨g1, g2, g3⟩ := h4 hw
  refine ⟨g1, by rw [g2], ?_, ?_, ?_⟩
  · rw [g3]
    cases (s.metadataService.SaveMetadata jsonMarshal now fileObj
      s.storageManager.GetNodeIDs).1 <;> simp
  · intro e he
    rw [g3, he]
    rfl
  · intro hs
    obtain ⟨text, _, t2⟩ :=
      (MetaService_SaveMetadata_db jsonMarshal now s.metadataService fileObj
        s.storageManager.GetNodeIDs).1 hs
    refine ⟨text, ?_⟩
    rw [g2]
    simp only
    rw [t2]
    simp

/-- Witness of C25: with both nodes down the flow fails and an open database
keeps its rows; with one node down and the database closed the flow fails with
the error of the one call of `SaveMetadata`. -/
theorem ExecuteUploadFlow_saves_after_write_witness :
    ((allDown emptyMeta).ExecuteUploadFlow jsonIDs 7 helloHashed ()).err =
      some "failed to write to storage nodes: failed to write to any storage node, last error: node down" ∧
    ((allDown emptyMeta).ExecuteUploadFlow jsonIDs 7 helloHashed ()).saves = [] ∧
    ((oneDown ⟨⟨⟨true, []⟩⟩⟩).ExecuteUploadFlow jsonIDs 7 helloHashed ()).err =
      some ("failed to save metadata: " ++
        "failed to save metadata: failed to insert metadata: sql: database is closed") ∧
    ((oneDown emptyMeta).ExecuteUploadFlow jsonIDs 7 helloHashed ()).saves =
      [⟨helloHashed, ["stg1", "stg2"], none⟩] :=
  have h1 := ExecuteUploadFlow_saves_after_write jsonIDs 7 (allDown emptyMeta) helloHashed ()
  have h2 := ExecuteUploadFlow_saves_after_write jsonIDs 7 (oneDown ⟨⟨⟨true, []⟩⟩⟩)
    helloHashed ()
  ⟨(h1.2.2.1 "failed to write to any storage node, last error: node down" (by decide)).1,
    (h1.2.2.1 "failed to write to any storage node, last error: node down" (by decide)).2.1,
    (h2.2.2.2 (by decide)).2.2.2.1
      "failed to save metadata: failed to insert metadata: sql: database is closed" (by decide),
    by decide⟩

end s3

/-! ## Theorems: the primary marker -/

namespace storage

open fixture

/-- C24: when the first node of the list has an id other than `stg1`,
`ReadFromStg1OrThirdParty` is the part after the attempt on stg1, entered in the
same world with no call made: no call of `Read` is among its calls, whatever the
other nodes are named and whatever the first node holds. Without a third-party
source it returns the error of the missing source and makes no call; with one,
its only call is `GetObject` of the key, and it returns the object of that call
with `nil` when the call returned no error and else no object with the error of
the call after the fixed text. -/
theorem ReadFromStg1OrThirdParty_reads_only_first_node_named_stg1 {W : Type} (sm : Manager W)
    (key : String) (w : W) (node : StorageNode W) (rest : List (StorageNode W))
    (hnodes : sm.nodes = node :: rest) (hid : node.GetNodeID ≠ "stg1") :
    sm.ReadFromStg1OrThirdParty key w = sm.readThirdParty key w [] ∧
    (∀ (i : Nat) (k : String) (o : Option FileObject) (e : Option String),
      Call.Read i k o e ∉ (sm.ReadFromStg1OrThirdParty key w).calls) ∧
    (sm.thirdPartyService = none →
      (sm.ReadFromStg1OrThirdParty key w).calls = [] ∧
      (sm.ReadFromStg1OrThirdParty key w).world = w ∧
      (sm.ReadFromStg1OrThirdParty key w).ret =
        (none, some ("failed to read file " ++ key ++
          " from stg1 and no third party service configured"))) ∧
    (∀ service, sm.thirdPartyService = some service →
      (sm.ReadFromStg1OrThirdParty key w).calls =
        [Call.GetObject key (service.GetObject key w).obj (service.GetObject key w).err] ∧
      (sm.ReadFromStg1OrThirdParty key w).world = (service.GetObject key w).world ∧
      ((service.GetObject key w).err = none →
        (sm.ReadFromStg1OrThirdParty key w).ret = ((service.GetObject key w).obj, none)) ∧
      (∀ e, (service.GetObject key w).err = some e →
        (sm.ReadFromStg1OrThirdParty key w).ret =
          (none, some ("failed to get object from third party service: " ++ e)))) := by
  have h0 : sm.ReadFromStg1OrThirdParty key w = sm.readThirdParty key w [] := by
    unfold Manager.ReadFromStg1OrThirdParty
    rw [hnodes]
    simp only [hid, if_false]
  rw [h0]
  unfold Manager.readThirdParty
  refine ⟨rfl, ?_, ?_, ?_⟩
  · intro i k o e
    cases sm.thirdPartyService with
    | none => simp
    | some service =>
      simp only
      cases (service.GetObject key w).err <;> simp
  · intro hs
    rw [hs]
    exact ⟨rfl, rfl, rfl⟩
  · intro service hs
    rw [hs]
    simp only
    cases he : (service.GetObject key w).err with
    | none => simp
    | some e => simp

/-- Witness of C24: the first node is named `stg2` and holds the key, the second
is named `stg1` and holds it too; the source fails, and so does the read. -/
theorem ReadFromStg1OrThirdParty_reads_only_first_node_named_stg1_witness :
    ((Manager.mk [holdingNode Unit "stg2" hello, holdingNode Unit "stg1" hello]
        (some (failingSource Unit "source down"))).ReadFromStg1OrThirdParty "b/obj1" ()).calls =
      [Call.GetObject "b/obj1" none (some "source down")] ∧
    ((Manager.mk [holdingNode Unit "stg2" hello, holdingNode Unit "stg1" hello]
        (some (failingSource Unit "source down"))).ReadFromStg1OrThirdParty "b/obj1" ()).ret =
      (none, some "failed to get object from third party service: source down") :=
  have h := ReadFromStg1OrThirdParty_reads_only_first_node_named_stg1
    (Manager.mk [holdingNode Unit "stg2" hello, holdingNode Unit "stg1" hello]
      (some (failingSource Unit "source down"))) "b/obj1" ()
    (holdingNode Unit "stg2" hello) [holdingNode Unit "stg1" hello] rfl (by decide)
  ⟨(h.2.2.2 (failingSource Unit "source down") rfl).1,
    (h.2.2.2 (failingSource Unit "source down") rfl).2.2.2 "source down" rfl⟩

end storage

/-! ## Theorems: what a read returns -/

namespace storage

open fixture os filepath

end storage

/-! ## Theorems: the delete handler and its task -/

namespace queue

open fixture storage

/-- C27: with an empty node list the handler of `delete_from_storage`, for a
task whose data holds a key as a string and a worker whose storage manager is
that manager, returns `nil`, calls no node and leaves the world as it is, and
so does `defaultProcess` for a task of that kind; `WriteToAllNodes` of the same
manager returns, for every object, the error that no node was written, calls no
node and leaves the world as it is. -/
theorem empty_node_list_delete_succeeds_and_write_fails {W : Type} (w : Worker W)
    (sm : storage.Manager W) (task : TaskMessage) (key : String) (obj : FileObject) (v : W)
    (hnodes : sm.nodes = [])
    (hsm : w.storageManager = some sm.asStorageManager)
    (hkey : task.Data.lookup "key" = some (Any.string key)) :
    (w.processDeleteFromStorage task v).ret = none ∧
    (w.processDeleteFromStorage task v).calls = [] ∧
    (w.processDeleteFromStorage task v).world = v ∧
    (task.Type' = "delete_from_storage" → (w.defaultProcess task v).ret = none) ∧
    (sm.WriteToAllNodes obj v).ret =
      some "failed to write to any storage node, last error: <nil>" ∧
    (sm.WriteToAllNodes obj v).calls = [] ∧
    (sm.WriteToAllNodes obj v).world = v := by
  have hd : w.processDeleteFromStorage task v = ⟨none, v, []⟩ := by
    unfold Worker.processDeleteFromStorage
    rw [hkey, hsm]
    simp only [Manager.asStorageManager, Manager.GetNodes, hnodes, deleteLoop]
    rfl
  have hw : sm.WriteToAllNodes obj v =
      ⟨some "failed to write to any storage node, last error: <nil>", v, []⟩ := by
    unfold Manager.WriteToAllNodes Manager.writeLoopEnd
    rw [hnodes]
    rfl
  rw [hd, hw]
  refine ⟨rfl, rfl, rfl, ?_, rfl, rfl, rfl⟩
  intro ht
  unfold Worker.defaultProcess
  rw [ht, if_neg (by decide), if_neg (by decide), if_neg (by decide), if_pos rfl, hd]

/-- Witness of C27: a manager without nodes, and the task for the key `b/obj1`. -/
theorem empty_node_list_delete_succeeds_and_write_fails_witness :
    (((NewWorker "worker-1" none).SetStorageManager
        (storage.Manager.mk ([] : List (StorageNode Unit)) none).asStorageManager).defaultProcess
      (task "delete_from_storage" "b/obj1") ()).ret = none ∧
    ((storage.Manager.mk ([] : List (StorageNode Unit)) none).WriteToAllNodes hello ()).ret =
      some "failed to write to any storage node, last error: <nil>" :=
  have h := empty_node_list_delete_succeeds_and_write_fails
    ((NewWorker "worker-1" none).SetStorageManager
      (storage.Manager.mk ([] : List (StorageNode Unit)) none).asStorageManager)
    (storage.Manager.mk ([] : List (StorageNode Unit)) none)
    (task "delete_from_storage" "b/obj1") "b/obj1" hello () rfl rfl rfl
  ⟨h.2.2.2.1 rfl, h.2.2.2.2.1⟩

end queue

namespace s3

open fixture storage queue

/-- C28: `processDeleteFromStorage` returns an error, calls no node and leaves
the world as it is when the data of the task has no entry `key` or the entry is
not a string, and when the entry is a string and the worker has no storage
manager. `EnqueueDeleteTask` calls `Enqueue` with a task of the kind
`delete_from_storage` whose data holds the object key as a string under `key`;
for that task and a worker with a storage manager the calls of the handler are
the calls `Delete` of that key, one on every node in list order. -/
theorem EnqueueDeleteTask_task_carries_key {W M : Type} (w : Worker W) (task : TaskMessage)
    (v : W) (s : Service W M) (now : Nat) (objectKey : String) :
    ((∀ key, task.Data.lookup "key" ≠ some (Any.string key)) →
      (w.processDeleteFromStorage task v).ret = some "invalid key in delete task data" ∧
      (w.processDeleteFromStorage task v).calls = [] ∧
      (w.processDeleteFromStorage task v).world = v) ∧
    (w.storageManager = none →
      (w.processDeleteFromStorage task v).ret ≠ none ∧
      (w.processDeleteFromStorage task v).calls = [] ∧
      (w.processDeleteFromStorage task v).world = v) ∧
    ((∃ key, task.Data.lookup "key" = some (Any.string key)) → w.storageManager = none →
      (w.processDeleteFromStorage task v).ret = some "storage manager not available") ∧
    (s.EnqueueDeleteTask now objectKey).1 =
      (s.queueManager.Enqueue
        ⟨"delete_from_storage", objectKey, [("key", Any.string objectKey)], now⟩).1 ∧
    (s.EnqueueDeleteTask now objectKey).2.queueManager =
      (s.queueManager.Enqueue
        ⟨"delete_from_storage", objectKey, [("key", Any.string objectKey)], now⟩).2 ∧
    (TaskMessage.mk "delete_from_storage" objectKey [("key", Any.string objectKey)]
      now).Data.lookup "key" = some (Any.string objectKey) ∧
    (∀ sm, w.storageManager = some sm →
      (w.defaultProcess ⟨"delete_from_storage", objectKey, [("key", Any.string objectKey)], now⟩
        v).calls = deleteCalls objectKey 0 (sequentialDeleteErrors objectKey sm.GetNodes v)) := by
  have hbad : (∀ key, task.Data.lookup "key" ≠ some (Any.string key)) →
      w.processDeleteFromStorage task v = ⟨some "invalid key in delete task data", v, []⟩ := by
    intro h
    unfold Worker.processDeleteFromStorage
    cases hl : task.Data.lookup "key" with
    | none => rfl
    | some a =>
      cases a with
      | string key => exact absurd hl (h key)
      | nil => rfl
      | int n => rfl
      | bool b => rfl
  refine ⟨?_, ?_, ?_, rfl, rfl, rfl, ?_⟩
  · intro h
    rw [hbad h]
    exact ⟨rfl, rfl, rfl⟩
  · intro hsm
    by_cases h : ∃ key, task.Data.lookup "key" = some (Any.string key)
    · obtain ⟨key, hk⟩ := h
      unfold Worker.processDeleteFromStorage
      rw [hk, hsm]
      exact ⟨fun h => Option.noConfusion h, rfl, rfl⟩
    · rw [hbad (fun key hk => h ⟨key, hk⟩)]
      exact ⟨fun h => Option.noConfusion h, rfl, rfl⟩
  · rintro ⟨key, hk⟩ hsm
    unfold Worker.processDeleteFromStorage
    rw [hk, hsm]
  · intro sm hsm
    have hd : w.defaultProcess
        ⟨"delete_from_storage", objectKey, [("key", Any.string objectKey)], now⟩ v =
        w.processDeleteFromStorage
          ⟨"delete_from_storage", objectKey, [("key", Any.string objectKey)], now⟩ v := by
      unfold Worker.defaultProcess
      simp only
      rw [if_neg (by decide), if_neg (by decide), if_neg (by decide), if_pos trivial]
    rw [hd]
    exact (processDeleteFromStorage_eq w
      ⟨"delete_from_storage", objectKey, [("key", Any.string objectKey)], now⟩ v objectKey sm rfl
      hsm).1

/-- Witness of C28: a task without the entry `key`, a task whose `key` is a
number, a worker without a storage manager, and the task that
`EnqueueDeleteTask` hands to `Enqueue` handled by a worker with two nodes. -/
theorem EnqueueDeleteTask_task_carries_key_witness :
    ((NewWorker "worker-1" none).processDeleteFromStorage
      ⟨"delete_from_storage", "b/obj1", [], 0⟩ ()).ret =
      some "invalid key in delete task data" ∧
    ((NewWorker "worker-1" none).processDeleteFromStorage
      ⟨"delete_from_storage", "b/obj1", [("key", Any.int 7)], 0⟩ ()).ret =
      some "invalid key in delete task data" ∧
    ((NewWorker "worker-1" none).processDeleteFromStorage
      (task "delete_from_storage" "b/obj1") ()).ret = some "storage manager not available" ∧
    (((NewWorker "worker-1" none).SetStorageManager
        ⟨[failingNode Unit "stg1" "node down", acceptingNode Unit "stg2"]⟩).defaultProcess
      ⟨"delete_from_storage", "b/obj1", [("key", Any.string "b/obj1")], 0⟩ ()).calls =
      [Call.Delete 0 "b/obj1" (some "node down"), Call.Delete 1 "b/obj1" none] :=
  ⟨((@EnqueueDeleteTask_task_carries_key Unit Unit (NewWorker "worker-1" none)
      ⟨"delete_from_storage", "b/obj1", [], 0⟩ () ⟨⟨[], none⟩, (), newQueue 2⟩ 0 "b/obj1").1
      (fun _ h => Option.noConfusion h)).1,
    ((@EnqueueDeleteTask_task_carries_key Unit Unit (NewWorker "worker-1" none)
      ⟨"delete_from_storage", "b/obj1", [("key", Any.int 7)], 0⟩ () ⟨⟨[], none⟩, (), newQueue 2⟩
      0 "b/obj1").1 (fun _ h => Any.noConfusion (Option.some.inj h))).1,
    (@EnqueueDeleteTask_task_carries_key Unit Unit (NewWorker "worker-1" none)
      (task "delete_from_storage" "b/obj1") () ⟨⟨[], none⟩, (), newQueue 2⟩ 0 "b/obj1").2.2.1
      ⟨"b/obj1", rfl⟩ rfl,
    by decide⟩

end s3

/-! ## Theorems: the result of the delete handler -/

namespace queue

open fixture os storage filepath

theorem mem_sequentialDeleteErrors {W : Type} (key : String) (ns : List (StorageNode W))
    (v : W) (e : Option String) :
    e ∈ sequentialDeleteErrors key ns v ↔
      ∃ (k : Nat) (node : StorageNode W), ns[k]? = some node ∧
        (node.Delete key ((ns.take k).foldl (fun u n => (n.Delete key u).world) v)).err = e := by
  constructor
  · intro h
    obtain ⟨k, hk⟩ := List.mem_iff_getElem?.1 h
    have hlt : k < ns.length := by
      rw [← length_sequentialDeleteErrors key ns v]
      exact (List.getElem?_eq_some_iff.1 hk).1
    have := getElem?_sequentialDeleteErrors key ns v k ns[k] (List.getElem?_eq_getElem hlt)
    rw [hk] at this
    injection this with this
    exact ⟨k, ns[k], List.getElem?_eq_getElem hlt, this.symm⟩
  · rintro ⟨k, node, hk, he⟩
    have := getElem?_sequentialDeleteErrors key ns v k node hk
    rw [he] at this
    exact List.mem_iff_getElem?.2 ⟨k, this⟩

/-- Counterexample of C13: the one node stg1 holds `b/obj1` and no object under
the key `b` (its `Read` of `b` fails), yet its `Delete` of `b` fails because the
directory of `b` is not empty, and the handler of the delete task for `b`
returns the error of all nodes instead of `nil`. -/
theorem processDeleteFromStorage_absent_key_counterexample :
    (stg1.Read md5Hello "b" (stg1.Write md5Hello hello (startedOS 0)).world).obj = none ∧
    (stg1.Read md5Hello "b" (stg1.Write md5Hello hello (startedOS 0)).world).err =
      some "failed to read file data/stg1/b: read data/stg1/b: is a directory" ∧
    (((NewWorker "worker-1" none).SetStorageManager
        ⟨[stg1.asStorageNode md5Hello]⟩).defaultProcess (task "delete_from_storage" "b")
      (stg1.Write md5Hello hello (startedOS 0)).world).ret =
      some ("failed to delete from all storage nodes: " ++
        "failed to delete file data/stg1/b: remove data/stg1/b: directory not empty") := by
  refine ⟨by decide, by decide, by decide⟩

/-- C13, amended: for a task whose data holds the key as a string, handled by a
worker with a storage manager, `processDeleteFromStorage` calls `Delete` of the
key once on every node in list order, each in the world the deletes before it
left. It returns `nil` when the `Delete` of at least one node returned `nil`.
When the node list is not empty and every `Delete` returned an error, it
returns the fixed text followed by the error of the `Delete` on the last node;
and it returns an error only then. It is the handler `defaultProcess` runs for
the kind `delete_from_storage`. The `Delete` of a file node returns `nil` and
changes nothing when the file of the key does not exist. -/
theorem processDeleteFromStorage_result {W : Type} (w : Worker W)
    (task : TaskMessage) (v : W) (key : String) (sm : StorageManager W)
    (hkey : task.Data.lookup "key" = some (Any.string key))
    (hsm : w.storageManager = some sm) :
    (w.processDeleteFromStorage task v).calls.length = sm.GetNodes.length ∧
    (∀ (k : Nat) (node : StorageNode W), sm.GetNodes[k]? = some node →
      (w.processDeleteFromStorage task v).calls[k]? = some (Call.Delete k key (node.Delete key
        ((sm.GetNodes.take k).foldl (fun u n => (n.Delete key u).world) v)).err)) ∧
    (w.processDeleteFromStorage task v).world =
      sm.GetNodes.foldl (fun u n => (n.Delete key u).world) v ∧
    ((∃ (k : Nat) (node : StorageNode W), sm.GetNodes[k]? = some node ∧
        (node.Delete key ((sm.GetNodes.take k).foldl
          (fun u n => (n.Delete key u).world) v)).err = none) →
      (w.processDeleteFromStorage task v).ret = none) ∧
    (∀ last : StorageNode W, sm.GetNodes[sm.GetNodes.length - 1]? = some last →
      (∀ (k : Nat) (node : StorageNode W), sm.GetNodes[k]? = some node →
        (node.Delete key ((sm.GetNodes.take k).foldl
          (fun u n => (n.Delete key u).world) v)).err ≠ none) →
      ∃ e, (last.Delete key ((sm.GetNodes.take (sm.GetNodes.length - 1)).foldl
          (fun u n => (n.Delete key u).world) v)).err = some e ∧
        (w.processDeleteFromStorage task v).ret =
          some ("failed to delete from all storage nodes: " ++ e)) ∧
    ((w.processDeleteFromStorage task v).ret ≠ none →
      sm.GetNodes ≠ [] ∧
      ∀ (k : Nat) (node : StorageNode W), sm.GetNodes[k]? = some node →
        (node.Delete key ((sm.GetNodes.take k).foldl
          (fun u n => (n.Delete key u).world) v)).err ≠ none) ∧
    (task.Type' = "delete_from_storage" →
      w.defaultProcess task v = w.processDeleteFromStorage task v) ∧
    (∀ (fs : FileStorageNode) (u : OS),
      u.resolve (fs.getFilePath key) = .error Errno.ENOENT → fs.Delete key u = ⟨none, u⟩) := by
  obtain ⟨h1, h2, h3, h4⟩ := processDeleteFromStorage_eq w task v key sm hkey hsm
  have hlen := length_sequentialDeleteErrors key sm.GetNodes v
  have hmem := mem_sequentialDeleteErrors key sm.GetNodes v none
  refine ⟨?_, ?_, h2, fun h => h3 (hmem.2 h), ?_, ?_, ?_, ?_⟩
  · rw [h1, length_deleteCalls, hlen]
  · intro k node hk
    rw [h1, getElem?_deleteCalls, getElem?_sequentialDeleteErrors key _ v k node hk]
    simp
  · intro last hlast hall
    have hn : none ∉ sequentialDeleteErrors key sm.GetNodes v := by
      intro hm
      obtain ⟨k, node, hk, he⟩ := hmem.1 hm
      exact hall k node hk he
    have hret := h4 hn
    have hl : (sequentialDeleteErrors key sm.GetNodes v).getLast? =
        some (last.Delete key ((sm.GetNodes.take (sm.GetNodes.length - 1)).foldl
          (fun u n => (n.Delete key u).world) v)).err := by
      rw [List.getLast?_eq_getElem?, hlen]
      exact getElem?_sequentialDeleteErrors key sm.GetNodes v _ last hlast
    rw [hl] at hret
    simp only [Option.getD_some] at hret
    cases he : (last.Delete key ((sm.GetNodes.take (sm.GetNodes.length - 1)).foldl
        (fun u n => (n.Delete key u).world) v)).err with
    | none => exact absurd he (hall _ last hlast)
    | some e =>
      rw [he] at hret
      exact ⟨e, rfl, hret⟩
  · intro hne
    have hn : none ∉ sequentialDeleteErrors key sm.GetNodes v := fun hm => hne (h3 hm)
    constructor
    · intro h0
      apply hne
      rw [h4 hn, h0]
      rfl
    · intro k node hk he
      exact hn (hmem.2 ⟨k, node, hk, he⟩)
  · intro ht
    unfold Worker.defaultProcess
    rw [ht]
    rw [if_neg (by decide), if_neg (by decide), if_neg (by decide), if_pos rfl]
  · intro fs u h
    exact Delete_of_absent fs key u h

/-- Witness of C13: with a failing first node and an accepting second node the
handler returns `nil`; with two failing nodes it returns the error of the
second; and the `Delete` of a key without a file on stg1 returns `nil`, and so
does the handler with stg1 as its only node. -/
theorem processDeleteFromStorage_result_witness :
    (((NewWorker "worker-1" none).SetStorageManager
        ⟨[failingNode Unit "stg1" "node down", acceptingNode Unit "stg2"]⟩).processDeleteFromStorage
      (task "delete_from_storage" "b/obj1") ()).ret = none ∧
    (∃ e, ((failingNode Unit "stg2" "disk full").Delete "b/obj1" ()).err = some e ∧
      (((NewWorker "worker-1" none).SetStorageManager
          ⟨[failingNode Unit "stg1" "node down",
            failingNode Unit "stg2" "disk full"]⟩).processDeleteFromStorage
        (task "delete_from_storage" "b/obj1") ()).ret =
        some ("failed to delete from all storage nodes: " ++ e)) ∧
    (((NewWorker "worker-1" none).SetStorageManager
        ⟨[failingNode Unit "stg1" "node down",
          failingNode Unit "stg2" "disk full"]⟩).processDeleteFromStorage
      (task "delete_from_storage" "b/obj1") ()).ret =
      some "failed to delete from all storage nodes: disk full" ∧
    stg1.Delete "b/obj1" (startedOS 0) = ⟨none, startedOS 0⟩ ∧
    (((NewWorker "worker-1" none).SetStorageManager
        ⟨[stg1.asStorageNode md5Hello]⟩).processDeleteFromStorage
      (task "delete_from_storage" "b/obj1") (startedOS 0)).ret = none :=
  have h1 := processDeleteFromStorage_result
    ((NewWorker "worker-1" none).SetStorageManager
      ⟨[failingNode Unit "stg1" "node down", acceptingNode Unit "stg2"]⟩)
    (task "delete_from_storage" "b/obj1") () "b/obj1"
    ⟨[failingNode Unit "stg1" "node down", acceptingNode Unit "stg2"]⟩ rfl rfl
  have h2 := processDeleteFromStorage_result
    ((NewWorker "worker-1" none).SetStorageManager
      ⟨[failingNode Unit "stg1" "node down", failingNode Unit "stg2" "disk full"]⟩)
    (task "delete_from_storage" "b/obj1") () "b/obj1"
    ⟨[failingNode Unit "stg1" "node down", failingNode Unit "stg2" "disk full"]⟩ rfl rfl
  ⟨h1.2.2.2.1 ⟨1, acceptingNode Unit "stg2", rfl, rfl⟩,
    h2.2.2.2.2.1 (failingNode Unit "stg2" "disk full") rfl (by
      intro k node hk
      match k, hk with
      | 0, hk =>
        simp only [List.getElem?_cons_zero, Option.some.injEq] at hk
        rw [← hk]
        exact fun h => Option.noConfusion h
      | 1, hk =>
        simp only [List.getElem?_cons_succ, List.getElem?_cons_zero, Option.some.injEq] at hk
        rw [← hk]
        exact fun h => Option.noConfusion h
      | k + 2, hk => simp at hk),
    by decide,
    (h1.2.2.2.2.2.2.2 stg1 (startedOS 0)) rfl,
    by decide⟩

end queue

/-! ## Theorems: Stop, statement by statement -/

namespace queue

open fixture

theorem ProcessTask_running {W : Type} (w : Worker W) (task : TaskMessage) (v : W) :
    (w.ProcessTask task v).1.running = w.running := by
  unfold Worker.ProcessTask
  cases w.processor <;> rfl

/-- A step of a goroutine leaves `qm.running`, the point of `Stop` and whether
the queue is closed as they are, and every worker running or stopped as it was. -/
theorem runStep_frame {W : Type} (s : Shutdown W) (g : Nat) (v : W) :
    (s.runStep g v).1.running = s.running ∧
    (s.runStep g v).1.stop = s.stop ∧
    (s.runStep g v).1.queue.closed = s.queue.closed ∧
    (s.runStep g v).1.workers.length = s.workers.length ∧
    (∀ (j : Nat) (w : Worker W), (s.runStep g v).1.workers[j]? = some w →
      ∃ w0, s.workers[j]? = some w0 ∧ w.running = w0.running) := by
  unfold Shutdown.runStep
  cases hg : s.runners[g]? with
  | none => refine ⟨?_, ?_, ?_, ?_, ?_⟩ <;>
        first | rfl | trivial | (intro j w h; exact ⟨w, h, rfl⟩)
  | some r =>
    simp only
    cases hp : r.point with
    | receiving =>
      simp only
      cases hb : s.queue.buf with
      | nil =>
        simp only
        cases hc : s.queue.closed with
        | true =>
          simp only [if_true]
          refine ⟨?_, ?_, ?_, ?_, ?_⟩ <;>
            first | rfl | trivial | exact hc | (intro j w h; exact ⟨w, h, rfl⟩)
        | false =>
          simp only [Bool.false_eq_true, if_false]
          refine ⟨?_, ?_, ?_, ?_, ?_⟩ <;>
        first | rfl | trivial | (intro j w h; exact ⟨w, h, rfl⟩)
      | cons task rest => refine ⟨?_, ?_, ?_, ?_, ?_⟩ <;>
        first | rfl | trivial | (intro j w h; exact ⟨w, h, rfl⟩)
    | parked => refine ⟨?_, ?_, ?_, ?_, ?_⟩ <;>
        first | rfl | trivial | (intro j w h; exact ⟨w, h, rfl⟩)
    | received task =>
      simp only
      cases hw : s.workers[r.worker]? with
      | none => refine ⟨?_, ?_, ?_, ?_, ?_⟩ <;>
        first | rfl | trivial | (intro j w h; exact ⟨w, h, rfl⟩)
      | some worker =>
        simp only
        cases worker.IsRunning with
        | true => refine ⟨?_, ?_, ?_, ?_, ?_⟩ <;>
        first | rfl | trivial | (intro j w h; exact ⟨w, h, rfl⟩)
        | false => refine ⟨?_, ?_, ?_, ?_, ?_⟩ <;>
        first | rfl | trivial | (intro j w h; exact ⟨w, h, rfl⟩)
    | processing task =>
      simp only
      cases hw : s.workers[r.worker]? with
      | none => refine ⟨?_, ?_, ?_, ?_, ?_⟩ <;>
        first | rfl | trivial | (intro j w h; exact ⟨w, h, rfl⟩)
      | some worker =>
        simp only
        refine ⟨?_, ?_, ?_, ?_, ?_⟩
        · first | rfl | trivial
        · first | rfl | trivial
        · first | rfl | trivial
        · simp
        intro j w h
        rw [List.getElem?_set] at h
        by_cases hj : r.worker = j
        · rw [if_pos hj] at h
          split at h
          · injection h with h
            rw [← h, ← hj]
            exact ⟨worker, hw, ProcessTask_running worker task v⟩
          · cases h
        · rw [if_neg hj] at h
          exact ⟨w, h, rfl⟩
    | returned => refine ⟨?_, ?_, ?_, ?_, ?_⟩ <;>
        first | rfl | trivial | (intro j w h; exact ⟨w, h, rfl⟩)

theorem runStep_of_all_returned {W : Type} (s : Shutdown W) (g : Nat) (v : W)
    (h : ∀ x ∈ s.runners, x.point = Point.returned) : s.runStep g v = (s, v) := by
  unfold Shutdown.runStep
  cases hg : s.runners[g]? with
  | none => rfl
  | some r =>
    simp only
    rw [h r (List.mem_iff_getElem?.2 ⟨g, hg⟩)]

theorem beginStop_inv {W : Type} (qm : Manager W) (s : Shutdown W)
    (h : qm.beginStop = .ok s) : s.Inv ∧ s.stop = StopPoint.stopping 0 ∧
      s.queue = qm.queue ∧ s.workers = qm.workers := by
  unfold Manager.beginStop at h
  split at h
  · cases h
  · injection h with h
    rw [← h]
    refine ⟨⟨rfl, ?_, ?_, ?_, ?_⟩, rfl, rfl, rfl⟩
    · intro i hi j w hj
      injection hi with hi
      omega
    · intro hne
      exact absurd rfl (hne 0)
    · rintro (h0 | h0) <;> cases h0
    · intro h0
      cases h0

theorem inv_of_start {W : Type} (s : Shutdown W) (hrun : s.running = false)
    (hstop : s.stop = StopPoint.stopping 0) : s.Inv := by
  refine ⟨hrun, ?_, ?_, ?_, ?_⟩
  · intro i hi j w hj
    rw [hstop] at hi
    injection hi with hi
    omega
  · intro hne
    exact absurd hstop (hne 0)
  · rintro (h0 | h0) <;> rw [hstop] at h0 <;> cases h0
  · intro h0
    rw [hstop] at h0
    cases h0

theorem runStep_inv {W : Type} (s : Shutdown W) (g : Nat) (v : W) (h : s.Inv) :
    (s.runStep g v).1.Inv := by
  obtain ⟨f1, f2, f3, _, f5⟩ := runStep_frame s g v
  obtain ⟨h1, h2, h3, h4, h5⟩ := h
  refine ⟨by rw [f1]; exact h1, ?_, ?_, ?_, ?_⟩
  · intro i hi j w hj hw
    rw [f2] at hi
    obtain ⟨w0, hw0, hr⟩ := f5 j w hw
    rw [hr]
    exact h2 i hi j w0 hj hw0
  · intro hne w hw
    rw [f2] at hne
    obtain ⟨j, hj⟩ := List.mem_iff_getElem?.1 hw
    obtain ⟨w0, hw0, hr⟩ := f5 j w hj
    rw [hr]
    exact h3 hne w0 (List.mem_iff_getElem?.2 ⟨j, hw0⟩)
  · intro hs
    rw [f2] at hs
    rw [f3]
    exact h4 hs
  · intro hs
    rw [f2] at hs
    rw [runStep_of_all_returned s g v (h5 hs)]
    exact h5 hs

theorem stopStep_inv {W : Type} (s : Shutdown W) (h : s.Inv) : s.stopStep.Inv := by
  obtain ⟨h1, h2, h3, h4, h5⟩ := h
  unfold Shutdown.stopStep
  cases hs : s.stop with
  | stopping i =>
    simp only
    by_cases hi : i < s.workers.length
    · rw [if_pos hi]
      refine ⟨h1, ?_, ?_, ?_, ?_⟩
      · intro i' hi' j w hj hw
        injection hi' with hi'
        simp only at hw
        rw [List.getElem?_modify] at hw
        cases hw0 : s.workers[j]? with
        | none =>
          rw [hw0] at hw
          cases hw
        | some w0 =>
          rw [hw0] at hw
          simp only [Option.map_eq_map, Option.map_some', Option.some.injEq] at hw
          rw [← hw]
          by_cases hij : i = j
          · rw [if_pos hij]
            rfl
          · rw [if_neg hij]
            exact h2 i hs j w0 (by omega) hw0
      · intro hne
        exact absurd rfl (hne (i + 1))
      · rintro (h0 | h0) <;> cases h0
      · intro h0
        cases h0
    · rw [if_neg hi]
      refine ⟨h1, ?_, ?_, ?_, ?_⟩
      · intro i' hi'
        cases hi'
      · intro _ w hw
        obtain ⟨j, hj⟩ := List.mem_iff_getElem?.1 hw
        have hlt : j < s.workers.length := (List.getElem?_eq_some_iff.1 hj).1
        exact h2 i hs j w (by omega) hj
      · rintro (h0 | h0) <;> cases h0
      · intro h0
        cases h0
  | closing =>
    simp only
    have hall : ∀ w ∈ s.workers, w.running = false :=
      h3 (fun i hne => by rw [hs] at hne; cases hne)
    by_cases hc : s.queue.closed = true
    · rw [if_pos hc]
      refine ⟨h1, ?_, fun _ => hall, ?_, ?_⟩
      · intro i' hi'
        cases hi'
      · rintro (h0 | h0) <;> cases h0
      · intro h0
        cases h0
    · rw [if_neg hc]
      refine ⟨h1, ?_, fun _ => hall, fun _ => rfl, ?_⟩
      · intro i' hi'
        cases hi'
      · intro h0
        cases h0
  | waiting =>
    simp only
    have hall : ∀ w ∈ s.workers, w.running = false :=
      h3 (fun i hne => by rw [hs] at hne; cases hne)
    have hcl : s.queue.closed = true := h4 (Or.inl hs)
    by_cases hr : ∀ x ∈ s.runners, x.point = Point.returned
    · rw [if_pos hr]
      refine ⟨h1, ?_, fun _ => hall, fun _ => hcl, fun _ => hr⟩
      intro i' hi'
      cases hi'
    · rw [if_neg hr]
      exact ⟨h1, h2, h3, h4, h5⟩
  | returned => exact ⟨h1, h2, h3, h4, h5⟩
  | panicked msg => exact ⟨h1, h2, h3, h4, h5⟩

theorem runStop_inv {W : Type} (ops : List StopOp) (s : Shutdown W) (v : W) (h : s.Inv) :
    (runStop ops s v).1.Inv := by
  induction ops generalizing s v with
  | nil => exact h
  | cons op ops ih =>
    simp only [runStop]
    apply ih
    cases op with
    | stop => exact stopStep_inv s h
    | run g => exact runStep_inv s g v h

end queue

namespace queue

open fixture

theorem inFlight_cons (x : Runner) (rs : List Runner) :
    inFlight (x :: rs) = x.inFlight ++ inFlight rs := by
  simp [inFlight]

theorem takers_cons (x : Runner) (rs : List Runner) :
    takers (x :: rs) = x.taking + takers rs := by
  simp [takers]

theorem inFlight_setPoint (rs : List Runner) (g : Nat) (point : Point) (r : Runner)
    (h : rs[g]? = some r) (p : Nat × TaskMessage) :
    List.count p (inFlight (setPoint rs g point)) + List.count p r.inFlight =
      List.count p (inFlight rs) + List.count p (Runner.inFlight ⟨r.worker, point⟩) := by
  induction rs generalizing g with
  | nil => simp at h
  | cons x rs ih =>
    cases g with
    | zero =>
      simp only [List.getElem?_cons_zero, Option.some.injEq] at h
      subst h
      unfold setPoint
      rw [List.modify_zero_cons, inFlight_cons, inFlight_cons, List.count_append,
        List.count_append]
      omega
    | succ g =>
      simp only [List.getElem?_cons_succ] at h
      have := ih g h
      unfold setPoint at this ⊢
      rw [List.modify_succ_cons, inFlight_cons, inFlight_cons, List.count_append,
        List.count_append]
      omega

theorem takers_setPoint (rs : List Runner) (g : Nat) (point : Point) (r : Runner)
    (h : rs[g]? = some r) :
    takers (setPoint rs g point) + r.taking =
      takers rs + Runner.taking ⟨r.worker, point⟩ := by
  induction rs generalizing g with
  | nil => simp at h
  | cons x rs ih =>
    cases g with
    | zero =>
      simp only [List.getElem?_cons_zero, Option.some.injEq] at h
      subst h
      unfold setPoint
      rw [List.modify_zero_cons, takers_cons, takers_cons]
      omega
    | succ g =>
      simp only [List.getElem?_cons_succ] at h
      have := ih g h
      unfold setPoint at this ⊢
      rw [List.modify_succ_cons, takers_cons, takers_cons]
      omega

/-- The release of the parked receivers by `close` changes neither the calls
of `ProcessTask` under way nor the goroutines that will receive. -/
theorem release_parked (rs : List Runner) :
    inFlight (rs.map (fun x =>
      if x.point = Point.parked then (⟨x.worker, Point.returned⟩ : Runner) else x)) =
      inFlight rs ∧
    takers (rs.map (fun x =>
      if x.point = Point.parked then (⟨x.worker, Point.returned⟩ : Runner) else x)) =
      takers rs := by
  induction rs with
  | nil => exact ⟨rfl, rfl⟩
  | cons x rs ih =>
    rw [List.map_cons, inFlight_cons, inFlight_cons, takers_cons, takers_cons, ih.1, ih.2]
    by_cases hp : x.point = Point.parked
    · rw [if_pos hp]
      simp [Runner.inFlight, Runner.taking, hp]
    · rw [if_neg hp]
      exact ⟨rfl, rfl⟩

theorem stopStep_frame {W : Type} (s : Shutdown W) :
    inFlight s.stopStep.runners = inFlight s.runners ∧
    takers s.stopStep.runners = takers s.runners ∧
    s.stopStep.queue.buf = s.queue.buf ∧
    ((∀ i, s.stop ≠ StopPoint.stopping i) → ∀ i, s.stopStep.stop ≠ StopPoint.stopping i) := by
  unfold Shutdown.stopStep
  cases hs : s.stop with
  | stopping i =>
    simp only
    split
    · exact ⟨rfl, rfl, rfl, fun h => absurd rfl (h i)⟩
    · exact ⟨rfl, rfl, rfl, fun h => absurd rfl (h i)⟩
  | closing =>
    simp only
    split
    · exact ⟨rfl, rfl, rfl, fun _ i h => StopPoint.noConfusion h⟩
    · exact ⟨(release_parked s.runners).1, (release_parked s.runners).2, rfl,
        fun _ i h => StopPoint.noConfusion h⟩
  | waiting =>
    simp only
    split
    · exact ⟨rfl, rfl, rfl, fun _ i h => StopPoint.noConfusion h⟩
    · exact ⟨rfl, rfl, rfl, fun _ i h => by rw [hs] at h; cases h⟩
  | returned => exact ⟨rfl, rfl, rfl, fun _ i h => by rw [hs] at h; cases h⟩
  | panicked msg => exact ⟨rfl, rfl, rfl, fun _ i h => by rw [hs] at h; cases h⟩

/-- A step of a goroutine when every worker is stopped: the calls of
`ProcessTask` under way before it are the call it makes and the calls under way
after it; it takes at most the head of the queue, and only when the goroutine
was among those that will receive. -/
theorem runStep_stopped {W : Type} (s : Shutdown W) (g : Nat) (v : W)
    (hall : ∀ w ∈ s.workers, w.running = false) (p : Nat × TaskMessage) :
    List.count p (inFlight s.runners) =
      List.count p (s.processCall g) + List.count p (inFlight (s.runStep g v).1.runners) ∧
    (s.runStep g v).1.queue.buf <:+ s.queue.buf ∧
    s.queue.buf.length + takers (s.runStep g v).1.runners ≤
      (s.runStep g v).1.queue.buf.length + takers s.runners := by
  unfold Shutdown.runStep Shutdown.processCall
  cases hg : s.runners[g]? with
  | none => exact ⟨by simp, List.suffix_refl _, Nat.le_refl _⟩
  | some r =>
    simp only
    cases hp : r.point with
    | receiving =>
      simp only
      cases hb : s.queue.buf with
      | nil =>
        simp only
        cases hc : s.queue.closed with
        | true =>
          simp only [if_true]
          have e1 := inFlight_setPoint s.runners g Point.returned r hg p
          have e2 := takers_setPoint s.runners g Point.returned r hg
          simp only [Runner.inFlight, Runner.taking, hp, List.count_nil] at e1 e2
          rw [hb]
          refine ⟨by simp only [List.count_nil]; omega, List.suffix_refl _, ?_⟩
          simp only [List.length_nil]
          omega
        | false =>
          simp only [Bool.false_eq_true, if_false]
          have e1 := inFlight_setPoint s.runners g Point.parked r hg p
          have e2 := takers_setPoint s.runners g Point.parked r hg
          simp only [Runner.inFlight, Runner.taking, hp, List.count_nil] at e1 e2
          refine ⟨by simp only [List.count_nil]; omega, List.suffix_refl _, ?_⟩
          simp only [List.length_nil]
          omega
      | cons task rest =>
        simp only
        have e1 := inFlight_setPoint s.runners g (Point.received task) r hg p
        have e2 := takers_setPoint s.runners g (Point.received task) r hg
        simp only [Runner.inFlight, Runner.taking, hp, List.count_nil] at e1 e2
        refine ⟨by simp only [List.count_nil]; omega, List.suffix_cons _ _, ?_⟩
        simp only [List.length_cons]
        omega
    | parked => exact ⟨by simp, List.suffix_refl _, Nat.le_refl _⟩
    | received task =>
      simp only
      cases hw : s.workers[r.worker]? with
      | none => exact ⟨by simp, List.suffix_refl _, Nat.le_refl _⟩
      | some worker =>
        have hstop : worker.IsRunning = false :=
          hall worker (List.mem_iff_getElem?.2 ⟨r.worker, hw⟩)
        simp only [hstop, Bool.not_false, if_true]
        have e1 := inFlight_setPoint s.runners g Point.returned r hg p
        have e2 := takers_setPoint s.runners g Point.returned r hg
        simp only [Runner.inFlight, Runner.taking, hp, List.count_nil] at e1 e2
        refine ⟨by simp only [List.count_nil]; omega, List.suffix_refl _, ?_⟩
        omega
    | processing task =>
      simp only
      cases hw : s.workers[r.worker]? with
      | none => exact ⟨by simp, List.suffix_refl _, Nat.le_refl _⟩
      | some worker =>
        simp only
        have e1 := inFlight_setPoint s.runners g Point.receiving r hg p
        have e2 := takers_setPoint s.runners g Point.receiving r hg
        simp only [Runner.inFlight, Runner.taking, hp, List.count_nil] at e1 e2
        refine ⟨by omega, List.suffix_refl _, ?_⟩
        omega
    | returned => exact ⟨by simp, List.suffix_refl _, Nat.le_refl _⟩

end queue

namespace queue

open fixture

theorem runStop_stopped {W : Type} (ops : List StopOp) (s : Shutdown W) (v : W)
    (hinv : s.Inv) (hns : ∀ i, s.stop ≠ StopPoint.stopping i) (p : Nat × TaskMessage) :
    List.count p (inFlight s.runners) =
      List.count p (processedIn ops s v) +
        List.count p (inFlight (runStop ops s v).1.runners) ∧
    (runStop ops s v).1.queue.buf <:+ s.queue.buf ∧
    s.queue.buf.length + takers (runStop ops s v).1.runners ≤
      (runStop ops s v).1.queue.buf.length + takers s.runners := by
  induction ops generalizing s v with
  | nil => exact ⟨by simp [processedIn, runStop], List.suffix_refl _, Nat.le_refl _⟩
  | cons op ops ih =>
    cases op with
    | stop =>
      obtain ⟨f1, f2, f3, f4⟩ := stopStep_frame s
      obtain ⟨a1, a2, a3⟩ := ih s.stopStep v (stopStep_inv s hinv) (f4 hns)
      simp only [runStop, processedIn, StopOp.exec]
      rw [f1] at a1
      rw [f3] at a2 a3
      rw [f2] at a3
      exact ⟨a1, a2, a3⟩
    | run g =>
      obtain ⟨_, f2, _⟩ := runStep_frame s g v
      obtain ⟨b1, b2, b3⟩ := runStep_stopped s g v (hinv.2.2.1 hns) p
      obtain ⟨a1, a2, a3⟩ := ih (s.runStep g v).1 (s.runStep g v).2 (runStep_inv s g v hinv)
        (by rw [f2]; exact hns)
      simp only [runStop, processedIn, StopOp.exec, List.count_append]
      exact ⟨by omega, a2.trans b2, by omega⟩

/-- The calls of `ProcessTask` that `processCall` lists are the calls that
`runStep` makes: with a call listed, the step leaves the world of `ProcessTask`
of that worker on that task and the worker with its counter raised; with none
listed, it leaves the world and the workers as they are. -/
theorem Shutdown.processCall_of_runStep {W : Type} (s : Shutdown W) (g : Nat) (v : W) :
    (s.processCall g = [] → (s.runStep g v).2 = v ∧ (s.runStep g v).1.workers = s.workers) ∧
    (∀ (i : Nat) (task : TaskMessage), s.processCall g = [(i, task)] →
      ∃ worker, s.workers[i]? = some worker ∧
        (s.runStep g v).2 = (worker.ProcessTask task v).2.world ∧
        (s.runStep g v).1.workers = s.workers.set i (worker.ProcessTask task v).1) := by
  unfold Shutdown.runStep Shutdown.processCall
  cases hg : s.runners[g]? with
  | none => simp
  | some r =>
    simp only
    cases hp : r.point with
    | receiving =>
      simp only
      cases hb : s.queue.buf with
      | nil =>
        simp only
        cases s.queue.closed <;> simp
      | cons task rest => simp
    | parked => simp
    | received task =>
      simp only
      cases hw : s.workers[r.worker]? with
      | none => simp
      | some worker =>
        simp only
        cases worker.IsRunning <;> simp
    | processing task =>
      simp only
      cases hw : s.workers[r.worker]? with
      | none => simp
      | some worker =>
        simp only
        refine ⟨fun h => List.noConfusion h, ?_⟩
        intro i t h
        simp only [List.cons.injEq, Prod.mk.injEq, and_true] at h
        obtain ⟨h1, h2⟩ := h
        subst h1 h2
        exact ⟨worker, hw, rfl, rfl⟩
    | returned => simp

/-- C20, amended: `Stop` has made its first statements (`qm.running` is `false`
and its loop over the workers begins), the goroutines standing anywhere, also
in a call of `ProcessTask`; then the statements of `Stop` and of the goroutines
run in any order. `qm.running` stays `false`, so that `Enqueue` returns the
error that the manager is not running; and when `Stop` has returned, every
goroutine has returned, the queue is closed and every worker is stopped. But
the queued tasks are not all processed: once `Stop` has left its loop over the
workers, every worker is stopped and no call of `ProcessTask` is begun any
more. The calls made from then on are, up to order, the calls that were under
way and are not under way at the end; the queue at the end is an end segment of
the queue then, and the tasks taken out of it, which are dropped, are at most
as many as the goroutines that were about to receive or in a call. A step makes
a call of `ProcessTask`, and changes the world and a worker, exactly when
`processCall` lists the call. The first statements of `Stop` on a running
manager give such a start. -/
theorem Stop_discards_tasks_of_stopped_workers {W : Type} (qm : Manager W) (v : W)
    (s0 : Shutdown W) (ops1 ops2 : List StopOp) (s1 s2 : Shutdown W × W)
    (hrun : s0.running = false) (hstop : s0.stop = StopPoint.stopping 0)
    (h1 : runStop ops1 s0 v = s1) (h2 : runStop ops2 s1.1 s1.2 = s2) :
    s2.1.running = false ∧
    (∀ (gs : List Goroutine) (task : TaskMessage),
      (Manager.Enqueue ⟨s2.1.queue, s2.1.workers, s2.1.maxSize, s2.1.running, gs⟩ task).1 =
        Ret.ret (some "queue manager is not running")) ∧
    (s2.1.stop = StopPoint.returned →
      (∀ x ∈ s2.1.runners, x.point = Point.returned) ∧ s2.1.queue.closed = true ∧
      ∀ w ∈ s2.1.workers, w.running = false) ∧
    ((∀ i, s1.1.stop ≠ StopPoint.stopping i) →
      (∀ w ∈ s1.1.workers, w.running = false) ∧
      List.Perm (inFlight s1.1.runners) (processedIn ops2 s1.1 s1.2 ++ inFlight s2.1.runners) ∧
      s2.1.queue.buf <:+ s1.1.queue.buf ∧
      s1.1.queue.buf.length ≤ s2.1.queue.buf.length + takers s1.1.runners) ∧
    (∀ (s : Shutdown W) (g : Nat) (u : W),
      (s.processCall g = [] → (s.runStep g u).2 = u ∧ (s.runStep g u).1.workers = s.workers) ∧
      (∀ (i : Nat) (task : TaskMessage), s.processCall g = [(i, task)] →
        ∃ worker, s.workers[i]? = some worker ∧
          (s.runStep g u).2 = (worker.ProcessTask task u).2.world ∧
          (s.runStep g u).1.workers = s.workers.set i (worker.ProcessTask task u).1)) ∧
    (∀ s : Shutdown W, qm.beginStop = .ok s →
      qm.running = true ∧ s.running = false ∧ s.stop = StopPoint.stopping 0 ∧
      s.queue = qm.queue ∧ s.workers = qm.workers ∧
      s.runners = qm.goroutines.map (fun gr => ⟨gr.worker, gr.stage.point⟩)) := by
  have i0 := inv_of_start s0 hrun hstop
  have i1 : s1.1.Inv := by
    rw [← h1]
    exact runStop_inv ops1 s0 v i0
  have i2 : s2.1.Inv := by
    rw [← h2]
    exact runStop_inv ops2 s1.1 s1.2 i1
  refine ⟨i2.1, ?_, ?_, ?_, fun s g u => Shutdown.processCall_of_runStep s g u, ?_⟩
  · intro gs task
    unfold Manager.Enqueue
    simp only [i2.1]
    rfl
  · intro hr
    refine ⟨i2.2.2.2.2 hr, i2.2.2.2.1 (Or.inr hr), i2.2.2.1 ?_⟩
    intro i hi
    rw [hr] at hi
    cases hi
  · intro hns
    refine ⟨i1.2.2.1 hns, ?_, ?_, ?_⟩
    · rw [List.perm_iff_count]
      intro p
      have := (runStop_stopped ops2 s1.1 s1.2 i1 hns p).1
      rw [h2] at this
      rw [count_pair_eq, count_pair_eq, List.count_append]
      exact this
    · have := (runStop_stopped ops2 s1.1 s1.2 i1 hns (0, task "" "")).2.1
      rw [h2] at this
      exact this
    · have := (runStop_stopped ops2 s1.1 s1.2 i1 hns (0, task "" "")).2.2
      rw [h2] at this
      omega
  · intro s hs
    unfold Manager.beginStop at hs
    cases hr : qm.running with
    | false =>
      rw [hr] at hs
      cases hs
    | true =>
      rw [hr] at hs
      simp only [Bool.not_true, Bool.false_eq_true, if_false] at hs
      injection hs with hs
      rw [← hs]
      exact ⟨rfl, rfl, rfl, rfl, rfl, rfl⟩

end queue

namespace queue

open fixture

/-- Witness of C20, amended: `Stop` on the manager with one worker and the
queued tasks `a` and `b`. When the goroutine has passed the check of
`IsRunning` before `Stop` stops its worker, the call of `ProcessTask` on `a` is
completed while `Stop` runs, `b` is taken and dropped, and the worker has
handled one task; when the goroutine runs only after the loop, `a` is taken and
dropped, `b` stays in the closed queue and the worker has handled no task. And
when the goroutine was in the call on `a` as `Stop` was called, the call is
completed and `b` is taken and dropped. -/
theorem Stop_discards_tasks_of_stopped_workers_witness :
    twoQueued.beginStop = .ok stoppingTwoQueued ∧
    (runStop raceBefore stoppingTwoQueued ()).1.stop = StopPoint.closing ∧
    inFlight (runStop raceBefore stoppingTwoQueued ()).1.runners = [(0, task "upload" "a")] ∧
    (runStop raceBefore stoppingTwoQueued ()).1.queue.buf = [task "upload" "b"] ∧
    (runStop raceAfter (runStop raceBefore stoppingTwoQueued ()).1 ()).1.stop =
      StopPoint.returned ∧
    (runStop raceAfter (runStop raceBefore stoppingTwoQueued ()).1 ()).1.queue.buf = [] ∧
    (runStop raceAfter (runStop raceBefore stoppingTwoQueued ()).1 ()).1.workers.map
      (fun worker => worker.GetTasksProcessed) = [1] ∧
    List.Perm (inFlight (runStop raceBefore stoppingTwoQueued ()).1.runners)
      (processedIn raceAfter (runStop raceBefore stoppingTwoQueued ()).1 () ++
        inFlight (runStop raceAfter (runStop raceBefore stoppingTwoQueued ()).1 ()).1.runners) ∧
    (runStop aloneBefore stoppingTwoQueued ()).1.queue.buf =
      [task "upload" "a", task "upload" "b"] ∧
    (runStop aloneAfter (runStop aloneBefore stoppingTwoQueued ()).1 ()).1.stop =
      StopPoint.returned ∧
    (runStop aloneAfter (runStop aloneBefore stoppingTwoQueued ()).1 ()).1.queue.buf =
      [task "upload" "b"] ∧
    (runStop aloneAfter (runStop aloneBefore stoppingTwoQueued ()).1 ()).1.workers.map
      (fun worker => worker.GetTasksProcessed) = [0] ∧
    processedIn aloneAfter (runStop aloneBefore stoppingTwoQueued ()).1 () = [] ∧
    ((runStop aloneAfter (runStop aloneBefore stoppingTwoQueued ()).1 ()).1.stop =
        StopPoint.returned →
      (∀ x ∈ (runStop aloneAfter (runStop aloneBefore stoppingTwoQueued ()).1 ()).1.runners,
        x.point = Point.returned) ∧
      (runStop aloneAfter (runStop aloneBefore stoppingTwoQueued ()).1 ()).1.queue.closed = true ∧
      ∀ w ∈ (runStop aloneAfter (runStop aloneBefore stoppingTwoQueued ()).1 ()).1.workers,
        w.running = false) ∧
    inFlight (runStop aloneBefore stoppingInFlight ()).1.runners = [(0, task "upload" "a")] ∧
    (runStop raceAfter (runStop aloneBefore stoppingInFlight ()).1 ()).1.stop =
      StopPoint.returned ∧
    (runStop raceAfter (runStop aloneBefore stoppingInFlight ()).1 ()).1.queue.buf = [] ∧
    (runStop raceAfter (runStop aloneBefore stoppingInFlight ()).1 ()).1.workers.map
      (fun worker => worker.GetTasksProcessed) = [1] ∧
    List.Perm (inFlight (runStop aloneBefore stoppingInFlight ()).1.runners)
      (processedIn raceAfter (runStop aloneBefore stoppingInFlight ()).1 () ++
        inFlight (runStop raceAfter (runStop aloneBefore stoppingInFlight ()).1 ()).1.runners) :=
  have hrace := Stop_discards_tasks_of_stopped_workers twoQueued () stoppingTwoQueued
    raceBefore raceAfter (runStop raceBefore stoppingTwoQueued ())
    (runStop raceAfter (runStop raceBefore stoppingTwoQueued ()).1
      (runStop raceBefore stoppingTwoQueued ()).2) rfl rfl rfl rfl
  have hflight := Stop_discards_tasks_of_stopped_workers twoQueued () stoppingInFlight
    aloneBefore raceAfter (runStop aloneBefore stoppingInFlight ())
    (runStop raceAfter (runStop aloneBefore stoppingInFlight ()).1
      (runStop aloneBefore stoppingInFlight ()).2) rfl rfl rfl rfl
  have halone := Stop_discards_tasks_of_stopped_workers twoQueued () stoppingTwoQueued
    aloneBefore aloneAfter (runStop aloneBefore stoppingTwoQueued ())
    (runStop aloneAfter (runStop aloneBefore stoppingTwoQueued ()).1
      (runStop aloneBefore stoppingTwoQueued ()).2) rfl rfl rfl rfl
  ⟨rfl, rfl, rfl, rfl, rfl, rfl, rfl,
    (hrace.2.2.2.1 (fun i h => by
      have hc : (runStop raceBefore stoppingTwoQueued ()).1.stop = StopPoint.closing := rfl
      rw [hc] at h
      cases h)).2.1,
    rfl, rfl, rfl, rfl, rfl, halone.2.2.1, rfl, rfl, rfl, rfl,
    (hflight.2.2.2.1 (fun i h => by
      have hc : (runStop aloneBefore stoppingInFlight ()).1.stop = StopPoint.closing := rfl
      rw [hc] at h
      cases h)).2.1⟩

end queue
